import Mathlib

/-!
PhysicalCopyToFile: the parallel output-writing operator

A shallow embedding of `src/execution/operator/persistent/physical_copy_to_file.cpp`.
Strings are sequences of characters (one `Char` per C++ `char`), `idx_t` values are
natural numbers reduced modulo `2^64` wherever the code does arithmetic on them, and
every method that touches the file system or the copy function threads an explicit
`ClientContext` holding the file-system state and the log of calls made so far.

Three smaller embeddings follow the operator: the `sample_size` branch of `ReadJSONBind`
(`extension/json/json_functions/read_json.cpp`), the serialization of `LogicalCTERef`
(`src/planner/operator/logical_cteref.cpp`) and the table function `pragma_functions`
(`src/function/table/sqlite/pragma_functions.cpp`, in the namespace `sqlite`).
-/

namespace duckdb

/-- Number of values of the unsigned 64-bit type `idx_t`. -/
def idx_t_size : Nat := 2 ^ 64

/-- What a method can throw (or how it can crash) instead of returning. -/
inductive Exc where
  | IOException (msg : String)
  | out_of_range
  | null_pointer
  | index_out_of_bounds
  deriving DecidableEq, Repr

deriving instance DecidableEq for Except

/-- The call `to_string(n)` of the C++ standard library on an unsigned integer: the decimal digits
of `n`, most significant first. -/
def to_string (n : Nat) : String := Nat.repr n

/-- The call `s.insert(pos, r)` of `std::string` for `pos <= s.size()`. -/
def string_insert (s : String) (pos : Nat) (r : String) : String :=
  ⟨s.data.take pos ++ r.data ++ s.data.drop pos⟩

/-- The call `s.substr(0, n)` of `std::string`: the first `n` characters, the whole string when
`n` exceeds its length. -/
def substr0 (s : String) (n : Nat) : String := ⟨s.data.take n⟩

/-- Reads a string of decimal digits back as a number. -/
def read_decimal (s : String) : Nat :=
  s.data.foldl (fun acc c => acc * 10 + (c.toNat - 48)) 0

/-! ## Collaborators declared outside the translated file -/

/-- Modelled from the spec: the `Value` class (declared outside `src/`), one literal value of a
partition key; `ToString` renders it the way it appears in a `column=value` path segment. -/
inductive Value where
  | NULL
  | BIGINT (v : Int)
  | VARCHAR (s : String)
  deriving DecidableEq, Repr

/-- Modelled from the spec: `Value::ToString`. -/
def Value.ToString : Value → String
  | .NULL => "NULL"
  | .BIGINT v => toString v
  | .VARCHAR s => s

/-- Modelled from the spec: a `DataChunk` (declared outside `src/`), a batch of rows; `size()` is
its number of rows. -/
structure DataChunk where
  rows : List (List Value)
  deriving DecidableEq, Repr

/-- The call `chunk.size()`. -/
def DataChunk.size (c : DataChunk) : Nat := c.rows.length

/-- The call `chunk.SetCardinality(n)`: the chunk has `n` rows afterwards, the rows it did not
have before being blank. -/
def DataChunk.SetCardinality (c : DataChunk) (n : Nat) : DataChunk :=
  ⟨(List.range n).map (fun i => c.rows.getD i [])⟩

/-- The call `chunk.SetValue(col, row, v)`. -/
def DataChunk.SetValue (c : DataChunk) (col row : Nat) (v : Value) : DataChunk :=
  ⟨c.rows.modify
    (fun r => (List.range (max r.length (col + 1))).map
      (fun j => if j = col then v else r.getD j Value.NULL)) row⟩

/-- The call `chunk.GetValue(col, row)`, when that cell exists. -/
def DataChunk.GetValue (c : DataChunk) (col row : Nat) : Option Value :=
  (c.rows.get? row).bind (fun r => r.get? col)

/-- The call `Value::BIGINT(n)` on an `idx_t`: the conversion to `int64_t` reinterprets the 64
bits as a signed number. -/
def Value.of_idx_t (n : Nat) : Value :=
  .BIGINT (if n % idx_t_size < 2 ^ 63 then (n % idx_t_size : Nat) else (n % idx_t_size : Nat) - 2 ^ 64)

/-- Handle of a format-specific global writer (`GlobalFunctionData`): `id` is the position in the
call log of the `copy_to_initialize_global` call that made it, `file_path` the path it was made
for. -/
structure GlobalFunctionData where
  id : Nat
  file_path : String
  deriving DecidableEq, Repr

/-- Handle of a format-specific local writer (`LocalFunctionData`): `id` is the position in the
call log of the `copy_to_initialize_local` call that made it. -/
structure LocalFunctionData where
  id : Nat
  deriving DecidableEq, Repr

/-- One call the operator makes on the file system or on the copy function. -/
inductive Call where
  | FileExists (path : String)
  | DirectoryExists (path : String)
  | CreateDirectory (path : String)
  | RemoveFile (path : String)
  | MoveFile (source target : String)
  | ListFiles (path : String)
  | copy_to_initialize_global (file_path : String)
  | copy_to_initialize_local
  | copy_to_sink (gdata : GlobalFunctionData) (ldata : LocalFunctionData) (input : DataChunk)
  | copy_to_combine (gdata : GlobalFunctionData) (ldata : LocalFunctionData)
  | copy_to_finalize (gdata : GlobalFunctionData)
  deriving DecidableEq, Repr

/-- Modelled from the spec: the `FileSystem` class (declared outside `src/`). The state is the
regular files (path and content) and the directories; `PathSeparator` and `JoinPath` are the
methods of that name. Existence checks and removal are total. Directory creation is idempotent
on a directory that exists, does not need the parent to exist, and fails on a path held by a
regular file. A rename fails when there is no file at the source, when the target is the empty
path and when the target is a directory. -/
structure FileSystem where
  files : List (String × String)
  dirs : List String
  PathSeparator : String
  JoinPath : String → String → String

namespace FileSystem

/-- Content of the regular file at `path`, if there is one. -/
def content (fs : FileSystem) (path : String) : Option String := fs.files.lookup path

def FileExists (fs : FileSystem) (path : String) : Bool := (fs.files.lookup path).isSome

def DirectoryExists (fs : FileSystem) (path : String) : Bool := fs.dirs.contains path

/-- Creates the directory `path`: nothing to do when it is a directory already, a failure
(`none`) when a regular file holds the path. -/
def CreateDirectory (fs : FileSystem) (path : String) : Option FileSystem :=
  if fs.dirs.contains path then some fs
  else if fs.FileExists path then none
  else some { fs with dirs := fs.dirs ++ [path] }

def RemoveFile (fs : FileSystem) (path : String) : FileSystem :=
  { fs with files := fs.files.filter (fun e => e.1 ≠ path) }

/-- Renames the file at `source` to `target`, replacing a file already there; fails (`none`)
when there is no file at `source`, when `target` is the empty path and when `target` is a
directory. -/
def MoveFile (fs : FileSystem) (source target : String) : Option FileSystem :=
  match fs.files.lookup source with
  | none => none
  | some c =>
    if target = "" ∨ fs.dirs.contains target = true then none
    else
      some { fs with
        files := (target, c) :: fs.files.filter (fun e => e.1 ≠ source ∧ e.1 ≠ target) }

/-- Whether `path` names an entry directly inside directory `dir`: `dir`, a separator, and a
non-empty name free of separator characters. -/
def is_entry (fs : FileSystem) (dir path : String) : Bool :=
  let stem := dir.data ++ fs.PathSeparator.data
  let name := path.data.drop stem.length
  path.data.take stem.length = stem && !name.isEmpty &&
    name.all (fun c => !fs.PathSeparator.data.contains c)

/-- The entries `ListFiles(dir, callback)` reports, files first. -/
def ListFiles (fs : FileSystem) (dir : String) : List String :=
  (fs.files.map Prod.fst ++ fs.dirs).filter (fs.is_entry dir)

end FileSystem

/-- Modelled from the spec: `StringUtil::RTrim(str, chars_to_trim)` (declared outside `src/`):
removes from the end of `str` every character that occurs in `chars_to_trim`. -/
def RTrim (str chars_to_trim : String) : String :=
  ⟨(str.data.reverse.dropWhile (fun c => chars_to_trim.data.contains c)).reverse⟩

/-- What the operator's methods reach through `ClientContext` / `ExecutionContext`: the file
system, the log of the calls made so far on the file system and on the copy function (oldest
first), and the random source of `UUID::GenerateRandomUUID` (`uuids k` is the text of the `k`-th
identifier drawn, `uuid_count` the number drawn so far). -/
structure ClientContext where
  fs : FileSystem
  calls : List Call
  uuids : Nat → String
  uuid_count : Nat

namespace ClientContext

def log (ctx : ClientContext) (c : Call) : ClientContext :=
  { ctx with calls := ctx.calls ++ [c] }

def FileExists (ctx : ClientContext) (path : String) : Bool × ClientContext :=
  (ctx.fs.FileExists path, ctx.log (.FileExists path))

def DirectoryExists (ctx : ClientContext) (path : String) : Bool × ClientContext :=
  (ctx.fs.DirectoryExists path, ctx.log (.DirectoryExists path))

def RemoveFile (ctx : ClientContext) (path : String) : ClientContext :=
  { ctx with fs := ctx.fs.RemoveFile path, calls := ctx.calls ++ [.RemoveFile path] }

def ListFiles (ctx : ClientContext) (path : String) : List String × ClientContext :=
  (ctx.fs.ListFiles path, ctx.log (.ListFiles path))

/-- The text `UUID::ToString(UUID::GenerateRandomUUID())` yields next. -/
def next_uuid (ctx : ClientContext) : String := ctx.uuids ctx.uuid_count

/-- The context after `draw` identifiers were drawn (`draw` is `use_uuid_format`). -/
def drawn (ctx : ClientContext) (draw : Bool) : ClientContext :=
  if draw then { ctx with uuid_count := ctx.uuid_count + 1 } else ctx

end ClientContext

/-- Outcome of a helper that works on the context only: the value returned or the exception
thrown, and the context as the call left it. -/
structure Ret (α : Type) where
  result : Except Exc α
  ctx : ClientContext

/-- The exception `CreateDirectory` throws for a path held by a regular file. -/
def CreateDirectory_exception (path : String) : Exc :=
  .IOException ("Failed to create directory \"" ++ path ++
    "\": path exists but is not a directory!")

/-- The call `fs.CreateDirectory(path)`: it throws an `IOException` when a regular file holds
the path and leaves the file system as it was. -/
def ClientContext.CreateDirectory (ctx : ClientContext) (path : String) : Ret Unit :=
  match ctx.fs.CreateDirectory path with
  | none => ⟨.error (CreateDirectory_exception path), ctx.log (.CreateDirectory path)⟩
  | some fs => ⟨.ok (), { ctx with fs := fs, calls := ctx.calls ++ [.CreateDirectory path] }⟩

/-- Modelled from the spec: `CopyFunction` (declared outside `src/`): the target extension and,
for the two callbacks the operator tests before calling, whether the function pointer is set. -/
structure CopyFunction where
  extension : String
  copy_to_combine : Bool
  copy_to_finalize : Bool
  deriving DecidableEq, Repr

/-! ## Partition buffer -/

/-- Modelled from the spec: one partition bucket of `HivePartitionedColumnData` (declared outside
`src/`): the literal key values (`GetReverseMap()[i]->values`) and the buffered batches
(`GetPartitions()[i]->Chunks()`). -/
structure Partition where
  values : List Value
  chunks : List DataChunk
  deriving DecidableEq, Repr

/-- Modelled from the spec: the append cursor `PartitionedColumnDataAppendState`. -/
structure PartitionedColumnDataAppendState where
  deriving DecidableEq, Repr

/-- Modelled from the spec: the shared partition registry `GlobalHivePartitionState`. -/
structure GlobalHivePartitionState where
  deriving DecidableEq, Repr

/-- Modelled from the spec: `HivePartitionedColumnData`, the per-thread partition router: the
buckets in the order their keys were first seen. -/
structure HivePartitionedColumnData where
  partition_columns : List Nat
  partitions : List Partition
  deriving DecidableEq, Repr

/-- The partition key of a row: its values in the partition columns. -/
def row_key (partition_columns : List Nat) (row : List Value) : List Value :=
  partition_columns.map (fun c => row.getD c Value.NULL)

/-- Buffers `chunk` in the bucket of key `key`, opening the bucket when the key is new. -/
def buffer_chunk (key : List Value) (chunk : DataChunk) : List Partition → List Partition
  | [] => [⟨key, [chunk]⟩]
  | p :: ps =>
    if p.values = key then ⟨p.values, p.chunks ++ [chunk]⟩ :: ps
    else p :: buffer_chunk key chunk ps

/-- The distinct keys of a list, in the order of first occurrence. -/
def distinct_keys : List (List Value) → List (List Value)
  | [] => []
  | k :: ks => k :: (distinct_keys ks).filter (fun k2 => k2 ≠ k)

/-- Modelled from the spec: `HivePartitionedColumnData::Append`: routes every row of the batch to
the bucket of its key; the rows of one batch that share a key are buffered as one batch. Nothing
is written to storage. -/
def HivePartitionedColumnData.Append (pb : HivePartitionedColumnData) (input : DataChunk) :
    HivePartitionedColumnData :=
  let keys := distinct_keys (input.rows.map (row_key pb.partition_columns))
  { pb with
    partitions := keys.foldl
      (fun ps k => buffer_chunk k ⟨input.rows.filter (fun r => row_key pb.partition_columns r = k)⟩ ps)
      pb.partitions }

/-- Modelled from the spec: `HivePartitionedColumnData::FlushAppendState`: the buffered rows are
already in their buckets. -/
def HivePartitionedColumnData.FlushAppendState (pb : HivePartitionedColumnData) :
    HivePartitionedColumnData := pb

/-! ## Sink states -/

structure CopyToFunctionGlobalState where
  rows_copied : Nat
  last_file_offset : Nat
  global_state : Option GlobalFunctionData
  partition_state : Option GlobalHivePartitionState
  deriving DecidableEq, Repr

/-- The constructor `CopyToFunctionGlobalState(global_state)`. -/
def CopyToFunctionGlobalState.new (global_state : Option GlobalFunctionData) :
    CopyToFunctionGlobalState :=
  { rows_copied := 0, last_file_offset := 0, global_state := global_state, partition_state := none }

structure CopyToFunctionLocalState where
  global_state : Option GlobalFunctionData
  local_state : Option LocalFunctionData
  part_buffer : Option HivePartitionedColumnData
  part_buffer_append_state : Option PartitionedColumnDataAppendState
  writer_offset : Nat
  deriving DecidableEq, Repr

/-- The constructor `CopyToFunctionLocalState(local_state)`. -/
def CopyToFunctionLocalState.new (local_state : Option LocalFunctionData) :
    CopyToFunctionLocalState :=
  { global_state := none, local_state := local_state, part_buffer := none,
    part_buffer_append_state := none, writer_offset := 0 }

/-- Outcome of a method that is handed the global sink state: the value returned or the exception
thrown, the context and the global sink state as the call left them. -/
structure Outcome (α : Type) where
  result : Except Exc α
  ctx : ClientContext
  gstate : CopyToFunctionGlobalState

/-- The operator and its configuration. `bind_data`, passed unchanged to every callback, and
`expected_types` are left out. -/
structure PhysicalCopyToFile where
  function : CopyFunction
  file_path : String
  use_tmp_file : Bool
  fileformat : String
  format_position : Nat
  overwrite_or_ignore : Bool
  use_uuid_format : Bool
  per_thread_output : Bool
  partition_output : Bool
  partition_columns : List Nat
  names : List String

/-! ## Sink -/

/-- `PhysicalCopyToFile::CreateFilename`; `uuid` is the text that
`UUID::ToString(UUID::GenerateRandomUUID())` yields at this call. `std::string::insert` throws
`out_of_range` when the position is beyond the end of the string. -/
def PhysicalCopyToFile.CreateFilename (op : PhysicalCopyToFile) (fs : FileSystem)
    (path extension : String) (writer_offset : Nat) (uuid : String) : Except Exc String :=
  let result := op.fileformat
  let replacement := if op.use_uuid_format then uuid else to_string writer_offset
  if op.format_position ≤ result.length then
    .ok (fs.JoinPath path (string_insert result op.format_position replacement ++ "." ++ extension))
  else
    .error .out_of_range

/-- `MoveTmpFile`; `length() - 4` is computed in `size_t`. -/
def MoveTmpFile (ctx : ClientContext) (tmp_file_path : String) : Ret Unit :=
  let file_path := substr0 tmp_file_path ((tmp_file_path.length + idx_t_size - 4) % idx_t_size)
  let (file_exists, ctx1) := ctx.FileExists file_path
  let ctx2 := if file_exists then ctx1.RemoveFile file_path else ctx1
  let ctx3 := ctx2.log (.MoveFile tmp_file_path file_path)
  match ctx2.fs.MoveFile tmp_file_path file_path with
  | none => ⟨.error (.IOException "Could not rename file!"), ctx3⟩
  | some fs => ⟨.ok (), { ctx3 with fs := fs }⟩

/-- `PhysicalCopyToFile::Sink`; the value returned is the local state as the call left it (the
C++ result is always `NEED_MORE_INPUT`). -/
def PhysicalCopyToFile.Sink (op : PhysicalCopyToFile) (ctx : ClientContext)
    (g : CopyToFunctionGlobalState) (l : CopyToFunctionLocalState) (input : DataChunk) :
    Outcome CopyToFunctionLocalState :=
  if op.partition_output then
    match l.part_buffer, l.part_buffer_append_state with
    | some part_buffer, some _ =>
      ⟨.ok { l with part_buffer := some (part_buffer.Append input) }, ctx, g⟩
    | _, _ => ⟨.error .null_pointer, ctx, g⟩
  else
    let g1 := { g with rows_copied := (g.rows_copied + input.size) % idx_t_size }
    match (if op.per_thread_output then l.global_state else g.global_state), l.local_state with
    | some gdata, some ldata => ⟨.ok l, ctx.log (.copy_to_sink gdata ldata input), g1⟩
    | _, _ => ⟨.error .null_pointer, ctx, g1⟩

/-- `CreateDir`. -/
def CreateDir (dir_path : String) (ctx : ClientContext) : Ret Unit :=
  let (dir_exists, ctx1) := ctx.DirectoryExists dir_path
  if !dir_exists then ctx1.CreateDirectory dir_path else ⟨.ok (), ctx1⟩

/-- The loop of `CreateDirRecursive`, with `fuel` iterations left from index `i` on. -/
def CreateDirRecursive_loop (cols : List Nat) (names : List String) (values : List Value) :
    Nat → Nat → String → ClientContext → Ret String
  | 0, _, path, ctx => ⟨.ok path, ctx⟩
  | fuel + 1, i, path, ctx =>
    match cols.get? i with
    | none => ⟨.error .index_out_of_bounds, ctx⟩
    | some col =>
      match names.get? col, values.get? i with
      | some partition_col_name, some partition_value =>
        let p_dir := partition_col_name ++ "=" ++ partition_value.ToString
        let path1 := ctx.fs.JoinPath path p_dir
        match (CreateDir path1 ctx).result with
        | .error e => ⟨.error e, (CreateDir path1 ctx).ctx⟩
        | .ok _ =>
          CreateDirRecursive_loop cols names values fuel (i + 1) path1 (CreateDir path1 ctx).ctx
      | _, _ => ⟨.error .index_out_of_bounds, ctx⟩

/-- `CreateDirRecursive`; an exception of a directory creation ends it. -/
def CreateDirRecursive (cols : List Nat) (names : List String) (values : List Value)
    (path : String) (ctx : ClientContext) : Ret String :=
  match (CreateDir path ctx).result with
  | .error e => ⟨.error e, (CreateDir path ctx).ctx⟩
  | .ok _ => CreateDirRecursive_loop cols names values cols.length 0 path (CreateDir path ctx).ctx

/-- One iteration of the loop of `Combine` over the buckets (partitioned output): the bucket's
directory, its file name, the conflict check, then a writer scoped to that file through which
every buffered batch goes. `copy_to_combine` and `copy_to_finalize` are called without a test, so
a function pointer that is not set crashes the call. -/
def PhysicalCopyToFile.Combine_bucket (op : PhysicalCopyToFile) (writer_offset : Nat)
    (trimmed_path : String) (p : Partition) (ctx : ClientContext) : Ret Unit :=
  match CreateDirRecursive op.partition_columns op.names p.values trimmed_path ctx with
  | ⟨.error e, ctx1⟩ => ⟨.error e, ctx1⟩
  | ⟨.ok hive_path, ctx1⟩ =>
    let ctx2 := ctx1.drawn op.use_uuid_format
    match op.CreateFilename ctx1.fs hive_path op.function.extension writer_offset ctx1.next_uuid with
    | .error e => ⟨.error e, ctx2⟩
    | .ok full_path =>
      let (file_exists, ctx3) := ctx2.FileExists full_path
      if file_exists && !op.overwrite_or_ignore then
        ⟨.error (.IOException ("failed to create " ++ full_path ++
          ", file exists! Enable OVERWRITE_OR_IGNORE option to force writing")), ctx3⟩
      else
        let fun_data_global : GlobalFunctionData := ⟨ctx3.calls.length, full_path⟩
        let ctx4 := ctx3.log (.copy_to_initialize_global full_path)
        let fun_data_local : LocalFunctionData := ⟨ctx4.calls.length⟩
        let ctx5 := ctx4.log .copy_to_initialize_local
        let ctx6 := p.chunks.foldl
          (fun c chunk => c.log (.copy_to_sink fun_data_global fun_data_local chunk)) ctx5
        if !op.function.copy_to_combine then ⟨.error .null_pointer, ctx6⟩
        else
          let ctx7 := ctx6.log (.copy_to_combine fun_data_global fun_data_local)
          if !op.function.copy_to_finalize then ⟨.error .null_pointer, ctx7⟩
          else ⟨.ok (), ctx7.log (.copy_to_finalize fun_data_global)⟩

/-- The loop of `Combine` over the buckets, in index order; an exception ends it. -/
def PhysicalCopyToFile.Combine_loop (op : PhysicalCopyToFile) (writer_offset : Nat)
    (trimmed_path : String) : List Partition → ClientContext → Ret Unit
  | [], ctx => ⟨.ok (), ctx⟩
  | p :: ps, ctx =>
    match op.Combine_bucket writer_offset trimmed_path p ctx with
    | ⟨.error e, ctx1⟩ => ⟨.error e, ctx1⟩
    | ⟨.ok _, ctx1⟩ => op.Combine_loop writer_offset trimmed_path ps ctx1

/-- `PhysicalCopyToFile::Combine`; the value returned is the local state as the call left it. -/
def PhysicalCopyToFile.Combine (op : PhysicalCopyToFile) (ctx : ClientContext)
    (g : CopyToFunctionGlobalState) (l : CopyToFunctionLocalState) :
    Outcome CopyToFunctionLocalState :=
  if op.partition_output then
    match l.part_buffer, l.part_buffer_append_state with
    | some part_buffer, some _ =>
      let flushed := part_buffer.FlushAppendState
      let trimmed_path := RTrim op.file_path ctx.fs.PathSeparator
      match op.Combine_loop l.writer_offset trimmed_path flushed.partitions ctx with
      | ⟨.error e, ctx1⟩ => ⟨.error e, ctx1, g⟩
      | ⟨.ok _, ctx1⟩ => ⟨.ok { l with part_buffer := some flushed }, ctx1, g⟩
    | _, _ => ⟨.error .null_pointer, ctx, g⟩
  else if op.function.copy_to_combine then
    match (if op.per_thread_output then l.global_state else g.global_state), l.local_state with
    | some gdata, some ldata =>
      let ctx1 := ctx.log (.copy_to_combine gdata ldata)
      if op.per_thread_output then
        if op.function.copy_to_finalize then ⟨.ok l, ctx1.log (.copy_to_finalize gdata), g⟩
        else ⟨.error .null_pointer, ctx1, g⟩
      else ⟨.ok l, ctx1, g⟩
    | _, _ => ⟨.error .null_pointer, ctx, g⟩
  else ⟨.ok l, ctx, g⟩

/-- `PhysicalCopyToFile::Finalize` (the C++ result is always `READY`). -/
def PhysicalCopyToFile.Finalize (op : PhysicalCopyToFile) (ctx : ClientContext)
    (gstate : CopyToFunctionGlobalState) : Outcome Unit :=
  if op.per_thread_output || op.partition_output then ⟨.ok (), ctx, gstate⟩
  else if op.function.copy_to_finalize then
    match gstate.global_state with
    | none => ⟨.error .null_pointer, ctx, gstate⟩
    | some gdata =>
      let ctx1 := ctx.log (.copy_to_finalize gdata)
      if op.use_tmp_file then
        match MoveTmpFile ctx1 op.file_path with
        | ⟨.error e, ctx2⟩ => ⟨.error e, ctx2, gstate⟩
        | ⟨.ok _, ctx2⟩ => ⟨.ok (), ctx2, gstate⟩
      else ⟨.ok (), ctx1, gstate⟩
  else ⟨.ok (), ctx, gstate⟩

/-- `PhysicalCopyToFile::GetLocalSinkState`; `g` is the operator's `sink_state`. -/
def PhysicalCopyToFile.GetLocalSinkState (op : PhysicalCopyToFile) (ctx : ClientContext)
    (g : CopyToFunctionGlobalState) : Outcome CopyToFunctionLocalState :=
  if op.partition_output then
    let state := CopyToFunctionLocalState.new none
    let state1 := { state with writer_offset := g.last_file_offset }
    let g1 := { g with last_file_offset := (g.last_file_offset + 1) % idx_t_size }
    let state2 := { state1 with
      part_buffer := some ⟨op.partition_columns, []⟩
      part_buffer_append_state := some ⟨⟩ }
    ⟨.ok state2, ctx, g1⟩
  else
    let res := CopyToFunctionLocalState.new (some ⟨ctx.calls.length⟩)
    let ctx1 := ctx.log .copy_to_initialize_local
    if op.per_thread_output then
      let this_file_offset := g.last_file_offset
      let g1 := { g with last_file_offset := (g.last_file_offset + 1) % idx_t_size }
      let ctx2 := ctx1.drawn op.use_uuid_format
      match op.CreateFilename ctx1.fs op.file_path op.function.extension this_file_offset
          ctx1.next_uuid with
      | .error e => ⟨.error e, ctx2, g1⟩
      | .ok output_path =>
        let (file_exists, ctx3) := ctx2.FileExists output_path
        if file_exists && !op.overwrite_or_ignore then
          ⟨.error (.IOException (output_path ++
            " exists! Enable OVERWRITE_OR_IGNORE option to force writing")), ctx3, g1⟩
        else
          ⟨.ok { res with global_state := some ⟨ctx3.calls.length, output_path⟩ },
            ctx3.log (.copy_to_initialize_global output_path), g1⟩
    else ⟨.ok res, ctx1, g⟩

/-- `PhysicalCopyToFile::GetGlobalSinkState`. -/
def PhysicalCopyToFile.GetGlobalSinkState (op : PhysicalCopyToFile) (ctx : ClientContext) :
    Ret CopyToFunctionGlobalState :=
  if op.partition_output || op.per_thread_output then
    let (file_exists, ctx1) := ctx.FileExists op.file_path
    if file_exists && !op.overwrite_or_ignore then
      ⟨.error (.IOException (op.file_path ++
        " exists! Enable OVERWRITE_OR_IGNORE option to force writing")), ctx1⟩
    else
      let (dir_exists, ctx2) := ctx1.DirectoryExists op.file_path
      let state := CopyToFunctionGlobalState.new none
      let state1 :=
        if op.partition_output then { state with partition_state := some ⟨⟩ } else state
      if !dir_exists then
        match (ctx2.CreateDirectory op.file_path).result with
        | .error e => ⟨.error e, (ctx2.CreateDirectory op.file_path).ctx⟩
        | .ok _ => ⟨.ok state1, (ctx2.CreateDirectory op.file_path).ctx⟩
      else if !op.overwrite_or_ignore then
        let (entries, ctx3) := ctx2.ListFiles op.file_path
        let n_files := entries.length
        if n_files > 0 then
          ⟨.error (.IOException ("Directory " ++ op.file_path ++
            " is not empty! Enable OVERWRITE_OR_IGNORE option to force writing")), ctx3⟩
        else ⟨.ok state1, ctx3⟩
      else ⟨.ok state1, ctx2⟩
  else
    ⟨.ok (CopyToFunctionGlobalState.new (some ⟨ctx.calls.length, op.file_path⟩)),
      ctx.log (.copy_to_initialize_global op.file_path)⟩

/-! ## Source -/

structure CopyToFileState where
  finished : Bool
  deriving DecidableEq, Repr

/-- `PhysicalCopyToFile::GetGlobalSourceState`. -/
def PhysicalCopyToFile.GetGlobalSourceState (_op : PhysicalCopyToFile) : CopyToFileState :=
  { finished := false }

/-- `PhysicalCopyToFile::GetData`; `g` is the operator's `sink_state`. The value returned is the
output chunk and the source state as the call left them. -/
def PhysicalCopyToFile.GetData (_op : PhysicalCopyToFile) (ctx : ClientContext)
    (g : CopyToFunctionGlobalState) (chunk : DataChunk) (state : CopyToFileState) :
    Outcome (DataChunk × CopyToFileState) :=
  if state.finished then ⟨.ok (chunk, state), ctx, g⟩
  else
    let chunk1 := chunk.SetCardinality 1
    let chunk2 := chunk1.SetValue 0 0 (Value.of_idx_t g.rows_copied)
    ⟨.ok (chunk2, { state with finished := true }), ctx, g⟩

/-! ## Concrete configurations used to evaluate the model -/

/-- A file system with `/` as separator and `a + "/" + b` as `JoinPath`. -/
def local_fs (files : List (String × String)) (dirs : List String) : FileSystem :=
  { files := files, dirs := dirs, PathSeparator := "/", JoinPath := fun a b => a ++ "/" ++ b }

/-- A context over `local_fs` with an empty call log. -/
def local_ctx (files : List (String × String)) (dirs : List String) : ClientContext :=
  { fs := local_fs files dirs, calls := [], uuids := fun k => "uuid" ++ to_string k, uuid_count := 0 }

/-- A CSV-like copy function with every callback set. -/
def csv_function : CopyFunction :=
  { extension := "csv", copy_to_combine := true, copy_to_finalize := true }

/-- An operator writing `out` with sequentially numbered files `data_<n>.csv`. -/
def sample_op (per_thread_output partition_output overwrite_or_ignore : Bool) : PhysicalCopyToFile :=
  { function := csv_function, file_path := "out", use_tmp_file := false, fileformat := "data_",
    format_position := 5, overwrite_or_ignore := overwrite_or_ignore, use_uuid_format := false,
    per_thread_output := per_thread_output, partition_output := partition_output,
    partition_columns := [0], names := ["year", "v"] }

/-- A single-file operator writing `file_path`, overwrite disabled, no temp file. -/
def single_file_op (file_path : String) : PhysicalCopyToFile :=
  { sample_op false false false with file_path := file_path }

/-- A batch of three rows, two of year 2020 and one of year 2021. -/
def sample_chunk : DataChunk :=
  ⟨[[.BIGINT 2020, .VARCHAR "a"], [.BIGINT 2021, .VARCHAR "b"], [.BIGINT 2020, .VARCHAR "c"]]⟩

/-- The local state of a hive-partitioned execution that claimed sequence number 3 and sank
`sample_chunk`. -/
def sample_partitioned_local : CopyToFunctionLocalState :=
  { CopyToFunctionLocalState.new none with
    part_buffer := some ((⟨[0], []⟩ : HivePartitionedColumnData).Append sample_chunk)
    part_buffer_append_state := some ⟨⟩
    writer_offset := 3 }

/-! ## Runs of the operator -/

/-- A sequence of `Sink` calls made in order with one local state; an exception ends it. -/
def PhysicalCopyToFile.Sink_all (op : PhysicalCopyToFile) :
    List DataChunk → ClientContext → CopyToFunctionGlobalState → CopyToFunctionLocalState →
      Outcome CopyToFunctionLocalState
  | [], ctx, g, l => ⟨.ok l, ctx, g⟩
  | input :: rest, ctx, g, l =>
    match op.Sink ctx g l input with
    | ⟨.error e, ctx1, g1⟩ => ⟨.error e, ctx1, g1⟩
    | ⟨.ok l1, ctx1, g1⟩ => op.Sink_all rest ctx1 g1 l1

/-- One whole execution on a single thread: the global state is created, then a local state, the
batches are sunk in order, the thread combines, the operator finalizes, and `GetData` is asked
for the result on an empty chunk. The value is the cell at column 0, row 0 of that chunk. -/
def PhysicalCopyToFile.reported_rows (op : PhysicalCopyToFile) (ctx : ClientContext)
    (inputs : List DataChunk) : Option Value :=
  match op.GetGlobalSinkState ctx with
  | ⟨.error _, _⟩ => none
  | ⟨.ok g, ctx1⟩ =>
    match op.GetLocalSinkState ctx1 g with
    | ⟨.error _, _, _⟩ => none
    | ⟨.ok l, ctx2, g1⟩ =>
      match op.Sink_all inputs ctx2 g1 l with
      | ⟨.error _, _, _⟩ => none
      | ⟨.ok l1, ctx3, g2⟩ =>
        match op.Combine ctx3 g2 l1 with
        | ⟨.error _, _, _⟩ => none
        | ⟨.ok _, ctx4, g3⟩ =>
          match op.Finalize ctx4 g3 with
          | ⟨.error _, _, _⟩ => none
          | ⟨.ok _, ctx5, g4⟩ =>
            match op.GetData ctx5 g4 ⟨[]⟩ op.GetGlobalSourceState with
            | ⟨.error _, _, _⟩ => none
            | ⟨.ok (chunk, _), _, _⟩ => chunk.GetValue 0 0

/-- The first `N` calls of `GetLocalSinkState` made one after the other on the same operator: for
every call, the value of `last_file_offset` it read (the sequence number it claims) and what it
returned or threw; and the global state after the last call. -/
def PhysicalCopyToFile.local_states (op : PhysicalCopyToFile) :
    Nat → ClientContext → CopyToFunctionGlobalState →
      List (Nat × Except Exc CopyToFunctionLocalState) × CopyToFunctionGlobalState
  | 0, _, g => ([], g)
  | N + 1, ctx, g =>
    let out := op.GetLocalSinkState ctx g
    let rest := op.local_states N out.ctx out.gstate
    ((g.last_file_offset, out.result) :: rest.1, rest.2)

/-- The `writer_offset` of the local state a call returned, when it returned one. -/
def returned_writer_offset (r : Except Exc CopyToFunctionLocalState) : Option Nat :=
  match r with
  | .ok l => some l.writer_offset
  | .error _ => none

/-- The path segment `names[cols[i]] + "=" + ToString(values[i])` of partition column number
`i`, in the words of the specification. -/
def hive_segment (cols : List Nat) (names : List String) (values : List Value) (i : Nat) :
    String :=
  names.getD (cols.getD i 0) "" ++ "=" ++ (values.getD i Value.NULL).ToString

/-- The target file of a bucket and the context at the moment `Combine` checks for it: the first
two statements of the loop body, `CreateDirRecursive` then `CreateFilename`. There is no target
when one of them throws. -/
def PhysicalCopyToFile.bucket_target (op : PhysicalCopyToFile) (writer_offset : Nat)
    (trimmed_path : String) (p : Partition) (ctx : ClientContext) :
    Option (String × ClientContext) :=
  match CreateDirRecursive op.partition_columns op.names p.values trimmed_path ctx with
  | ⟨.error _, _⟩ => none
  | ⟨.ok hive_path, ctx1⟩ =>
    match op.CreateFilename ctx1.fs hive_path op.function.extension writer_offset
        ctx1.next_uuid with
    | .error _ => none
    | .ok full_path => some (full_path, ctx1.drawn op.use_uuid_format)

/-! ## Classification of calls -/

/-- Whether a logged call is a call on the file system (as opposed to a callback of the copy
function). -/
def Call.is_file_system_call : Call → Bool
  | .FileExists _ => true
  | .DirectoryExists _ => true
  | .CreateDirectory _ => true
  | .RemoveFile _ => true
  | .MoveFile _ _ => true
  | .ListFiles _ => true
  | .copy_to_initialize_global _ => false
  | .copy_to_initialize_local => false
  | .copy_to_sink _ _ _ => false
  | .copy_to_combine _ _ => false
  | .copy_to_finalize _ => false

/-- The path of the global writer a callback creates or is handed, if it concerns one. -/
def Call.writer_path : Call → Option String
  | .copy_to_initialize_global file_path => some file_path
  | .copy_to_sink gdata _ _ => some gdata.file_path
  | .copy_to_combine gdata _ => some gdata.file_path
  | .copy_to_finalize gdata => some gdata.file_path
  | _ => none

/-- The callbacks `Combine` makes for one bucket written through the global writer `gdata` and
the local writer `ldata`, in the words of the specification: create the global writer, create
the local writer, write every buffered batch in buffer order, combine, finalize. -/
def bucket_copy_calls (gdata : GlobalFunctionData) (ldata : LocalFunctionData) (p : Partition) :
    List Call :=
  [.copy_to_initialize_global gdata.file_path, .copy_to_initialize_local] ++
    p.chunks.map (fun chunk => Call.copy_to_sink gdata ldata chunk) ++
    [.copy_to_combine gdata ldata, .copy_to_finalize gdata]

/-- The file of the bucket with key `values` for a thread that claimed `writer_offset`, in the
words of the specification: the root joined with one `column=value` segment per partition
column, in order, then the file name built from the sequence number. -/
def PhysicalCopyToFile.hive_file (op : PhysicalCopyToFile) (fs : FileSystem)
    (trimmed_path : String) (values : List Value) (writer_offset : Nat) (uuid : String) :
    Except Exc String :=
  op.CreateFilename fs
    ((List.range op.partition_columns.length).foldl
      (fun path i => fs.JoinPath path (hive_segment op.partition_columns op.names values i))
      trimmed_path)
    op.function.extension writer_offset uuid

/-! ## The sink phase on several threads -/

/-- Modelled from the spec: one call the pipeline scheduler (outside `src/`) makes during the
sink phase, on behalf of worker thread `thread`. -/
inductive SinkCall where
  | GetLocalSinkState (thread : Nat)
  | Sink (thread : Nat) (input : DataChunk)
  | Combine (thread : Nat)
  deriving DecidableEq, Repr

/-- State of the sink phase: the context, the global sink state, the local sink state of every
thread that has one, and the exception that aborted the pipeline, if any. -/
structure SinkPhase where
  ctx : ClientContext
  gstate : CopyToFunctionGlobalState
  lstates : List (Nat × CopyToFunctionLocalState)
  thrown : Option Exc

/-- The local sink state of `thread`, if it has one. -/
def SinkPhase.lstate (s : SinkPhase) (thread : Nat) : Option CopyToFunctionLocalState :=
  s.lstates.lookup thread

/-- Binds `thread` to the local state `l`. -/
def set_lstate (thread : Nat) (l : CopyToFunctionLocalState)
    (lstates : List (Nat × CopyToFunctionLocalState)) : List (Nat × CopyToFunctionLocalState) :=
  (thread, l) :: lstates.filter (fun e => e.1 ≠ thread)

/-- Modelled from the spec: the sink phase starts with the creation of the global sink state. -/
def PhysicalCopyToFile.sink_phase_start (op : PhysicalCopyToFile) (ctx : ClientContext) :
    SinkPhase :=
  match op.GetGlobalSinkState ctx with
  | ⟨.error e, ctx1⟩ => ⟨ctx1, CopyToFunctionGlobalState.new none, [], some e⟩
  | ⟨.ok g, ctx1⟩ => ⟨ctx1, g, [], none⟩

/-- Modelled from the spec: one scheduler call. Each thread is bound to its own local state;
`Sink` and `Combine` are only called for a thread that has one; an exception aborts the
pipeline, after which no call is made. -/
def PhysicalCopyToFile.sink_step (op : PhysicalCopyToFile) (s : SinkPhase) (c : SinkCall) :
    SinkPhase :=
  match s.thrown with
  | some _ => s
  | none =>
    match c with
    | .GetLocalSinkState thread =>
      match op.GetLocalSinkState s.ctx s.gstate with
      | ⟨.error e, ctx1, g1⟩ => ⟨ctx1, g1, s.lstates, some e⟩
      | ⟨.ok l, ctx1, g1⟩ => ⟨ctx1, g1, set_lstate thread l s.lstates, none⟩
    | .Sink thread input =>
      match s.lstate thread with
      | none => s
      | some l =>
        match op.Sink s.ctx s.gstate l input with
        | ⟨.error e, ctx1, g1⟩ => ⟨ctx1, g1, s.lstates, some e⟩
        | ⟨.ok l1, ctx1, g1⟩ => ⟨ctx1, g1, set_lstate thread l1 s.lstates, none⟩
    | .Combine thread =>
      match s.lstate thread with
      | none => s
      | some l =>
        match op.Combine s.ctx s.gstate l with
        | ⟨.error e, ctx1, g1⟩ => ⟨ctx1, g1, s.lstates, some e⟩
        | ⟨.ok l1, ctx1, g1⟩ => ⟨ctx1, g1, set_lstate thread l1 s.lstates, none⟩

/-- The sink phase: the scheduler's calls in the order they are made. -/
def PhysicalCopyToFile.sink_phase (op : PhysicalCopyToFile) (calls : List SinkCall)
    (s : SinkPhase) : SinkPhase :=
  calls.foldl op.sink_step s

/-! ## Repeated `GetData` -/

/-- `k` successive `GetData` calls, each on an initially empty chunk: the chunks they leave and
the source state after the last call. -/
def PhysicalCopyToFile.GetData_all (op : PhysicalCopyToFile) :
    Nat → ClientContext → CopyToFunctionGlobalState → CopyToFileState →
      List DataChunk × CopyToFileState
  | 0, _, _, state => ([], state)
  | k + 1, ctx, g, state =>
    match op.GetData ctx g ⟨[]⟩ state with
    | ⟨.error _, _, _⟩ => ([], state)
    | ⟨.ok (chunk, state1), ctx1, g1⟩ =>
      let rest := op.GetData_all k ctx1 g1 state1
      (chunk :: rest.1, rest.2)

/-! ## More concrete configurations -/

/-- A copy function that provides no finalize callback. -/
def function_without_finalize : CopyFunction :=
  { extension := "csv", copy_to_combine := true, copy_to_finalize := false }

/-- A copy function that provides no combine callback. -/
def function_without_combine : CopyFunction :=
  { extension := "csv", copy_to_combine := false, copy_to_finalize := true }

/-- A single-file operator that writes the temp file `out.csv.tmp`, to be renamed to `out.csv`. -/
def tmp_file_op (function : CopyFunction) : PhysicalCopyToFile :=
  { sample_op false false false with
    function := function, file_path := "out.csv.tmp", use_tmp_file := true }

/-- A per-thread operator writing `out/data_<n>.csv` with the copy function `function`. -/
def per_thread_op (function : CopyFunction) : PhysicalCopyToFile :=
  { sample_op true false false with function := function }

/-! ## Invariant of the single-file sink phase -/

/-- What holds throughout the sink phase of a single-file execution that started with file
system `fs` and with the calls `base` in the log: the file system is as at the start, the
pipeline has not been aborted, the global state holds a writer made for `file_path`, every
local state holds a local writer, and every call logged since the start is a callback of the
copy function that concerns no writer other than one made for `file_path`. -/
def PhysicalCopyToFile.single_file_invariant (op : PhysicalCopyToFile) (fs : FileSystem)
    (base : List Call) (s : SinkPhase) : Prop :=
  s.ctx.fs = fs ∧ s.thrown = none ∧
    (∃ id, s.gstate.global_state = some ⟨id, op.file_path⟩) ∧
    (∀ e ∈ s.lstates, e.2.local_state ≠ none) ∧
    ∃ new, s.ctx.calls = base ++ new ∧
      ∀ c ∈ new, c.is_file_system_call = false ∧ ∀ p, c.writer_path = some p → p = op.file_path

/-! ## Directories a run creates -/

/-- The directory a logged call asks the file system to create, if it is a `CreateDirectory`. -/
def Call.created_directory : Call → Option String
  | .CreateDirectory path => some path
  | _ => none

/-- The directories a sequence of calls asks the file system to create, in call order. -/
def created_directories (calls : List Call) : List String :=
  calls.filterMap Call.created_directory

/-- The partition directory of level `k` under `root`: the root joined with the segments of
the first `k` partition columns. Level 0 is the root, level `|cols|` the returned path. -/
def hive_level (fs : FileSystem) (cols : List Nat) (names : List String) (values : List Value)
    (root : String) (k : Nat) : String :=
  (List.range k).foldl (fun p i => fs.JoinPath p (hive_segment cols names values i)) root

/-! ## `ReadJSONBind`: the `sample_size` parameter (`read_json.cpp`) -/

/-- The exception the binder throws, with its message. -/
inductive BinderException where
  | mk (msg : String)
  deriving DecidableEq, Repr

/-- The range of `int64_t`, the type `BigIntValue::Get` returns. -/
def is_int64 (a : Int) : Prop := -(2 : Int) ^ 63 ≤ a ∧ a < (2 : Int) ^ 63

instance (a : Int) : Decidable (is_int64 a) := by
  unfold is_int64
  exact inferInstance

/-- The value `NumericLimits<idx_t>::Maximum()`. -/
def idx_t_maximum : Nat := idx_t_size - 1

/-- The conversion of an `int64_t` to `idx_t` that the assignment `sample_size = arg` performs:
the value modulo 2^64. -/
def idx_t_of_int64 (arg : Int) : Nat := (arg % (idx_t_size : Int)).toNat

/-- The fields of `JSONScanData` that `ReadJSONBind` sets from numeric parameters. -/
structure JSONScanData where
  sample_size : Nat
  max_depth : Nat
  deriving DecidableEq, Repr

/-- The branch `loption == "sample_size"` of the parameter loop of `ReadJSONBind`, on the
argument `arg = BigIntValue::Get(kv.second)`. -/
def ReadJSONBind_sample_size (arg : Int) (bind_data : JSONScanData) :
    Except BinderException JSONScanData :=
  if arg = -1 then
    .ok { bind_data with sample_size := idx_t_maximum }
  else if arg > 0 then
    .ok { bind_data with sample_size := idx_t_of_int64 arg }
  else
    .error (.mk
      "read_json \"sample_size\" parameter must be positive, or -1 to sample the entire file")

/-! ## `LogicalCTERef` serialization (`logical_cteref.cpp`) -/

/-- Modelled from the spec: the identifiers of `LogicalTypeId` (declared outside `src/`) that the
development uses; `INVALID` marks an absent type. -/
inductive LogicalTypeId where
  | INVALID
  | BOOLEAN
  | INTEGER
  | BIGINT
  | DOUBLE
  | VARCHAR
  | ANY
  deriving DecidableEq, Repr

/-- Modelled from the spec: a `LogicalType` (declared outside `src/`), known by its identifier. -/
structure LogicalType where
  type_id : LogicalTypeId
  deriving DecidableEq, Repr

/-- The call `type.id()`. -/
def LogicalType.id (t : LogicalType) : LogicalTypeId := t.type_id

/-- Modelled from the spec: `LogicalType::ToString`, the name of the type. -/
def LogicalType.ToString (t : LogicalType) : String :=
  match t.type_id with
  | .INVALID => "INVALID"
  | .BOOLEAN => "BOOLEAN"
  | .INTEGER => "INTEGER"
  | .BIGINT => "BIGINT"
  | .DOUBLE => "DOUBLE"
  | .VARCHAR => "VARCHAR"
  | .ANY => "ANY"

/-- Modelled from the spec: one field of the field-wise serialization format (`FieldWriter` and
`FieldReader` are declared outside `src/`): an `idx_t`, a list of serializable types, or a list of
strings. -/
inductive Field where
  | idx (v : Nat)
  | types (v : List LogicalType)
  | strings (v : List String)
  deriving DecidableEq, Repr

/-- Modelled from the spec: a `FieldWriter`, the fields written so far, oldest first. -/
structure FieldWriter where
  fields : List Field
  deriving DecidableEq, Repr

/-- The call `writer.WriteField<idx_t>(v)`. -/
def FieldWriter.WriteField (w : FieldWriter) (v : Nat) : FieldWriter := ⟨w.fields ++ [.idx v]⟩

/-- The call `writer.WriteRegularSerializableList(v)`. -/
def FieldWriter.WriteRegularSerializableList (w : FieldWriter) (v : List LogicalType) :
    FieldWriter := ⟨w.fields ++ [.types v]⟩

/-- The call `writer.WriteList<string>(v)`. -/
def FieldWriter.WriteList (w : FieldWriter) (v : List String) : FieldWriter :=
  ⟨w.fields ++ [.strings v]⟩

/-- Modelled from the spec: a `FieldReader`, the fields not read yet, next one first. -/
structure FieldReader where
  fields : List Field
  deriving DecidableEq, Repr

/-- The exception a `FieldReader` throws when a required field is missing or is not of the
kind that is read. -/
inductive SerializationException where
  | missing_field
  deriving DecidableEq, Repr

/-- The call `reader.ReadRequired<idx_t>()`. -/
def FieldReader.ReadRequired (r : FieldReader) : Except SerializationException (Nat × FieldReader) :=
  match r.fields with
  | .idx v :: rest => .ok (v, ⟨rest⟩)
  | _ => .error .missing_field

/-- The call `reader.ReadRequiredSerializableList<LogicalType, LogicalType>()`. -/
def FieldReader.ReadRequiredSerializableList (r : FieldReader) :
    Except SerializationException (List LogicalType × FieldReader) :=
  match r.fields with
  | .types v :: rest => .ok (v, ⟨rest⟩)
  | _ => .error .missing_field

/-- The call `reader.ReadRequiredList<string>()`. -/
def FieldReader.ReadRequiredList (r : FieldReader) :
    Except SerializationException (List String × FieldReader) :=
  match r.fields with
  | .strings v :: rest => .ok (v, ⟨rest⟩)
  | _ => .error .missing_field

/-- The fields of a `LogicalCTERef` that take part in serialization. -/
structure LogicalCTERef where
  table_index : Nat
  cte_index : Nat
  chunk_types : List LogicalType
  bound_columns : List String
  deriving DecidableEq, Repr

/-- `LogicalCTERef::Serialize`. -/
def LogicalCTERef.Serialize (op : LogicalCTERef) (writer : FieldWriter) : FieldWriter :=
  let writer := writer.WriteField op.table_index
  let writer := writer.WriteField op.cte_index
  let writer := writer.WriteRegularSerializableList op.chunk_types
  writer.WriteList op.bound_columns

/-- `LogicalCTERef::Deserialize`: the operator read and the reader after the four reads. -/
def LogicalCTERef.Deserialize (reader : FieldReader) :
    Except SerializationException (LogicalCTERef × FieldReader) := do
  let (table_index, reader) ← reader.ReadRequired
  let (cte_index, reader) ← reader.ReadRequired
  let (chunk_types, reader) ← reader.ReadRequiredSerializableList
  let (bound_columns, reader) ← reader.ReadRequiredList
  return (⟨table_index, cte_index, chunk_types, bound_columns⟩, reader)

/-- A reference to CTE 1 with two columns. -/
def sample_cteref : LogicalCTERef :=
  { table_index := 3, cte_index := 1, chunk_types := [⟨.BIGINT⟩, ⟨.VARCHAR⟩],
    bound_columns := ["a", "b"] }

/-! ## The table function `pragma_functions` (`pragma_functions.cpp`) -/

/-- Modelled from the spec: the part of `BaseScalarFunction` (declared outside `src/`) that
`AddFunction` reads. -/
structure BaseScalarFunction where
  name : String
  arguments : List LogicalType
  varargs : LogicalType
  return_type : LogicalType
  has_side_effects : Bool
  deriving DecidableEq, Repr

/-- Modelled from the spec: the catalog entry kinds (`CatalogType`, declared outside `src/`) the
table function tells apart; every kind that is not a scalar or aggregate function entry takes the
`default` branch and is represented by `TABLE_ENTRY`. -/
inductive CatalogType where
  | SCALAR_FUNCTION_ENTRY
  | AGGREGATE_FUNCTION_ENTRY
  | TABLE_ENTRY
  deriving DecidableEq, Repr

/-- Modelled from the spec: a `CatalogEntry` with its kind and, for a scalar or aggregate function
entry, the overloads `functions` of the function. -/
structure CatalogEntry where
  type : CatalogType
  functions : List BaseScalarFunction
  deriving DecidableEq, Repr

namespace sqlite

/-- Modelled from the spec: the `Value`s this table function stores, which are `Value()` (NULL),
strings and `Value::BOOLEAN`. -/
inductive Value where
  | NULL
  | VARCHAR (s : String)
  | BOOLEAN (b : Bool)
  deriving DecidableEq, Repr

/-- Modelled from the spec: the output `DataChunk` (declared outside `src/`) as the table function
uses it. Its column vectors are allocated for a whole vector of rows, so `SetValue` stores into
cell (column, row) whatever the cardinality is, and the cardinality says how many rows count. -/
structure DataChunk where
  data : Nat → Nat → Value
  count : Nat

/-- The call `output.SetValue(col_idx, index, val)`. -/
def DataChunk.SetValue (c : DataChunk) (col_idx index : Nat) (val : Value) : DataChunk :=
  { c with data := fun i j => if i = col_idx ∧ j = index then val else c.data i j }

/-- The call `output.SetCardinality(count)`. -/
def DataChunk.SetCardinality (c : DataChunk) (count : Nat) : DataChunk :=
  { c with count := count }

/-- The call `output.size()`. -/
def DataChunk.size (c : DataChunk) : Nat := c.count

/-- Row `index` of the chunk over the six columns the table function binds. -/
def DataChunk.row (c : DataChunk) (index : Nat) : List Value :=
  (List.range 6).map (fun i => c.data i index)

/-- The rows the chunk holds: rows `0 .. size() - 1`. -/
def DataChunk.rows (c : DataChunk) : List (List Value) :=
  (List.range c.count).map c.row

/-- The state `PragmaFunctionsData` of a scan. -/
structure PragmaFunctionsData where
  entries : List CatalogEntry
  offset : Nat
  offset_in_entry : Nat
  deriving DecidableEq, Repr

/-- The state `pragma_functions_init` returns for the scanned entries: both offsets are 0. -/
def PragmaFunctionsData.new (entries : List CatalogEntry) : PragmaFunctionsData :=
  { entries := entries, offset := 0, offset_in_entry := 0 }

/-- The string `parameters` that `AddFunction` builds: the argument types separated by
a comma and a blank. -/
def AddFunction_parameters (f : BaseScalarFunction) : String :=
  f.arguments.enum.foldl
    (fun parameters (p : Nat × LogicalType) =>
      (if p.1 > 0 then parameters ++ ", " else parameters) ++ p.2.ToString) ""

/-- `AddFunction`: the six cells of row `count`, then `count++`. Returns the new count and the
output. -/
def AddFunction (f : BaseScalarFunction) (count : Nat) (output : DataChunk)
    (is_aggregate : Bool) : Nat × DataChunk :=
  let output := output.SetValue 0 count (.VARCHAR f.name)
  let output := output.SetValue 1 count (.VARCHAR (if is_aggregate then "AGGREGATE" else "SCALAR"))
  let output := output.SetValue 2 count (.VARCHAR (AddFunction_parameters f))
  let output := output.SetValue 3 count
    (if f.varargs.id ≠ LogicalTypeId.INVALID then .VARCHAR f.varargs.ToString else .NULL)
  let output := output.SetValue 4 count (.VARCHAR f.return_type.ToString)
  let output := output.SetValue 5 count (.BOOLEAN f.has_side_effects)
  (count + 1, output)

/-- The `while` loop of `pragma_functions` with `fuel` iterations allowed; `svs` is
`STANDARD_VECTOR_SIZE`. The result is `none` when the fuel runs out before the loop condition
fails, or when an index is out of range. -/
def pragma_functions_loop (svs : Nat) :
    Nat → PragmaFunctionsData → Nat → DataChunk → Option (PragmaFunctionsData × Nat × DataChunk)
  | 0, data, count, output =>
    if count < svs ∧ data.offset < data.entries.length then none else some (data, count, output)
  | fuel + 1, data, count, output =>
    if count < svs ∧ data.offset < data.entries.length then
      match data.entries.get? data.offset with
      | none => none
      | some entry =>
        match entry.type with
        | .SCALAR_FUNCTION_ENTRY =>
          if data.offset_in_entry ≥ entry.functions.length then
            pragma_functions_loop svs fuel
              { data with offset := data.offset + 1, offset_in_entry := 0 } count output
          else
            match entry.functions.get? data.offset_in_entry with
            | none => none
            | some f =>
              let (count1, output1) := AddFunction f count output false
              pragma_functions_loop svs fuel
                { data with offset_in_entry := data.offset_in_entry + 1 } count1 output1
        | .AGGREGATE_FUNCTION_ENTRY =>
          if data.offset_in_entry ≥ entry.functions.length then
            pragma_functions_loop svs fuel
              { data with offset := data.offset + 1, offset_in_entry := 0 } count output
          else
            match entry.functions.get? data.offset_in_entry with
            | none => none
            | some f =>
              let (count1, output1) := AddFunction f count output true
              pragma_functions_loop svs fuel
                { data with offset_in_entry := data.offset_in_entry + 1 } count1 output1
        | _ =>
          pragma_functions_loop svs fuel { data with offset := data.offset + 1 } count output
    else some (data, count, output)

/-- The table function `pragma_functions`: one call on the scan state `data` and the output
chunk. Every iteration of the loop raises `count` or `data.offset`, so
`svs + |entries|` iterations are allowed. -/
def pragma_functions (svs : Nat) (data : PragmaFunctionsData) (output : DataChunk) :
    Option (PragmaFunctionsData × DataChunk) :=
  if data.offset ≥ data.entries.length then
    some (data, output)
  else
    match pragma_functions_loop svs (svs + data.entries.length) data 0 output with
    | none => none
    | some (data1, count, output1) => some (data1, output1.SetCardinality count)

/-- Successive calls of `pragma_functions` by the scan driver, at most `calls` of them: the rows
of the outputs in call order, up to the first call that finds `offset >= entries.size()`. Before
each call the driver resets the output to no rows, keeping what the vectors hold. -/
def pragma_functions_scan (svs : Nat) :
    Nat → PragmaFunctionsData → DataChunk → Option (List (List Value))
  | 0, _, _ => none
  | calls + 1, data, output =>
    if data.offset ≥ data.entries.length then some []
    else
      match pragma_functions svs data (output.SetCardinality 0) with
      | none => none
      | some (data1, output1) =>
        match pragma_functions_scan svs calls data1 output1 with
        | none => none
        | some rows => some (output1.rows ++ rows)

/-- The row of one function overload: the six values `AddFunction` stores for it, which are its
name, kind, parameters, varargs, return type and side effects. -/
def function_row (f : BaseScalarFunction) (is_aggregate : Bool) : List Value :=
  [.VARCHAR f.name, .VARCHAR (if is_aggregate then "AGGREGATE" else "SCALAR"),
    .VARCHAR (AddFunction_parameters f),
    if f.varargs.id ≠ LogicalTypeId.INVALID then .VARCHAR f.varargs.ToString else .NULL,
    .VARCHAR f.return_type.ToString, .BOOLEAN f.has_side_effects]

/-- The rows of one catalog entry: one per overload, in overload order; none for an entry that
is not a function. -/
def entry_rows (entry : CatalogEntry) : List (List Value) :=
  match entry.type with
  | .SCALAR_FUNCTION_ENTRY => entry.functions.map (fun f => function_row f false)
  | .AGGREGATE_FUNCTION_ENTRY => entry.functions.map (fun f => function_row f true)
  | _ => []

/-- The rows a scan in state `data` still has to emit. -/
def remaining_rows (data : PragmaFunctionsData) : List (List Value) :=
  (((data.entries.get? data.offset).map entry_rows).getD []).drop data.offset_in_entry ++
    (data.entries.drop (data.offset + 1)).flatMap entry_rows

/-- The state of a scan is well formed when the offset within the entry is 0 at an entry that is
not a function: the `default` branch moves on without resetting it. -/
def PragmaFunctionsData.well_formed (data : PragmaFunctionsData) : Prop :=
  ∀ entry, data.entries.get? data.offset = some entry → entry.type = .TABLE_ENTRY →
    data.offset_in_entry = 0

/-- A chunk whose cells are all NULL and that holds no rows. -/
def blank_chunk : DataChunk := { data := fun _ _ => .NULL, count := 0 }

/-- The overloads `abs(INTEGER)` and `abs(DOUBLE)`. -/
def abs_entry : CatalogEntry :=
  { type := .SCALAR_FUNCTION_ENTRY,
    functions := [⟨"abs", [⟨.INTEGER⟩], ⟨.INVALID⟩, ⟨.INTEGER⟩, false⟩,
      ⟨"abs", [⟨.DOUBLE⟩], ⟨.INVALID⟩, ⟨.DOUBLE⟩, false⟩] }

/-- The aggregate `sum(BIGINT)`. -/
def sum_entry : CatalogEntry :=
  { type := .AGGREGATE_FUNCTION_ENTRY,
    functions := [⟨"sum", [⟨.BIGINT⟩], ⟨.INVALID⟩, ⟨.BIGINT⟩, false⟩] }

end sqlite

/-! # Theorems -/

/-! ## Decimal numerals -/

theorem digitChar_value (d : Nat) (h : d < 10) : (Nat.digitChar d).toNat - 48 = d := by
  interval_cases d <;> rfl

theorem read_toDigitsCore (fuel : Nat) : ∀ (n : Nat) (ds : List Char), n < fuel →
    (Nat.toDigitsCore 10 fuel n ds).foldl (fun acc c => acc * 10 + (c.toNat - 48)) 0 =
      ds.foldl (fun acc c => acc * 10 + (c.toNat - 48)) n := by
  induction fuel with
  | zero => intro n ds h; omega
  | succ fuel ih =>
    intro n ds h
    have hd : (Nat.digitChar (n % 10)).toNat - 48 = n % 10 :=
      digitChar_value _ (Nat.mod_lt _ (by decide))
    unfold Nat.toDigitsCore
    by_cases h0 : n / 10 = 0
    · simp only [h0, if_true, List.foldl_cons, hd]
      have : n % 10 = n := by omega
      simp [this]
    · simp only [h0, if_false]
      rw [ih (n / 10) _ (by omega)]
      simp only [List.foldl_cons, hd]
      have : n / 10 * 10 + n % 10 = n := by omega
      rw [this]

/-- Reading the decimal numeral of `n` gives `n` back. -/
theorem read_decimal_to_string (n : Nat) : read_decimal (to_string n) = n := by
  unfold read_decimal to_string Nat.repr Nat.toDigits
  simp only [List.asString]
  exact read_toDigitsCore (n + 1) n [] (by omega)

theorem to_string_injective {n m : Nat} (h : to_string n = to_string m) : n = m := by
  have := congrArg read_decimal h
  simpa [read_decimal_to_string] using this

/-! ## File names -/

theorem string_append_left_cancel {a b c : String} (h : a ++ b = a ++ c) : b = c := by
  have h1 := congrArg String.data h
  simp only [String.data_append] at h1
  exact String.ext (List.append_cancel_left h1)

theorem string_append_right_cancel {a b c : String} (h : a ++ c = b ++ c) : a = b := by
  have h1 := congrArg String.data h
  simp only [String.data_append] at h1
  exact String.ext (List.append_cancel_right h1)

theorem string_insert_eq (s : String) (pos : Nat) (r : String) :
    string_insert s pos r = substr0 s pos ++ r ++ ⟨s.data.drop pos⟩ := by
  apply String.ext
  simp [string_insert, substr0, String.data_append]

theorem string_insert_injective {s : String} {pos : Nat} {a b : String}
    (h : string_insert s pos a = string_insert s pos b) : a = b := by
  rw [string_insert_eq, string_insert_eq] at h
  exact string_append_left_cancel (string_append_right_cancel h)

theorem local_fs_JoinPath_injective (files : List (String × String)) (dirs : List String)
    (a b c : String) (h : (local_fs files dirs).JoinPath a b = (local_fs files dirs).JoinPath a c) :
    b = c := by
  simp only [local_fs] at h
  exact string_append_left_cancel h

/-- C8: in sequential naming mode, when `JoinPath` is injective in its second argument, two
different sequence numbers never give the same file path for the same directory and extension. -/
theorem CreateFilename_injective (op : PhysicalCopyToFile) (fs : FileSystem)
    (path extension : String) (n m : Nat) (u1 u2 : String)
    (hseq : op.use_uuid_format = false)
    (hjoin : ∀ a b c, fs.JoinPath a b = fs.JoinPath a c → b = c)
    (hne : n ≠ m) :
    ∀ p, op.CreateFilename fs path extension n u1 = .ok p →
      op.CreateFilename fs path extension m u2 ≠ .ok p := by
  intro p hn hm
  unfold PhysicalCopyToFile.CreateFilename at hn hm
  simp only [hseq] at hn hm
  by_cases hpos : op.format_position ≤ op.fileformat.length
  · simp only [hpos, if_true, Except.ok.injEq] at hn hm
    have h1 := hjoin _ _ _ (hn.trans hm.symm)
    have h2 := string_insert_injective (string_append_right_cancel (string_append_right_cancel h1))
    simp at h2
    exact hne (to_string_injective h2)
  · simp [hpos] at hn

theorem CreateFilename_injective_witness :
    (sample_op false true false).CreateFilename (local_fs [] []) "out/year=2020" "csv" 0 "" =
        .ok "out/year=2020/data_0.csv" ∧
      (sample_op false true false).CreateFilename (local_fs [] []) "out/year=2020" "csv" 1 "" ≠
        .ok "out/year=2020/data_0.csv" :=
  ⟨by decide,
   CreateFilename_injective (sample_op false true false) (local_fs [] []) "out/year=2020" "csv"
     0 1 "" "" rfl (local_fs_JoinPath_injective [] []) (by decide) _ (by decide)⟩

theorem toDigitsCore_all_digits (fuel : Nat) : ∀ (n : Nat) (ds : List Char),
    ds.all Char.isDigit = true → (Nat.toDigitsCore 10 fuel n ds).all Char.isDigit = true := by
  induction fuel with
  | zero => intro n ds h; simpa [Nat.toDigitsCore] using h
  | succ fuel ih =>
    intro n ds h
    have hd : (Nat.digitChar (n % 10)).isDigit = true := by
      have : n % 10 < 10 := Nat.mod_lt _ (by decide)
      interval_cases (n % 10) <;> rfl
    unfold Nat.toDigitsCore
    by_cases h0 : n / 10 = 0
    · simp only [h0, if_true, List.all_cons, hd, h, Bool.and_self]
    · simp only [h0, if_false]
      exact ih _ _ (by simp only [List.all_cons, hd, h, Bool.and_self])

/-- The numeral `to_string n` consists of decimal digits only. -/
theorem to_string_all_digits (n : Nat) : (to_string n).data.all Char.isDigit = true := by
  unfold to_string Nat.repr Nat.toDigits
  simp only [List.asString]
  exact toDigitsCore_all_digits (n + 1) n [] rfl

/-- C9: in sequential naming mode with `format_position` within `fileformat`, the file name is
`JoinPath(path, head + decimal(n) + tail + "." + extension)`, where `head` is the first
`format_position` characters of `fileformat`, `tail` the rest and `decimal(n)` the base-10
numeral of `n`; the file-system state and the random identifier play no part in it. -/
theorem CreateFilename_sequential (op : PhysicalCopyToFile) (fs : FileSystem)
    (path extension : String) (n : Nat) (uuid : String)
    (hseq : op.use_uuid_format = false)
    (hpos : op.format_position ≤ op.fileformat.length) :
    op.CreateFilename fs path extension n uuid =
        .ok (fs.JoinPath path
          (substr0 op.fileformat op.format_position ++ to_string n ++
            ⟨op.fileformat.data.drop op.format_position⟩ ++ "." ++ extension)) ∧
      (to_string n).data.all Char.isDigit = true ∧ read_decimal (to_string n) = n ∧
      ∀ (fs2 : FileSystem) (uuid2 : String), fs2.JoinPath = fs.JoinPath →
        op.CreateFilename fs2 path extension n uuid2 = op.CreateFilename fs path extension n uuid := by
  refine ⟨?_, to_string_all_digits n, read_decimal_to_string n, ?_⟩
  · simp [PhysicalCopyToFile.CreateFilename, hseq, hpos, string_insert_eq]
  · intro fs2 uuid2 hj
    simp [PhysicalCopyToFile.CreateFilename, hseq, hpos, hj]

theorem CreateFilename_sequential_witness :
    (sample_op true false false).CreateFilename (local_fs [] []) "out" "csv" 12 "x" =
        .ok ((local_fs [] []).JoinPath "out"
          (substr0 "data_" 5 ++ to_string 12 ++ ⟨"data_".data.drop 5⟩ ++ "." ++ "csv")) ∧
      (to_string 12).data.all Char.isDigit = true ∧ read_decimal (to_string 12) = 12 ∧
      ∀ (fs2 : FileSystem) (uuid2 : String), fs2.JoinPath = (local_fs [] []).JoinPath →
        (sample_op true false false).CreateFilename fs2 "out" "csv" 12 uuid2 =
          (sample_op true false false).CreateFilename (local_fs [] []) "out" "csv" 12 "x" :=
  CreateFilename_sequential (sample_op true false false) (local_fs [] []) "out" "csv" 12 "x"
    rfl (by decide)

/-! ## File-system lemmas -/

theorem lookup_filter_keep (f : String × String → Bool) (k : String)
    (hf : ∀ v, f (k, v) = true) (l : List (String × String)) :
    (l.filter f).lookup k = l.lookup k := by
  induction l with
  | nil => rfl
  | cons e l ih =>
    obtain ⟨a, b⟩ := e
    by_cases hka : k = a
    · subst hka
      rw [List.filter_cons_of_pos (hf b)]
      simp only [List.lookup_cons, beq_self_eq_true]
    · have hka2 : (k == a) = false := by simpa using hka
      by_cases hfe : f (a, b) = true
      · rw [List.filter_cons_of_pos hfe]
        simp only [List.lookup_cons, hka2, ih]
      · rw [List.filter_cons_of_neg hfe]
        simp only [List.lookup_cons, hka2, ih]

theorem lookup_filter_drop (f : String × String → Bool) (k : String)
    (hf : ∀ v, f (k, v) = false) (l : List (String × String)) :
    (l.filter f).lookup k = none := by
  induction l with
  | nil => rfl
  | cons e l ih =>
    obtain ⟨a, b⟩ := e
    by_cases hka : k = a
    · subst hka
      rw [List.filter_cons_of_neg (by simp [hf b])]
      exact ih
    · have hka2 : (k == a) = false := by simpa using hka
      by_cases hfe : f (a, b) = true
      · rw [List.filter_cons_of_pos hfe]
        simp only [List.lookup_cons, hka2, ih]
      · rw [List.filter_cons_of_neg hfe]
        exact ih

theorem lookup_filter_ne (l : List (String × String)) (k p : String) (h : k ≠ p) :
    (l.filter (fun e => e.1 ≠ p)).lookup k = l.lookup k :=
  lookup_filter_keep _ k (fun _ => by simpa using h) l

theorem lookup_filter_source (l : List (String × String)) (s t : String) :
    (l.filter (fun e => e.1 ≠ s ∧ e.1 ≠ t)).lookup s = none :=
  lookup_filter_drop _ s (fun _ => by simp) l

theorem substr0_length (s : String) (n : Nat) : (substr0 s n).length = min n s.length := by
  show (s.data.take n).length = min n s.data.length
  exact List.length_take n s.data

theorem idx_t_size_eq : idx_t_size = 18446744073709551616 := by
  rfl

theorem idx_sub_four (n : Nat) (h4 : 4 ≤ n) (hn : n < idx_t_size) :
    (n + idx_t_size - 4) % idx_t_size = n - 4 := by
  rw [idx_t_size_eq] at hn ⊢
  omega

theorem RemoveFile_content (fs : FileSystem) (p k : String) (h : k ≠ p) :
    (fs.RemoveFile p).content k = fs.content k :=
  lookup_filter_ne fs.files k p h

theorem MoveFile_spec (fs : FileSystem) (s t c : String) (h : fs.content s = some c)
    (hne : s ≠ t) (ht : t ≠ "") (hd : fs.dirs.contains t = false) :
    ∃ fs1, fs.MoveFile s t = some fs1 ∧ fs1.content t = some c ∧ fs1.FileExists s = false := by
  have h1 : fs.files.lookup s = some c := h
  have hbeq : (s == t) = false := by simpa using hne
  refine ⟨{ fs with files := (t, c) :: fs.files.filter (fun e => e.1 ≠ s ∧ e.1 ≠ t) },
    ?_, ?_, ?_⟩
  · simp only [FileSystem.MoveFile, h1, ht, hd, Bool.false_eq_true, or_self, if_false]
  · simp only [FileSystem.content, List.lookup_cons, beq_self_eq_true]
  · simp only [FileSystem.FileExists, List.lookup_cons, hbeq, lookup_filter_source,
      Option.isSome_none]

theorem MoveFile_blocked (fs : FileSystem) (s t : String)
    (h : t = "" ∨ fs.dirs.contains t = true) : fs.MoveFile s t = none := by
  unfold FileSystem.MoveFile
  split
  · rfl
  · simp only [h, if_true]

/-- C10, as the code has it: for a temp path of at least 4 characters (and of a length a
`std::string` can have) at which a file exists, whatever files the file system holds: when the
final path (the temp path without its last 4 characters) is not empty and is not a directory,
`MoveTmpFile` returns normally and afterwards a file exists at the final path, with the content
that was at the temp path, and no file exists at the temp path. When the final path is empty or
is a directory the rename throws, and the temp file is still there with its content. -/
theorem MoveTmpFile_moves (ctx : ClientContext) (t c : String)
    (hlen : 4 ≤ t.length) (hsize : t.length < idx_t_size)
    (hfile : ctx.fs.content t = some c) :
    (4 < t.length → ctx.fs.DirectoryExists (substr0 t (t.length - 4)) = false →
      (MoveTmpFile ctx t).result = .ok () ∧
        (MoveTmpFile ctx t).ctx.fs.FileExists (substr0 t (t.length - 4)) = true ∧
        (MoveTmpFile ctx t).ctx.fs.content (substr0 t (t.length - 4)) = some c ∧
        (MoveTmpFile ctx t).ctx.fs.FileExists t = false) ∧
      (t.length = 4 ∨ ctx.fs.DirectoryExists (substr0 t (t.length - 4)) = true →
        (MoveTmpFile ctx t).result = .error (.IOException "Could not rename file!") ∧
          (MoveTmpFile ctx t).ctx.fs.content t = some c) := by
  have hne : t ≠ substr0 t (t.length - 4) := by
    intro h
    have h1 := congrArg String.length h
    rw [substr0_length] at h1
    omega
  have hfs2 : (if ctx.fs.FileExists (substr0 t (t.length - 4)) = true then
      (ctx.log (.FileExists (substr0 t (t.length - 4)))).RemoveFile (substr0 t (t.length - 4))
      else ctx.log (.FileExists (substr0 t (t.length - 4)))).fs.content t = some c := by
    split
    · exact (RemoveFile_content _ _ _ hne).trans hfile
    · exact hfile
  have hdirs : (if ctx.fs.FileExists (substr0 t (t.length - 4)) = true then
      (ctx.log (.FileExists (substr0 t (t.length - 4)))).RemoveFile (substr0 t (t.length - 4))
      else ctx.log (.FileExists (substr0 t (t.length - 4)))).fs.dirs = ctx.fs.dirs := by
    split <;> rfl
  constructor
  · intro hname hdir
    have hnonempty : substr0 t (t.length - 4) ≠ "" := by
      intro h
      have h1 := congrArg String.length h
      rw [substr0_length] at h1
      have h0 : "".length = 0 := rfl
      omega
    obtain ⟨fs1, hmv, hc, hx⟩ := MoveFile_spec _ t _ c hfs2 hne hnonempty
      (by rw [hdirs]; exact hdir)
    have hex1 : fs1.FileExists (substr0 t (t.length - 4)) = true := by
      have h1 : fs1.files.lookup (substr0 t (t.length - 4)) = some c := hc
      simp only [FileSystem.FileExists, h1, Option.isSome_some]
    unfold MoveTmpFile
    simp only [idx_sub_four _ hlen hsize, ClientContext.FileExists]
    split
    · rename_i heq
      rw [hmv] at heq
      exact absurd heq (by simp)
    · rename_i fs2 heq
      rw [hmv] at heq
      cases heq
      exact ⟨rfl, hex1, hc, hx⟩
  · intro hblock
    have hb : substr0 t (t.length - 4) = "" ∨
        (if ctx.fs.FileExists (substr0 t (t.length - 4)) = true then
          (ctx.log (.FileExists (substr0 t (t.length - 4)))).RemoveFile
            (substr0 t (t.length - 4))
          else ctx.log (.FileExists (substr0 t (t.length - 4)))).fs.dirs.contains
            (substr0 t (t.length - 4)) = true := by
      rcases hblock with h | h
      · left
        rw [h]
        rfl
      · right
        rw [hdirs]
        exact h
    have hmv := MoveFile_blocked _ t _ hb
    unfold MoveTmpFile
    simp only [idx_sub_four _ hlen hsize, ClientContext.FileExists]
    split
    · exact ⟨rfl, hfs2⟩
    · rename_i fs2 heq
      rw [hmv] at heq
      exact absurd heq (by simp)

theorem MoveTmpFile_moves_witness :
    (MoveTmpFile (local_ctx [("a.csv.tmp", "new"), ("a.csv", "old")] []) "a.csv.tmp").result =
        .ok () ∧
      (MoveTmpFile (local_ctx [("a.csv.tmp", "new"), ("a.csv", "old")] []) "a.csv.tmp").ctx.fs.FileExists
        (substr0 "a.csv.tmp" ("a.csv.tmp".length - 4)) = true ∧
      (MoveTmpFile (local_ctx [("a.csv.tmp", "new"), ("a.csv", "old")] []) "a.csv.tmp").ctx.fs.content
        (substr0 "a.csv.tmp" ("a.csv.tmp".length - 4)) = some "new" ∧
      (MoveTmpFile (local_ctx [("a.csv.tmp", "new"), ("a.csv", "old")] []) "a.csv.tmp").ctx.fs.FileExists
        "a.csv.tmp" = false :=
  (MoveTmpFile_moves (local_ctx [("a.csv.tmp", "new"), ("a.csv", "old")] []) "a.csv.tmp" "new"
    (by decide) (by decide) (by decide)).1 (by decide) (by decide)

/-- C10, as stated, fails. A file exists at the temp path `out.tmp` and the final path `out` is
a directory: the rename throws, no file exists at `out` afterwards and the temp file is still
there. The same happens for the temp path `.tmp`, whose final path is empty. -/
theorem MoveTmpFile_onto_directory :
    (local_ctx [("out.tmp", "new")] ["out"]).fs.content "out.tmp" = some "new" ∧
      (MoveTmpFile (local_ctx [("out.tmp", "new")] ["out"]) "out.tmp").result =
        .error (.IOException "Could not rename file!") ∧
      (MoveTmpFile (local_ctx [("out.tmp", "new")] ["out"]) "out.tmp").ctx.fs.FileExists "out" =
        false ∧
      (MoveTmpFile (local_ctx [("out.tmp", "new")] ["out"]) "out.tmp").ctx.fs.FileExists
        "out.tmp" = true ∧
      (local_ctx [(".tmp", "new")] []).fs.content ".tmp" = some "new" ∧
      (MoveTmpFile (local_ctx [(".tmp", "new")] []) ".tmp").result =
        .error (.IOException "Could not rename file!") ∧
      (MoveTmpFile (local_ctx [(".tmp", "new")] []) ".tmp").ctx.fs.FileExists "" = false ∧
      (MoveTmpFile (local_ctx [(".tmp", "new")] []) ".tmp").ctx.fs.FileExists ".tmp" = true := by
  decide

/-! ## Creation of the global state -/


theorem CreateDirectory_some (fs : FileSystem) (path : String)
    (h : fs.DirectoryExists path = true ∨ fs.FileExists path = false) :
    ∃ fs1, fs.CreateDirectory path = some fs1 ∧ fs1.DirectoryExists path = true ∧
      fs1.files = fs.files ∧ fs1.JoinPath = fs.JoinPath ∧
      (fs.DirectoryExists path = true → fs1 = fs) ∧
      (fs.DirectoryExists path = false → fs1.dirs = fs.dirs ++ [path]) := by
  unfold FileSystem.CreateDirectory
  by_cases hd : fs.dirs.contains path = true
  · have hd1 : fs.DirectoryExists path = true := hd
    exact ⟨fs, by simp only [hd, if_true], hd1, rfl, rfl, fun _ => rfl,
      fun h0 => by rw [hd1] at h0; exact absurd h0 (by simp)⟩
  · have hd1 : fs.DirectoryExists path = false := by
      simpa [FileSystem.DirectoryExists] using hd
    have hf : fs.FileExists path = false := by
      rcases h with h | h
      · rw [hd1] at h
        exact absurd h (by simp)
      · exact h
    refine ⟨{ fs with dirs := fs.dirs ++ [path] }, ?_, ?_, rfl, rfl, ?_, fun _ => rfl⟩
    · simp only [hd, hf, Bool.false_eq_true, if_false]
    · simp [FileSystem.DirectoryExists]
    · intro h0
      rw [hd1] at h0
      exact absurd h0 (by simp)

theorem CreateDirectory_none (fs : FileSystem) (path : String)
    (hd : fs.DirectoryExists path = false) (hf : fs.FileExists path = true) :
    fs.CreateDirectory path = none := by
  have hd1 : fs.dirs.contains path = false := hd
  simp only [FileSystem.CreateDirectory, hd1, hf, Bool.false_eq_true, if_false, if_true]

/-- C3, as the code has it: in single-file mode `GetGlobalSinkState` makes no existence check.
Whatever `overwrite_or_ignore` is and whether or not a file exists at the target path, it returns
a fresh global state, its only call is the one that creates the global writer for `file_path`,
and it leaves the file system as it was. -/
theorem GetGlobalSinkState_single_file (op : PhysicalCopyToFile) (ctx : ClientContext)
    (hp : op.partition_output = false) (ht : op.per_thread_output = false) :
    (op.GetGlobalSinkState ctx).result =
        .ok (CopyToFunctionGlobalState.new (some ⟨ctx.calls.length, op.file_path⟩)) ∧
      (op.GetGlobalSinkState ctx).ctx.calls =
        ctx.calls ++ [.copy_to_initialize_global op.file_path] ∧
      (op.GetGlobalSinkState ctx).ctx.fs.files = ctx.fs.files ∧
      (op.GetGlobalSinkState ctx).ctx.fs.dirs = ctx.fs.dirs := by
  simp [PhysicalCopyToFile.GetGlobalSinkState, hp, ht, ClientContext.log]

theorem GetGlobalSinkState_single_file_witness :
    ((single_file_op "/out/data.csv").GetGlobalSinkState
        (local_ctx [("/out/data.csv", "old")] ["/out"])).result =
        .ok (CopyToFunctionGlobalState.new (some ⟨0, "/out/data.csv"⟩)) ∧
      ((single_file_op "/out/data.csv").GetGlobalSinkState
        (local_ctx [("/out/data.csv", "old")] ["/out"])).ctx.calls =
        [] ++ [.copy_to_initialize_global "/out/data.csv"] ∧
      ((single_file_op "/out/data.csv").GetGlobalSinkState
        (local_ctx [("/out/data.csv", "old")] ["/out"])).ctx.fs.files =
        [("/out/data.csv", "old")] ∧
      ((single_file_op "/out/data.csv").GetGlobalSinkState
        (local_ctx [("/out/data.csv", "old")] ["/out"])).ctx.fs.dirs = ["/out"] :=
  GetGlobalSinkState_single_file (single_file_op "/out/data.csv")
    (local_ctx [("/out/data.csv", "old")] ["/out"]) rfl rfl

/-- C3, as stated, fails: single-file mode, overwrite disabled, a file exists at the target
`/out/data.csv`; `GetGlobalSinkState` does not throw, and it invokes the global-writer
initialiser for that path. -/
theorem GetGlobalSinkState_single_file_existing_target :
    (single_file_op "/out/data.csv").overwrite_or_ignore = false ∧
      (local_ctx [("/out/data.csv", "old")] ["/out"]).fs.FileExists "/out/data.csv" = true ∧
      ((single_file_op "/out/data.csv").GetGlobalSinkState
        (local_ctx [("/out/data.csv", "old")] ["/out"])).result =
        .ok ⟨0, 0, some ⟨0, "/out/data.csv"⟩, none⟩ ∧
      ((single_file_op "/out/data.csv").GetGlobalSinkState
        (local_ctx [("/out/data.csv", "old")] ["/out"])).ctx.calls =
        [.copy_to_initialize_global "/out/data.csv"] := by
  decide

/-- C6, as the code has it: in per-thread or hive-partitioned mode `GetGlobalSinkState` throws
an `IOException` exactly when overwrite is disabled and either a file exists at the output path
or a directory exists there and has at least one entry, or when overwrite is enabled, a regular
file exists at the output path and no directory does: the directory creation then throws. In
every other case it returns a state, a directory exists at the output path afterwards, and when
none existed before it was created by this call. -/
theorem GetGlobalSinkState_directory (op : PhysicalCopyToFile) (ctx : ClientContext)
    (hmode : op.per_thread_output = true ∨ op.partition_output = true) :
    ((∃ msg, (op.GetGlobalSinkState ctx).result = .error (.IOException msg)) ↔
        ((op.overwrite_or_ignore = false ∧
          (ctx.fs.FileExists op.file_path = true ∨
            (ctx.fs.DirectoryExists op.file_path = true ∧ ctx.fs.ListFiles op.file_path ≠ []))) ∨
          (op.overwrite_or_ignore = true ∧ ctx.fs.FileExists op.file_path = true ∧
            ctx.fs.DirectoryExists op.file_path = false))) ∧
      ((∃ g, (op.GetGlobalSinkState ctx).result = .ok g) ↔
        ¬ ((op.overwrite_or_ignore = false ∧
          (ctx.fs.FileExists op.file_path = true ∨
            (ctx.fs.DirectoryExists op.file_path = true ∧ ctx.fs.ListFiles op.file_path ≠ []))) ∨
          (op.overwrite_or_ignore = true ∧ ctx.fs.FileExists op.file_path = true ∧
            ctx.fs.DirectoryExists op.file_path = false))) ∧
      ((∃ g, (op.GetGlobalSinkState ctx).result = .ok g) →
        (op.GetGlobalSinkState ctx).ctx.fs.DirectoryExists op.file_path = true ∧
        (ctx.fs.DirectoryExists op.file_path = false →
          Call.CreateDirectory op.file_path ∈ (op.GetGlobalSinkState ctx).ctx.calls ∧
          (op.GetGlobalSinkState ctx).ctx.fs.dirs = ctx.fs.dirs ++ [op.file_path])) ∧
      (op.overwrite_or_ignore = true → ctx.fs.FileExists op.file_path = true →
        ctx.fs.DirectoryExists op.file_path = false →
        (op.GetGlobalSinkState ctx).ctx.calls = ctx.calls ++ [.FileExists op.file_path,
          .DirectoryExists op.file_path, .CreateDirectory op.file_path] ∧
        (op.GetGlobalSinkState ctx).ctx.fs.dirs = ctx.fs.dirs ∧
        (op.GetGlobalSinkState ctx).ctx.fs.files = ctx.fs.files) := by
  have hm : (op.partition_output || op.per_thread_output) = true := by
    rcases hmode with h | h <;> simp [h]
  unfold PhysicalCopyToFile.GetGlobalSinkState
  simp only [hm, if_true, ClientContext.FileExists, ClientContext.DirectoryExists,
    ClientContext.ListFiles, ClientContext.log, ClientContext.CreateDirectory,
    CreateDirectory_exception]
  cases hfe : ctx.fs.FileExists op.file_path <;> cases how : op.overwrite_or_ignore <;>
    cases hde : ctx.fs.DirectoryExists op.file_path
  · obtain ⟨fs1, hc, hd1, _, _, _, hdirs⟩ := CreateDirectory_some ctx.fs op.file_path
      (Or.inr hfe)
    simp [hc, hd1, hdirs hde]
  · cases hl : ctx.fs.ListFiles op.file_path <;> simp [hde]
  · obtain ⟨fs1, hc, hd1, _, _, _, hdirs⟩ := CreateDirectory_some ctx.fs op.file_path
      (Or.inr hfe)
    simp [hc, hd1, hdirs hde]
  · simp [hde]
  · simp
  · simp
  · have hc := CreateDirectory_none ctx.fs op.file_path hde hfe
    simp [hc]
  · simp [hde]

theorem GetGlobalSinkState_directory_witness :
    ∃ msg, ((sample_op true false false).GetGlobalSinkState
      (local_ctx [] ["out", "out/data_7.csv"])).result = .error (.IOException msg) :=
  (GetGlobalSinkState_directory (sample_op true false false)
    (local_ctx [] ["out", "out/data_7.csv"]) (Or.inl rfl)).1.2
      (Or.inl ⟨rfl, Or.inr ⟨by decide, by decide⟩⟩)

/-- C6, as stated, fails. Per-thread mode with overwrite enabled and a regular file at the
output path `out`: none of the conditions the claim names holds, since overwrite is enabled, and
`GetGlobalSinkState` still throws an `IOException`, the one of the directory creation, and no
directory exists at `out` afterwards. -/
theorem GetGlobalSinkState_directory_occupied :
    (sample_op true false true).overwrite_or_ignore = true ∧
      ((sample_op true false true).GetGlobalSinkState (local_ctx [("out", "x")] [])).result =
        .error (.IOException
          "Failed to create directory \"out\": path exists but is not a directory!") ∧
      ((sample_op true false true).GetGlobalSinkState
        (local_ctx [("out", "x")] [])).ctx.fs.DirectoryExists "out" = false ∧
      ((sample_op true false true).GetGlobalSinkState (local_ctx [("out", "x")] [])).ctx.calls =
        [.FileExists "out", .DirectoryExists "out", .CreateDirectory "out"] := by
  decide

/-! ## Creation of the local state -/

theorem CreateFilename_error (op : PhysicalCopyToFile) (fs : FileSystem)
    (path extension : String) (n : Nat) (uuid : String) (e : Exc)
    (h : op.CreateFilename fs path extension n uuid = .error e) : e = .out_of_range := by
  unfold PhysicalCopyToFile.CreateFilename at h
  by_cases hpos : op.format_position ≤ op.fileformat.length
  · simp [hpos] at h
  · simp only [hpos, if_false, Except.error.injEq] at h
    exact h.symm

/-- C4: in per-thread mode `GetLocalSinkState` throws an `IOException` exactly when a file exists
at the file name derived from the claimed sequence number and overwrite is disabled. When it
throws (whatever it throws), it has created no global writer; when it returns, the local state
holds the global writer created for exactly that file name, by the last call it made. -/
theorem GetLocalSinkState_per_thread (op : PhysicalCopyToFile) (ctx : ClientContext)
    (g : CopyToFunctionGlobalState)
    (ht : op.per_thread_output = true) (hp : op.partition_output = false) :
    ((∃ msg, (op.GetLocalSinkState ctx g).result = .error (.IOException msg)) ↔
        ∃ path, op.CreateFilename ctx.fs op.file_path op.function.extension g.last_file_offset
            ctx.next_uuid = .ok path ∧
          ctx.fs.FileExists path = true ∧ op.overwrite_or_ignore = false) ∧
      (∀ e, (op.GetLocalSinkState ctx g).result = .error e →
        ∀ path, Call.copy_to_initialize_global path ∉
          (op.GetLocalSinkState ctx g).ctx.calls.drop ctx.calls.length) ∧
      (∀ l, (op.GetLocalSinkState ctx g).result = .ok l →
        ∃ path, op.CreateFilename ctx.fs op.file_path op.function.extension g.last_file_offset
            ctx.next_uuid = .ok path ∧
          l.global_state = some ⟨ctx.calls.length + 2, path⟩ ∧
          (op.GetLocalSinkState ctx g).ctx.calls =
            ctx.calls ++ [.copy_to_initialize_local, .FileExists path,
              .copy_to_initialize_global path]) := by
  unfold PhysicalCopyToFile.GetLocalSinkState
  simp only [hp, ht, if_true, ClientContext.FileExists, ClientContext.log,
    ClientContext.next_uuid, ClientContext.drawn]
  cases hname : op.CreateFilename ctx.fs op.file_path op.function.extension g.last_file_offset
      (ctx.uuids ctx.uuid_count) with
  | error e =>
    have he := CreateFilename_error _ _ _ _ _ _ _ hname
    subst he
    cases hu : op.use_uuid_format <;> simp
  | ok path =>
    cases hfe : ctx.fs.FileExists path <;> cases how : op.overwrite_or_ignore <;>
      cases hu : op.use_uuid_format <;>
      simp [hfe, CopyToFunctionLocalState.new]

theorem GetLocalSinkState_per_thread_witness :
    ∃ msg, ((sample_op true false false).GetLocalSinkState
      (local_ctx [("out/data_0.csv", "old")] ["out"])
      (CopyToFunctionGlobalState.new none)).result = .error (.IOException msg) :=
  (GetLocalSinkState_per_thread (sample_op true false false)
    (local_ctx [("out/data_0.csv", "old")] ["out"]) (CopyToFunctionGlobalState.new none)
    rfl rfl).1.2 ⟨"out/data_0.csv", by decide, by decide, rfl⟩

/-! ## Sequence numbers -/

theorem GetLocalSinkState_counter (op : PhysicalCopyToFile) (ctx : ClientContext)
    (g : CopyToFunctionGlobalState)
    (hmode : op.per_thread_output = true ∨ op.partition_output = true) :
    (op.GetLocalSinkState ctx g).gstate.last_file_offset =
      (g.last_file_offset + 1) % idx_t_size := by
  unfold PhysicalCopyToFile.GetLocalSinkState
  cases hp : op.partition_output
  · have ht : op.per_thread_output = true := by
      rcases hmode with h | h
      · exact h
      · rw [hp] at h; cases h
    simp only [ht, if_true, Bool.false_eq_true, if_false, ClientContext.FileExists]
    split
    · rfl
    · split <;> rfl
  · simp

theorem GetLocalSinkState_partition_offset (op : PhysicalCopyToFile) (ctx : ClientContext)
    (g : CopyToFunctionGlobalState) (hp : op.partition_output = true) :
    returned_writer_offset (op.GetLocalSinkState ctx g).result = some g.last_file_offset := by
  simp [PhysicalCopyToFile.GetLocalSinkState, hp, returned_writer_offset,
    CopyToFunctionLocalState.new]

theorem add_one_mod_add (a n : Nat) :
    ((a + 1) % idx_t_size + n) % idx_t_size = (a + (n + 1)) % idx_t_size := by
  rw [Nat.add_mod, Nat.mod_mod, ← Nat.add_mod]
  congr 1
  omega

/-- The sequence numbers read by `N` successive calls and the counter after them, starting from
any counter value: everything is counted modulo `2^64`. -/
theorem local_states_counter (op : PhysicalCopyToFile)
    (hmode : op.per_thread_output = true ∨ op.partition_output = true) (N : Nat) :
    ∀ (ctx : ClientContext) (g : CopyToFunctionGlobalState), g.last_file_offset < idx_t_size →
      (op.local_states N ctx g).1.map Prod.fst =
          (List.range N).map (fun i => (g.last_file_offset + i) % idx_t_size) ∧
        (op.local_states N ctx g).2.last_file_offset = (g.last_file_offset + N) % idx_t_size ∧
        (op.partition_output = true →
          (op.local_states N ctx g).1.map (fun c => returned_writer_offset c.2) =
            (List.range N).map (fun i => some ((g.last_file_offset + i) % idx_t_size))) := by
  induction N with
  | zero =>
    intro ctx g hg
    simp [PhysicalCopyToFile.local_states, Nat.mod_eq_of_lt hg]
  | succ N ih =>
    intro ctx g hg
    have hc := GetLocalSinkState_counter op ctx g hmode
    have hlt : (op.GetLocalSinkState ctx g).gstate.last_file_offset < idx_t_size := by
      rw [hc]
      exact Nat.mod_lt _ (by rw [idx_t_size_eq]; decide)
    obtain ⟨h1, h2, h3⟩ := ih (op.GetLocalSinkState ctx g).ctx (op.GetLocalSinkState ctx g).gstate hlt
    simp only [PhysicalCopyToFile.local_states, List.map_cons, List.range_succ_eq_map,
      List.map_map, Nat.add_zero, Nat.mod_eq_of_lt hg]
    refine ⟨?_, ?_, ?_⟩
    · rw [h1, hc]
      congr 1
      apply List.map_congr_left
      intro i _
      simp only [Function.comp, Nat.succ_eq_add_one]
      exact add_one_mod_add _ _
    · rw [h2, hc]
      exact add_one_mod_add _ _
    · intro hp
      rw [h3 hp, hc, GetLocalSinkState_partition_offset op ctx g hp]
      congr 1
      apply List.map_congr_left
      intro i _
      simp only [Function.comp, Nat.succ_eq_add_one]
      rw [add_one_mod_add]

/-- C2: for every `N` up to `2^64`, the number of values of the counter's type `idx_t`,
starting from a state whose `last_file_offset` is 0, `N` successive `GetLocalSinkState` calls in per-thread or
hive-partitioned mode claim the sequence numbers `0, 1, ..., N-1` in call order (whether or not a
call throws), these are pairwise distinct, and `last_file_offset` is `N` modulo `2^64`
afterwards, which is `N` itself as long as `N < 2^64`. In hive-partitioned mode every call
returns a state whose `writer_offset` is the number it claimed. -/
theorem local_states_sequence (op : PhysicalCopyToFile)
    (hmode : op.per_thread_output = true ∨ op.partition_output = true)
    (ctx : ClientContext) (g : CopyToFunctionGlobalState) (hg : g.last_file_offset = 0)
    (N : Nat) (hN : N ≤ idx_t_size) :
    (op.local_states N ctx g).1.map Prod.fst = List.range N ∧
      ((op.local_states N ctx g).1.map Prod.fst).Nodup ∧
      (op.local_states N ctx g).2.last_file_offset = N % idx_t_size ∧
      (N < idx_t_size → (op.local_states N ctx g).2.last_file_offset = N) ∧
      (op.partition_output = true →
        (op.local_states N ctx g).1.map (fun c => returned_writer_offset c.2) =
          (List.range N).map some) := by
  have hpos : g.last_file_offset < idx_t_size := by rw [hg, idx_t_size_eq]; decide
  obtain ⟨h1, h2, h3⟩ := local_states_counter op hmode N ctx g hpos
  have hmap : (List.range N).map (fun i => (g.last_file_offset + i) % idx_t_size) =
      List.range N := by
    conv_rhs => rw [← List.map_id (List.range N)]
    apply List.map_congr_left
    intro i hi
    rw [hg, Nat.zero_add]
    exact Nat.mod_eq_of_lt (Nat.lt_of_lt_of_le (List.mem_range.mp hi) hN)
  have hmap2 : (List.range N).map (fun i => some ((g.last_file_offset + i) % idx_t_size)) =
      (List.range N).map some := by
    apply List.map_congr_left
    intro i hi
    rw [hg, Nat.zero_add, Nat.mod_eq_of_lt (Nat.lt_of_lt_of_le (List.mem_range.mp hi) hN)]
  rw [hg, Nat.zero_add] at h2
  refine ⟨h1.trans hmap, ?_, h2, ?_, ?_⟩
  · rw [h1, hmap]
    exact List.nodup_range N
  · intro hlt
    rw [h2, Nat.mod_eq_of_lt hlt]
  · intro hp
    rw [h3 hp, hmap2]

theorem local_states_sequence_witness :
    ((sample_op true false false).local_states 3 (local_ctx [("out/data_1.csv", "old")] ["out"])
        (CopyToFunctionGlobalState.new none)).1.map Prod.fst = [0, 1, 2] ∧
      ((sample_op true false false).local_states 3 (local_ctx [("out/data_1.csv", "old")] ["out"])
        (CopyToFunctionGlobalState.new none)).2.last_file_offset = 3 :=
  have h := local_states_sequence (sample_op true false false) (Or.inl rfl)
    (local_ctx [("out/data_1.csv", "old")] ["out"]) (CopyToFunctionGlobalState.new none) rfl 3
    (by rw [idx_t_size_eq]; decide)
  ⟨h.1, h.2.2.2.1 (by rw [idx_t_size_eq]; decide)⟩

/-! ## Row count -/

/-- C1 at a failing input: the same three-row batch is sunk in each output mode on a fresh
state; the single-file and the per-thread execution report 3 rows, the hive-partitioned one
reports 0, because `Sink` returns from its partitioned branch before `rows_copied` is
increased. -/
theorem reported_rows_partitioned_is_zero :
    (sample_op false false false).reported_rows (local_ctx [] [])
        [⟨[[.BIGINT 2020, .VARCHAR "a"], [.BIGINT 2021, .VARCHAR "b"],
          [.BIGINT 2020, .VARCHAR "c"]]⟩] = some (.BIGINT 3) ∧
      (sample_op true false false).reported_rows (local_ctx [] [])
        [⟨[[.BIGINT 2020, .VARCHAR "a"], [.BIGINT 2021, .VARCHAR "b"],
          [.BIGINT 2020, .VARCHAR "c"]]⟩] = some (.BIGINT 3) ∧
      (sample_op false true false).reported_rows (local_ctx [] [])
        [⟨[[.BIGINT 2020, .VARCHAR "a"], [.BIGINT 2021, .VARCHAR "b"],
          [.BIGINT 2020, .VARCHAR "c"]]⟩] = some (.BIGINT 0) := by
  decide

/-! ## Partition directories -/

/-- The three ways `CreateDir` goes: the directory exists; it does not and no regular file holds
the path, so it is created; a regular file holds the path, so the creation throws. -/
theorem CreateDir_cases (d : String) (ctx : ClientContext) :
    (ctx.fs.DirectoryExists d = true ∧
        CreateDir d ctx = ⟨.ok (), ctx.log (.DirectoryExists d)⟩) ∨
      (ctx.fs.DirectoryExists d = false ∧ ctx.fs.FileExists d = false ∧
        CreateDir d ctx = ⟨.ok (), { ctx with
          fs := { ctx.fs with dirs := ctx.fs.dirs ++ [d] }
          calls := ctx.calls ++ [.DirectoryExists d, .CreateDirectory d] }⟩) ∨
      (ctx.fs.DirectoryExists d = false ∧ ctx.fs.FileExists d = true ∧
        CreateDir d ctx = ⟨.error (CreateDirectory_exception d), { ctx with
          calls := ctx.calls ++ [.DirectoryExists d, .CreateDirectory d] }⟩) := by
  cases hd : ctx.fs.DirectoryExists d with
  | true =>
    left
    simp [CreateDir, ClientContext.DirectoryExists, hd]
  | false =>
    right
    have hd1 : ctx.fs.dirs.contains d = false := hd
    cases hf : ctx.fs.FileExists d with
    | false =>
      left
      simp only [CreateDir, ClientContext.DirectoryExists, hd, ClientContext.CreateDirectory,
        FileSystem.CreateDirectory, hd1, hf, ClientContext.log, Bool.not_false, if_true,
        Bool.false_eq_true, if_false, List.append_assoc, List.singleton_append, and_self]
    | true =>
      right
      simp only [CreateDir, ClientContext.DirectoryExists, hd, ClientContext.CreateDirectory,
        FileSystem.CreateDirectory, hd1, hf, ClientContext.log, Bool.not_false, if_true,
        Bool.false_eq_true, if_false, List.append_assoc, List.singleton_append, and_self]

theorem CreateDir_JoinPath (dir_path : String) (ctx : ClientContext) :
    (CreateDir dir_path ctx).ctx.fs.JoinPath = ctx.fs.JoinPath := by
  rcases CreateDir_cases dir_path ctx with ⟨_, h⟩ | ⟨_, _, h⟩ | ⟨_, _, h⟩
  all_goals (simp only [h]; try rfl)

theorem CreateDir_files (dir_path : String) (ctx : ClientContext) :
    (CreateDir dir_path ctx).ctx.fs.files = ctx.fs.files := by
  rcases CreateDir_cases dir_path ctx with ⟨_, h⟩ | ⟨_, _, h⟩ | ⟨_, _, h⟩
  all_goals (simp only [h]; try rfl)

theorem CreateDir_ok (dir_path : String) (ctx : ClientContext)
    (h : ctx.fs.FileExists dir_path = false) : (CreateDir dir_path ctx).result = .ok () := by
  rcases CreateDir_cases dir_path ctx with ⟨_, h1⟩ | ⟨_, _, h1⟩ | ⟨_, hf, _⟩
  · rw [h1]
  · rw [h1]
  · rw [h] at hf
    exact absurd hf (by simp)

theorem CreateDir_error (dir_path : String) (ctx : ClientContext) (e : Exc)
    (h : (CreateDir dir_path ctx).result = .error e) :
    e = CreateDirectory_exception dir_path ∧ ctx.fs.FileExists dir_path = true ∧
      ctx.fs.DirectoryExists dir_path = false ∧
      (CreateDir dir_path ctx).ctx = { ctx with
        calls := ctx.calls ++ [.DirectoryExists dir_path, .CreateDirectory dir_path] } := by
  rcases CreateDir_cases dir_path ctx with ⟨_, h1⟩ | ⟨_, _, h1⟩ | ⟨hd, hf, h1⟩
  · rw [h1] at h
    simp at h
  · rw [h1] at h
    simp at h
  · rw [h1] at h ⊢
    simp only [Except.error.injEq] at h
    exact ⟨h.symm, hf, hd, rfl⟩

/-- Whenever the loop returns, the path it returns is the path it started from joined with the
segments of the remaining columns in order. -/
theorem CreateDirRecursive_loop_returns (cols : List Nat) (names : List String)
    (values : List Value) (fuel : Nat) :
    ∀ (i : Nat) (path : String) (ctx : ClientContext) (p : String),
      (CreateDirRecursive_loop cols names values fuel i path ctx).result = .ok p →
        p = (List.range' i fuel).foldl
          (fun q j => ctx.fs.JoinPath q (hive_segment cols names values j)) path := by
  induction fuel with
  | zero =>
    intro i path ctx p h
    simp only [CreateDirRecursive_loop, Except.ok.injEq] at h
    simp [h]
  | succ fuel ih =>
    intro i path ctx p h
    rw [CreateDirRecursive_loop] at h
    cases e1 : cols.get? i with
    | none =>
      simp only [e1] at h
      exact absurd h (by simp)
    | some col =>
      cases e2 : names.get? col with
      | none =>
        simp only [e1, e2] at h
        exact absurd h (by simp)
      | some name =>
        cases e3 : values.get? i with
        | none =>
          simp only [e1, e2, e3] at h
          exact absurd h (by simp)
        | some value =>
          have hseg : hive_segment cols names values i = name ++ "=" ++ value.ToString := by
            simp only [List.get?_eq_getElem?] at e1 e2 e3
            simp [hive_segment, List.getD_eq_getElem?_getD, e1, e2, e3]
          simp only [e1, e2, e3] at h
          cases hr : (CreateDir (ctx.fs.JoinPath path (name ++ "=" ++ value.ToString))
              ctx).result with
          | error e => simp [hr] at h
          | ok u =>
            simp only [hr] at h
            rw [ih _ _ _ p h, CreateDir_JoinPath, List.range'_succ, List.foldl_cons, hseg]

/-- An exception of the loop is an index out of range or the exception of a directory creation
on a path that a regular file holds. -/
theorem CreateDirRecursive_loop_error (cols : List Nat) (names : List String)
    (values : List Value) (fuel : Nat) :
    ∀ (i : Nat) (path : String) (ctx : ClientContext) (e : Exc),
      (CreateDirRecursive_loop cols names values fuel i path ctx).result = .error e →
        e = .index_out_of_bounds ∨
          ∃ d, e = CreateDirectory_exception d ∧ ctx.fs.FileExists d = true := by
  induction fuel with
  | zero => intro i path ctx e h; simp [CreateDirRecursive_loop] at h
  | succ fuel ih =>
    intro i path ctx e h
    rw [CreateDirRecursive_loop] at h
    split at h
    · simp only [Except.error.injEq] at h
      exact Or.inl h.symm
    · split at h
      · rename_i name value _ _
        cases hr : (CreateDir (ctx.fs.JoinPath path (name ++ "=" ++ value.ToString))
            ctx).result with
        | error e1 =>
          simp only [hr, Except.error.injEq] at h
          subst h
          obtain ⟨he, hf, _, _⟩ := CreateDir_error _ _ _ hr
          exact Or.inr ⟨_, he, hf⟩
        | ok u =>
          simp only [hr] at h
          rcases ih _ _ _ _ h with h1 | ⟨d, hd, hf⟩
          · exact Or.inl h1
          · refine Or.inr ⟨d, hd, ?_⟩
            unfold FileSystem.FileExists at hf ⊢
            rw [CreateDir_files] at hf
            exact hf
      · simp only [Except.error.injEq] at h
        exact Or.inl h.symm

theorem CreateDirRecursive_error (cols : List Nat) (names : List String) (values : List Value)
    (path : String) (ctx : ClientContext) (e : Exc)
    (h : (CreateDirRecursive cols names values path ctx).result = .error e) :
    e = .index_out_of_bounds ∨
      ∃ d, e = CreateDirectory_exception d ∧ ctx.fs.FileExists d = true := by
  unfold CreateDirRecursive at h
  cases hr : (CreateDir path ctx).result with
  | error e1 =>
    simp only [hr, Except.error.injEq] at h
    subst h
    obtain ⟨he, hf, _, _⟩ := CreateDir_error _ _ _ hr
    exact Or.inr ⟨_, he, hf⟩
  | ok u =>
    simp only [hr] at h
    rcases CreateDirRecursive_loop_error _ _ _ _ _ _ _ _ h with h1 | ⟨d, hd, hf⟩
    · exact Or.inl h1
    · refine Or.inr ⟨d, hd, ?_⟩
      unfold FileSystem.FileExists at hf ⊢
      rw [CreateDir_files] at hf
      exact hf

/-- With no regular file on a level still to come, the loop throws no `IOException`. -/
theorem CreateDirRecursive_loop_free (cols : List Nat) (names : List String)
    (values : List Value) (fuel : Nat) :
    ∀ (i : Nat) (path : String) (ctx : ClientContext),
      (∀ k, 1 ≤ k → k ≤ fuel → ctx.fs.FileExists ((List.range' i k).foldl
        (fun q j => ctx.fs.JoinPath q (hive_segment cols names values j)) path) = false) →
      ∀ e, (CreateDirRecursive_loop cols names values fuel i path ctx).result = .error e →
        e = .index_out_of_bounds := by
  induction fuel with
  | zero => intro i path ctx _ e h; simp [CreateDirRecursive_loop] at h
  | succ fuel ih =>
    intro i path ctx hfree e h
    rw [CreateDirRecursive_loop] at h
    cases e1 : cols.get? i with
    | none =>
      simp only [e1, Except.error.injEq] at h
      exact h.symm
    | some col =>
      cases e2 : names.get? col with
      | none =>
        simp only [e1, e2, Except.error.injEq] at h
        exact h.symm
      | some name =>
        cases e3 : values.get? i with
        | none =>
          simp only [e1, e2, e3, Except.error.injEq] at h
          exact h.symm
        | some value =>
          have hseg : hive_segment cols names values i = name ++ "=" ++ value.ToString := by
            simp only [List.get?_eq_getElem?] at e1 e2 e3
            simp [hive_segment, List.getD_eq_getElem?_getD, e1, e2, e3]
          simp only [e1, e2, e3] at h
          have h1 := hfree 1 (le_refl 1) (by omega)
          simp only [List.range'_one, List.foldl_cons, List.foldl_nil, hseg] at h1
          have hok := CreateDir_ok _ ctx h1
          simp only [hok] at h
          apply ih _ _ _ _ e h
          intro k hk1 hk2
          have h2 := hfree (k + 1) (by omega) (by omega)
          rw [List.range'_succ, List.foldl_cons, hseg] at h2
          unfold FileSystem.FileExists at h2 ⊢
          rw [CreateDir_files, CreateDir_JoinPath]
          exact h2

/-- With valid indices the loop throws no index exception. -/
theorem CreateDirRecursive_loop_valid (cols : List Nat) (names : List String)
    (values : List Value) (hcols : ∀ c ∈ cols, c < names.length)
    (hvals : cols.length ≤ values.length) (fuel : Nat) :
    ∀ (i : Nat) (path : String) (ctx : ClientContext), i + fuel = cols.length →
      (CreateDirRecursive_loop cols names values fuel i path ctx).result ≠
        .error .index_out_of_bounds := by
  induction fuel with
  | zero => intro i path ctx _ h; simp [CreateDirRecursive_loop] at h
  | succ fuel ih =>
    intro i path ctx hi h
    have hic : i < cols.length := by omega
    have hiv : i < values.length := by omega
    have hcn : cols[i] < names.length := hcols _ (List.getElem_mem hic)
    have e1 : cols.get? i = some cols[i] := by
      simp only [List.get?_eq_getElem?, List.getElem?_eq_getElem hic]
    have e2 : names.get? cols[i] = some names[cols[i]] := by
      simp only [List.get?_eq_getElem?, List.getElem?_eq_getElem hcn]
    have e3 : values.get? i = some values[i] := by
      simp only [List.get?_eq_getElem?, List.getElem?_eq_getElem hiv]
    rw [CreateDirRecursive_loop] at h
    simp only [e1, e2, e3] at h
    cases hr : (CreateDir (ctx.fs.JoinPath path (names[cols[i]] ++ "=" ++ values[i].ToString))
        ctx).result with
    | error e =>
      simp only [hr, Except.error.injEq] at h
      obtain ⟨he, _, _, _⟩ := CreateDir_error _ _ _ hr
      rw [h] at he
      simp [CreateDirectory_exception] at he
    | ok u =>
      simp only [hr] at h
      exact ih _ _ _ (by omega) h

theorem CreateDirRecursive_loop_frame (cols : List Nat) (names : List String)
    (values : List Value) (fuel : Nat) :
    ∀ (i : Nat) (path : String) (ctx : ClientContext),
      (CreateDirRecursive_loop cols names values fuel i path ctx).ctx.fs.files = ctx.fs.files ∧
        (CreateDirRecursive_loop cols names values fuel i path ctx).ctx.fs.JoinPath =
          ctx.fs.JoinPath := by
  induction fuel with
  | zero => intro i path ctx; exact ⟨rfl, rfl⟩
  | succ fuel ih =>
    intro i path ctx
    rw [CreateDirRecursive_loop]
    split
    · exact ⟨rfl, rfl⟩
    · split
      · rename_i name value _ _
        dsimp only
        split
        · exact ⟨CreateDir_files _ _, CreateDir_JoinPath _ _⟩
        · obtain ⟨h1, h2⟩ := ih (i + 1) (ctx.fs.JoinPath path (name ++ "=" ++ value.ToString))
            (CreateDir (ctx.fs.JoinPath path (name ++ "=" ++ value.ToString)) ctx).ctx
          exact ⟨h1.trans (CreateDir_files _ _), h2.trans (CreateDir_JoinPath _ _)⟩
      · exact ⟨rfl, rfl⟩

theorem CreateDirRecursive_frame (cols : List Nat) (names : List String) (values : List Value)
    (path : String) (ctx : ClientContext) :
    (CreateDirRecursive cols names values path ctx).ctx.fs.files = ctx.fs.files ∧
      (CreateDirRecursive cols names values path ctx).ctx.fs.JoinPath = ctx.fs.JoinPath := by
  unfold CreateDirRecursive
  split
  · exact ⟨CreateDir_files _ _, CreateDir_JoinPath _ _⟩
  · obtain ⟨h1, h2⟩ := CreateDirRecursive_loop_frame cols names values cols.length 0 path
      (CreateDir path ctx).ctx
    exact ⟨h1.trans (CreateDir_files _ _), h2.trans (CreateDir_JoinPath _ _)⟩

theorem CreateDir_calls (dir_path : String) (ctx : ClientContext) :
    ∃ new, (CreateDir dir_path ctx).ctx.calls = ctx.calls ++ new ∧
      ∀ c ∈ new, ∃ d, c = Call.DirectoryExists d ∨ c = Call.CreateDirectory d := by
  have h1 : ∀ c ∈ [Call.DirectoryExists dir_path], ∃ d, c = Call.DirectoryExists d ∨
      c = Call.CreateDirectory d := by
    intro c hc
    simp only [List.mem_singleton] at hc
    exact ⟨dir_path, Or.inl hc⟩
  have h2 : ∀ c ∈ [Call.DirectoryExists dir_path, Call.CreateDirectory dir_path],
      ∃ d, c = Call.DirectoryExists d ∨ c = Call.CreateDirectory d := by
    intro c hc
    simp only [List.mem_cons, List.mem_singleton, List.not_mem_nil, or_false] at hc
    rcases hc with h | h
    · exact ⟨dir_path, Or.inl h⟩
    · exact ⟨dir_path, Or.inr h⟩
  rcases CreateDir_cases dir_path ctx with ⟨_, h⟩ | ⟨_, _, h⟩ | ⟨_, _, h⟩
  · exact ⟨_, by rw [h]; rfl, h1⟩
  · exact ⟨_, by rw [h], h2⟩
  · exact ⟨_, by rw [h], h2⟩

theorem CreateDirRecursive_loop_calls (cols : List Nat) (names : List String)
    (values : List Value) (fuel : Nat) :
    ∀ (i : Nat) (path : String) (ctx : ClientContext),
      ∃ new, (CreateDirRecursive_loop cols names values fuel i path ctx).ctx.calls =
          ctx.calls ++ new ∧
        ∀ c ∈ new, ∃ d, c = Call.DirectoryExists d ∨ c = Call.CreateDirectory d := by
  induction fuel with
  | zero => intro i path ctx; exact ⟨[], by simp [CreateDirRecursive_loop], by simp⟩
  | succ fuel ih =>
    intro i path ctx
    rw [CreateDirRecursive_loop]
    split
    · exact ⟨[], by simp, by simp⟩
    · split
      · rename_i name value _ _
        obtain ⟨n1, h1, a1⟩ := CreateDir_calls
          (ctx.fs.JoinPath path (name ++ "=" ++ value.ToString)) ctx
        dsimp only
        split
        · exact ⟨n1, h1, a1⟩
        · obtain ⟨n2, h2, a2⟩ := ih (i + 1)
            (ctx.fs.JoinPath path (name ++ "=" ++ value.ToString))
            (CreateDir (ctx.fs.JoinPath path (name ++ "=" ++ value.ToString)) ctx).ctx
          refine ⟨n1 ++ n2, by rw [h2, h1, List.append_assoc], ?_⟩
          intro c hc
          rcases List.mem_append.mp hc with h | h
          · exact a1 c h
          · exact a2 c h
      · exact ⟨[], by simp, by simp⟩

theorem CreateDirRecursive_calls (cols : List Nat) (names : List String) (values : List Value)
    (path : String) (ctx : ClientContext) :
    ∃ new, (CreateDirRecursive cols names values path ctx).ctx.calls = ctx.calls ++ new ∧
      ∀ c ∈ new, ∃ d, c = Call.DirectoryExists d ∨ c = Call.CreateDirectory d := by
  unfold CreateDirRecursive
  obtain ⟨n1, h1, a1⟩ := CreateDir_calls path ctx
  split
  · exact ⟨n1, h1, a1⟩
  · obtain ⟨n2, h2, a2⟩ := CreateDirRecursive_loop_calls cols names values cols.length 0 path
      (CreateDir path ctx).ctx
    refine ⟨n1 ++ n2, by rw [h2, h1, List.append_assoc], ?_⟩
    intro c hc
    rcases List.mem_append.mp hc with h | h
    · exact a1 c h
    · exact a2 c h

theorem hive_level_congr (fs1 fs2 : FileSystem) (cols : List Nat) (names : List String)
    (values : List Value) (root : String) (k : Nat) (h : fs1.JoinPath = fs2.JoinPath) :
    hive_level fs1 cols names values root k = hive_level fs2 cols names values root k := by
  unfold hive_level
  rw [h]

/-- With no regular file on the root or on a directory level, `CreateDirRecursive` throws no
`IOException`. -/
theorem CreateDirRecursive_free (cols : List Nat) (names : List String) (values : List Value)
    (root : String) (ctx : ClientContext)
    (hfree : ∀ k, k ≤ cols.length →
      ctx.fs.FileExists (hive_level ctx.fs cols names values root k) = false) :
    ∀ e, (CreateDirRecursive cols names values root ctx).result = .error e →
      e = .index_out_of_bounds := by
  intro e h
  have hroot : (CreateDir root ctx).result = .ok () :=
    CreateDir_ok root ctx (hfree 0 (Nat.zero_le _))
  have hfree1 : ∀ k, 1 ≤ k → k ≤ cols.length →
      (CreateDir root ctx).ctx.fs.FileExists ((List.range' 0 k).foldl
        (fun q j => (CreateDir root ctx).ctx.fs.JoinPath q (hive_segment cols names values j))
        root) = false := by
    intro k _ hk
    have := hfree k hk
    unfold FileSystem.FileExists at this ⊢
    rw [CreateDir_files, CreateDir_JoinPath, ← List.range_eq_range']
    exact this
  unfold CreateDirRecursive at h
  simp only [hroot] at h
  exact CreateDirRecursive_loop_free cols names values cols.length 0 root _ hfree1 e h

theorem CreateDirRecursive_ok (cols : List Nat) (names : List String) (values : List Value)
    (root : String) (ctx : ClientContext)
    (hcols : ∀ c ∈ cols, c < names.length) (hvals : cols.length ≤ values.length)
    (hfree : ∀ k, k ≤ cols.length →
      ctx.fs.FileExists (hive_level ctx.fs cols names values root k) = false) :
    (CreateDirRecursive cols names values root ctx).result =
      .ok ((List.range cols.length).foldl
        (fun p i => ctx.fs.JoinPath p (hive_segment cols names values i)) root) := by
  have hroot : (CreateDir root ctx).result = .ok () :=
    CreateDir_ok root ctx (hfree 0 (Nat.zero_le _))
  have hfree1 : ∀ k, 1 ≤ k → k ≤ cols.length →
      (CreateDir root ctx).ctx.fs.FileExists ((List.range' 0 k).foldl
        (fun q j => (CreateDir root ctx).ctx.fs.JoinPath q (hive_segment cols names values j))
        root) = false := by
    intro k _ hk
    have := hfree k hk
    unfold FileSystem.FileExists at this ⊢
    rw [CreateDir_files, CreateDir_JoinPath, ← List.range_eq_range']
    exact this
  unfold CreateDirRecursive
  simp only [hroot]
  cases hr : (CreateDirRecursive_loop cols names values cols.length 0 root
      (CreateDir root ctx).ctx).result with
  | error e =>
    have he := CreateDirRecursive_loop_free cols names values cols.length 0 root _ hfree1 e hr
    subst he
    exact absurd hr (CreateDirRecursive_loop_valid cols names values hcols hvals cols.length 0
      root _ (by omega))
  | ok p =>
    rw [CreateDirRecursive_loop_returns cols names values cols.length 0 root _ p hr,
      CreateDir_JoinPath, List.range_eq_range']

theorem drawn_frame (ctx : ClientContext) (draw : Bool) :
    (ctx.drawn draw).fs = ctx.fs ∧ (ctx.drawn draw).calls = ctx.calls := by
  unfold ClientContext.drawn
  split <;> exact ⟨rfl, rfl⟩

theorem foldl_log (f : DataChunk → Call) (chunks : List DataChunk) :
    ∀ ctx : ClientContext,
      chunks.foldl (fun c chunk => c.log (f chunk)) ctx =
        { ctx with calls := ctx.calls ++ chunks.map f } := by
  induction chunks with
  | nil => intro ctx; simp
  | cons chunk rest ih =>
    intro ctx
    rw [List.foldl_cons, ih]
    simp [ClientContext.log]

/-- One bucket: the iteration throws an `IOException` exactly when overwrite is disabled and the
bucket's target file exists at the moment of the check, or when the creation of the bucket's
directory throws one; in the first case the last call made is that check. -/
theorem Combine_bucket_conflict (op : PhysicalCopyToFile) (writer_offset : Nat)
    (trimmed_path : String) (p : Partition) (ctx : ClientContext) :
    ((∃ msg, (op.Combine_bucket writer_offset trimmed_path p ctx).result =
        .error (.IOException msg)) ↔
      ((op.overwrite_or_ignore = false ∧ ∃ full_path ctx_t,
        op.bucket_target writer_offset trimmed_path p ctx = some (full_path, ctx_t) ∧
        ctx_t.fs.FileExists full_path = true) ∨
        ∃ msg, (CreateDirRecursive op.partition_columns op.names p.values trimmed_path
          ctx).result = .error (.IOException msg))) ∧
    (∀ full_path ctx_t, op.overwrite_or_ignore = false →
      op.bucket_target writer_offset trimmed_path p ctx = some (full_path, ctx_t) →
      ctx_t.fs.FileExists full_path = true →
      (op.Combine_bucket writer_offset trimmed_path p ctx).result =
          .error (.IOException ("failed to create " ++ full_path ++
            ", file exists! Enable OVERWRITE_OR_IGNORE option to force writing")) ∧
        (op.Combine_bucket writer_offset trimmed_path p ctx).ctx.calls =
          ctx_t.calls ++ [.FileExists full_path]) := by
  unfold PhysicalCopyToFile.Combine_bucket PhysicalCopyToFile.bucket_target
  cases hd : CreateDirRecursive op.partition_columns op.names p.values trimmed_path ctx with
  | mk r ctx1 =>
    cases r with
    | error e => simp
    | ok hive_path =>
      simp only
      cases hn : op.CreateFilename ctx1.fs hive_path op.function.extension writer_offset
          ctx1.next_uuid with
      | error e =>
        have he := CreateFilename_error _ _ _ _ _ _ _ hn
        subst he
        simp
      | ok full_path =>
        simp only [ClientContext.FileExists, ClientContext.log]
        cases hfe : (ctx1.drawn op.use_uuid_format).fs.FileExists full_path <;>
          cases how : op.overwrite_or_ignore <;>
          cases hc : op.function.copy_to_combine <;>
          cases hf : op.function.copy_to_finalize <;>
          simp [hfe] <;>
          exact ⟨_, _, ⟨rfl, rfl⟩, hfe⟩

/-- An iteration of the bucket loop changes neither the regular files nor the way paths are
joined. -/
theorem Combine_bucket_frame (op : PhysicalCopyToFile) (writer_offset : Nat)
    (trimmed_path : String) (p : Partition) (ctx : ClientContext) :
    (op.Combine_bucket writer_offset trimmed_path p ctx).ctx.fs.files = ctx.fs.files ∧
      (op.Combine_bucket writer_offset trimmed_path p ctx).ctx.fs.JoinPath =
        ctx.fs.JoinPath := by
  obtain ⟨hfiles, hjoin⟩ := CreateDirRecursive_frame op.partition_columns op.names p.values
    trimmed_path ctx
  have hfs : (op.Combine_bucket writer_offset trimmed_path p ctx).ctx.fs =
      (CreateDirRecursive op.partition_columns op.names p.values trimmed_path ctx).ctx.fs := by
    unfold PhysicalCopyToFile.Combine_bucket
    cases hd : CreateDirRecursive op.partition_columns op.names p.values trimmed_path ctx with
    | mk r ctx1 =>
      have hdf := (drawn_frame ctx1 op.use_uuid_format).1
      cases r with
      | error e => rfl
      | ok hive_path =>
        simp only
        cases hn : op.CreateFilename ctx1.fs hive_path op.function.extension writer_offset
            ctx1.next_uuid with
        | error e => exact hdf
        | ok full_path =>
          simp only [ClientContext.FileExists, foldl_log]
          cases (ctx1.drawn op.use_uuid_format).fs.FileExists full_path <;>
            cases op.overwrite_or_ignore <;>
            cases op.function.copy_to_combine <;>
            cases op.function.copy_to_finalize <;>
            simp [ClientContext.log, hdf]
  rw [hfs]
  exact ⟨hfiles, hjoin⟩

/-- Running the loop over `before ++ rest` when it gets through `before`: it goes on with `rest`
from the context `before` left. -/
theorem Combine_loop_append (op : PhysicalCopyToFile) (writer_offset : Nat)
    (trimmed_path : String) (rest : List Partition) (before : List Partition) :
    ∀ ctx : ClientContext,
      (op.Combine_loop writer_offset trimmed_path before ctx).result = .ok () →
      op.Combine_loop writer_offset trimmed_path (before ++ rest) ctx =
        op.Combine_loop writer_offset trimmed_path rest
          (op.Combine_loop writer_offset trimmed_path before ctx).ctx := by
  induction before with
  | nil => intro ctx _; rfl
  | cons p ps ih =>
    intro ctx h
    simp only [List.cons_append, PhysicalCopyToFile.Combine_loop] at h ⊢
    cases hb : op.Combine_bucket writer_offset trimmed_path p ctx with
    | mk r ctx1 =>
      cases r with
      | error e => rw [hb] at h; simp at h
      | ok u =>
        rw [hb] at h
        simp only at h ⊢
        exact ih ctx1 h

/-- The loop throws `e` exactly when some bucket is reached (the loop got through all the buckets
before it) and its iteration throws `e`; the loop then stops where that iteration stopped. -/
theorem Combine_loop_error (op : PhysicalCopyToFile) (writer_offset : Nat)
    (trimmed_path : String) (e : Exc) (ps : List Partition) :
    ∀ ctx : ClientContext,
      (op.Combine_loop writer_offset trimmed_path ps ctx).result = .error e →
      ∃ before p after, ps = before ++ p :: after ∧
        (op.Combine_loop writer_offset trimmed_path before ctx).result = .ok () ∧
        (op.Combine_bucket writer_offset trimmed_path p
          (op.Combine_loop writer_offset trimmed_path before ctx).ctx).result = .error e := by
  induction ps with
  | nil => intro ctx h; simp [PhysicalCopyToFile.Combine_loop] at h
  | cons p ps ih =>
    intro ctx h
    cases hb : op.Combine_bucket writer_offset trimmed_path p ctx with
    | mk r ctx1 =>
      cases r with
      | error e1 =>
        simp only [PhysicalCopyToFile.Combine_loop, hb, Except.error.injEq] at h
        subst h
        exact ⟨[], p, ps, rfl, rfl, by simp only [PhysicalCopyToFile.Combine_loop, hb]⟩
      | ok u =>
        simp only [PhysicalCopyToFile.Combine_loop, hb] at h
        obtain ⟨before, q, after, hps, hok, herr⟩ := ih ctx1 h
        refine ⟨p :: before, q, after, by rw [hps]; rfl, ?_, ?_⟩
        · simp only [PhysicalCopyToFile.Combine_loop, hb]
          exact hok
        · simp only [PhysicalCopyToFile.Combine_loop, hb]
          exact herr

theorem Combine_loop_stops (op : PhysicalCopyToFile) (writer_offset : Nat)
    (trimmed_path : String) (e : Exc) (before : List Partition) (p : Partition)
    (after : List Partition) (ctx : ClientContext)
    (hok : (op.Combine_loop writer_offset trimmed_path before ctx).result = .ok ())
    (herr : (op.Combine_bucket writer_offset trimmed_path p
      (op.Combine_loop writer_offset trimmed_path before ctx).ctx).result = .error e) :
    (op.Combine_loop writer_offset trimmed_path (before ++ p :: after) ctx).result = .error e ∧
      (op.Combine_loop writer_offset trimmed_path (before ++ p :: after) ctx).ctx =
        (op.Combine_bucket writer_offset trimmed_path p
          (op.Combine_loop writer_offset trimmed_path before ctx).ctx).ctx := by
  rw [Combine_loop_append op writer_offset trimmed_path (p :: after) before ctx hok]
  cases hb : op.Combine_bucket writer_offset trimmed_path p
      (op.Combine_loop writer_offset trimmed_path before ctx).ctx with
  | mk r ctx1 =>
    rw [hb] at herr
    simp only at herr
    subst herr
    simp only [PhysicalCopyToFile.Combine_loop, hb, and_self]

theorem bucket_target_calls (op : PhysicalCopyToFile) (writer_offset : Nat)
    (trimmed_path : String) (p : Partition) (ctx : ClientContext) (full_path : String)
    (ctx_t : ClientContext)
    (h : op.bucket_target writer_offset trimmed_path p ctx = some (full_path, ctx_t)) :
    ∃ new, ctx_t.calls = ctx.calls ++ new ∧
      ∀ c ∈ new, ∃ d, c = Call.DirectoryExists d ∨ c = Call.CreateDirectory d := by
  obtain ⟨n1, h1, a1⟩ := CreateDirRecursive_calls op.partition_columns op.names p.values
    trimmed_path ctx
  unfold PhysicalCopyToFile.bucket_target at h
  cases hd : CreateDirRecursive op.partition_columns op.names p.values trimmed_path ctx with
  | mk r ctx1 =>
    rw [hd] at h h1
    cases r with
    | error e => simp at h
    | ok hive_path =>
      simp only at h h1
      split at h
      · simp at h
      · simp only [Option.some.injEq, Prod.mk.injEq] at h
        refine ⟨n1, ?_, a1⟩
        rw [← h.2, ← h1]
        unfold ClientContext.drawn
        split <;> rfl

theorem Combine_loop_frame (op : PhysicalCopyToFile) (writer_offset : Nat)
    (trimmed_path : String) (ps : List Partition) :
    ∀ ctx : ClientContext,
      (op.Combine_loop writer_offset trimmed_path ps ctx).ctx.fs.files = ctx.fs.files ∧
        (op.Combine_loop writer_offset trimmed_path ps ctx).ctx.fs.JoinPath =
          ctx.fs.JoinPath := by
  induction ps with
  | nil => intro ctx; exact ⟨rfl, rfl⟩
  | cons p rest ih =>
    intro ctx
    obtain ⟨h1, h2⟩ := Combine_bucket_frame op writer_offset trimmed_path p ctx
    simp only [PhysicalCopyToFile.Combine_loop]
    cases hb : op.Combine_bucket writer_offset trimmed_path p ctx with
    | mk r ctx1 =>
      rw [hb] at h1 h2
      cases r with
      | error e => exact ⟨h1, h2⟩
      | ok u =>
        obtain ⟨h3, h4⟩ := ih ctx1
        exact ⟨h3.trans h1, h4.trans h2⟩

/-- C5, as the code has it: in hive-partitioned mode `Combine` throws an `IOException` exactly
when some bucket is reached (the loop got through every bucket before it, in index order) and
either overwrite is disabled and the bucket's target file exists at the moment of the check, or
the creation of the bucket's directory throws because a regular file holds the root or one of
the directory levels. When no regular file holds the root or a directory level of any bucket,
only the first case is left, which is the claim. In the first case the exception is that of
this first conflicting bucket, and since the bucket was reached the operator has only made
directory calls and the existence check: no writer was created for it and none of its batches
was passed to the encoder. -/
theorem Combine_partitioned_conflict (op : PhysicalCopyToFile) (ctx : ClientContext)
    (g : CopyToFunctionGlobalState) (l : CopyToFunctionLocalState)
    (pb : HivePartitionedColumnData) (s : PartitionedColumnDataAppendState)
    (hp : op.partition_output = true) (hb : l.part_buffer = some pb)
    (hs : l.part_buffer_append_state = some s) :
    ((∃ msg, (op.Combine ctx g l).result = .error (.IOException msg)) ↔
      ((op.overwrite_or_ignore = false ∧ ∃ before p after full_path ctx_t,
        pb.partitions = before ++ p :: after ∧
        (op.Combine_loop l.writer_offset (RTrim op.file_path ctx.fs.PathSeparator) before
          ctx).result = .ok () ∧
        op.bucket_target l.writer_offset (RTrim op.file_path ctx.fs.PathSeparator) p
          (op.Combine_loop l.writer_offset (RTrim op.file_path ctx.fs.PathSeparator) before
            ctx).ctx = some (full_path, ctx_t) ∧
        ctx_t.fs.FileExists full_path = true) ∨
      (∃ before p after d, pb.partitions = before ++ p :: after ∧
        (op.Combine_loop l.writer_offset (RTrim op.file_path ctx.fs.PathSeparator) before
          ctx).result = .ok () ∧
        (CreateDirRecursive op.partition_columns op.names p.values
          (RTrim op.file_path ctx.fs.PathSeparator)
          (op.Combine_loop l.writer_offset (RTrim op.file_path ctx.fs.PathSeparator) before
            ctx).ctx).result = .error (CreateDirectory_exception d) ∧
        ctx.fs.FileExists d = true))) ∧
    ((∀ p ∈ pb.partitions, ∀ k, k ≤ op.partition_columns.length →
        ctx.fs.FileExists (hive_level ctx.fs op.partition_columns op.names p.values
          (RTrim op.file_path ctx.fs.PathSeparator) k) = false) →
      ((∃ msg, (op.Combine ctx g l).result = .error (.IOException msg)) ↔
        (op.overwrite_or_ignore = false ∧ ∃ before p after full_path ctx_t,
          pb.partitions = before ++ p :: after ∧
          (op.Combine_loop l.writer_offset (RTrim op.file_path ctx.fs.PathSeparator) before
            ctx).result = .ok () ∧
          op.bucket_target l.writer_offset (RTrim op.file_path ctx.fs.PathSeparator) p
            (op.Combine_loop l.writer_offset (RTrim op.file_path ctx.fs.PathSeparator) before
              ctx).ctx = some (full_path, ctx_t) ∧
          ctx_t.fs.FileExists full_path = true))) ∧
    (∀ before p after full_path ctx_t, op.overwrite_or_ignore = false →
      pb.partitions = before ++ p :: after →
      (op.Combine_loop l.writer_offset (RTrim op.file_path ctx.fs.PathSeparator) before
        ctx).result = .ok () →
      op.bucket_target l.writer_offset (RTrim op.file_path ctx.fs.PathSeparator) p
        (op.Combine_loop l.writer_offset (RTrim op.file_path ctx.fs.PathSeparator) before
          ctx).ctx = some (full_path, ctx_t) →
      ctx_t.fs.FileExists full_path = true →
      (op.Combine ctx g l).result =
          .error (.IOException ("failed to create " ++ full_path ++
            ", file exists! Enable OVERWRITE_OR_IGNORE option to force writing")) ∧
        ∃ new, (op.Combine ctx g l).ctx.calls =
            (op.Combine_loop l.writer_offset (RTrim op.file_path ctx.fs.PathSeparator) before
              ctx).ctx.calls ++ new ++ [.FileExists full_path] ∧
          ∀ c ∈ new, ∃ d, c = Call.DirectoryExists d ∨ c = Call.CreateDirectory d) := by
  have hcomb : ∀ r : Ret Unit,
      op.Combine_loop l.writer_offset (RTrim op.file_path ctx.fs.PathSeparator)
        pb.partitions ctx = r →
      (∀ e, (op.Combine ctx g l).result = .error e ↔ r.result = .error e) ∧
        (op.Combine ctx g l).ctx = r.ctx := by
    intro r hr
    unfold PhysicalCopyToFile.Combine
    simp only [hp, if_true, hb, hs, HivePartitionedColumnData.FlushAppendState, hr]
    obtain ⟨res, c⟩ := r
    cases res <;> simp
  obtain ⟨hres, hctx⟩ := hcomb _ rfl
  have part2 : ∀ before p after full_path ctx_t, op.overwrite_or_ignore = false →
      pb.partitions = before ++ p :: after →
      (op.Combine_loop l.writer_offset (RTrim op.file_path ctx.fs.PathSeparator) before
        ctx).result = .ok () →
      op.bucket_target l.writer_offset (RTrim op.file_path ctx.fs.PathSeparator) p
        (op.Combine_loop l.writer_offset (RTrim op.file_path ctx.fs.PathSeparator) before
          ctx).ctx = some (full_path, ctx_t) →
      ctx_t.fs.FileExists full_path = true →
      (op.Combine ctx g l).result =
          .error (.IOException ("failed to create " ++ full_path ++
            ", file exists! Enable OVERWRITE_OR_IGNORE option to force writing")) ∧
        ∃ new, (op.Combine ctx g l).ctx.calls =
            (op.Combine_loop l.writer_offset (RTrim op.file_path ctx.fs.PathSeparator) before
              ctx).ctx.calls ++ new ++ [.FileExists full_path] ∧
          ∀ c ∈ new, ∃ d, c = Call.DirectoryExists d ∨ c = Call.CreateDirectory d := by
    intro before p after full_path ctx_t how hps hok htarget hfe
    obtain ⟨hbr, hbc⟩ := (Combine_bucket_conflict op l.writer_offset _ p _).2 full_path ctx_t
      how htarget hfe
    obtain ⟨hl1, hl2⟩ := Combine_loop_stops op l.writer_offset _ _ before p after ctx hok hbr
    rw [← hps] at hl1 hl2
    refine ⟨(hres _).2 hl1, ?_⟩
    obtain ⟨new, hn, an⟩ := bucket_target_calls op _ _ p _ full_path ctx_t htarget
    exact ⟨new, by rw [hctx, hl2, hbc, hn], an⟩
  have part1 : (∃ msg, (op.Combine ctx g l).result = .error (.IOException msg)) ↔
      ((op.overwrite_or_ignore = false ∧ ∃ before p after full_path ctx_t,
        pb.partitions = before ++ p :: after ∧
        (op.Combine_loop l.writer_offset (RTrim op.file_path ctx.fs.PathSeparator) before
          ctx).result = .ok () ∧
        op.bucket_target l.writer_offset (RTrim op.file_path ctx.fs.PathSeparator) p
          (op.Combine_loop l.writer_offset (RTrim op.file_path ctx.fs.PathSeparator) before
            ctx).ctx = some (full_path, ctx_t) ∧
        ctx_t.fs.FileExists full_path = true) ∨
      (∃ before p after d, pb.partitions = before ++ p :: after ∧
        (op.Combine_loop l.writer_offset (RTrim op.file_path ctx.fs.PathSeparator) before
          ctx).result = .ok () ∧
        (CreateDirRecursive op.partition_columns op.names p.values
          (RTrim op.file_path ctx.fs.PathSeparator)
          (op.Combine_loop l.writer_offset (RTrim op.file_path ctx.fs.PathSeparator) before
            ctx).ctx).result = .error (CreateDirectory_exception d) ∧
        ctx.fs.FileExists d = true)) := by
    constructor
    · rintro ⟨msg, hmsg⟩
      obtain ⟨before, p, after, hps, hok, herr⟩ :=
        Combine_loop_error op l.writer_offset _ _ pb.partitions ctx ((hres _).1 hmsg)
      rcases (Combine_bucket_conflict op l.writer_offset _ p _).1.1 ⟨msg, herr⟩ with
        ⟨how, full_path, ctx_t, ht, hfe⟩ | ⟨msg1, hdir⟩
      · exact Or.inl ⟨how, before, p, after, full_path, ctx_t, hps, hok, ht, hfe⟩
      · rcases CreateDirRecursive_error _ _ _ _ _ _ hdir with h1 | ⟨d, hd, hf⟩
        · exact absurd h1 (by simp)
        · refine Or.inr ⟨before, p, after, d, hps, hok, by rw [hdir, hd], ?_⟩
          unfold FileSystem.FileExists at hf ⊢
          rw [(Combine_loop_frame op l.writer_offset _ before ctx).1] at hf
          exact hf
    · rintro (⟨how, before, p, after, full_path, ctx_t, hps, hok, ht, hfe⟩ |
        ⟨before, p, after, d, hps, hok, hdir, _⟩)
      · exact ⟨_, (part2 before p after full_path ctx_t how hps hok ht hfe).1⟩
      · obtain ⟨msg, hbr⟩ := (Combine_bucket_conflict op l.writer_offset _ p _).1.2
          (Or.inr ⟨_, hdir⟩)
        obtain ⟨hl1, _⟩ := Combine_loop_stops op l.writer_offset _ _ before p after ctx hok hbr
        rw [← hps] at hl1
        exact ⟨msg, (hres _).2 hl1⟩
  refine ⟨part1, ?_, part2⟩
  intro hfree
  rw [part1]
  constructor
  · rintro (h | ⟨before, p, after, d, hps, hok, hdir, _⟩)
    · exact h
    · exfalso
      obtain ⟨hfiles, hjoin⟩ := Combine_loop_frame op l.writer_offset
        (RTrim op.file_path ctx.fs.PathSeparator) before ctx
      have hmem : p ∈ pb.partitions := by
        rw [hps]
        simp
      have := CreateDirRecursive_free op.partition_columns op.names p.values
        (RTrim op.file_path ctx.fs.PathSeparator) _ (fun k hk => by
          have h0 := hfree p hmem k hk
          unfold FileSystem.FileExists at h0 ⊢
          rw [hfiles, hive_level_congr _ ctx.fs _ _ _ _ _ hjoin]
          exact h0) _ hdir
      simp [CreateDirectory_exception] at this
  · intro h
    exact Or.inl h

theorem Combine_partitioned_conflict_witness :
    ((sample_op false true false).Combine
      (local_ctx [("out/year=2021/data_3.csv", "old")] ["out"])
      (CopyToFunctionGlobalState.new none) sample_partitioned_local).result =
        .error (.IOException ("failed to create " ++ "out/year=2021/data_3.csv" ++
          ", file exists! Enable OVERWRITE_OR_IGNORE option to force writing")) :=
  ((Combine_partitioned_conflict (sample_op false true false)
    (local_ctx [("out/year=2021/data_3.csv", "old")] ["out"])
    (CopyToFunctionGlobalState.new none) sample_partitioned_local _ ⟨⟩ rfl rfl rfl).2.2
      [⟨[.BIGINT 2020], [⟨[[.BIGINT 2020, .VARCHAR "a"], [.BIGINT 2020, .VARCHAR "c"]]⟩]⟩]
      ⟨[.BIGINT 2021], [⟨[[.BIGINT 2021, .VARCHAR "b"]]⟩]⟩ []
      "out/year=2021/data_3.csv" _ rfl (by decide) (by decide) rfl (by decide)).1

/-- C5, as stated, fails. Hive-partitioned mode with overwrite enabled, a regular file at
`out/year=2020` where the directory of the first bucket has to be: `Combine` throws an
`IOException`, that of the directory creation, although overwrite is enabled; it has made three
calls, all on directories, and none to the encoder. -/
theorem Combine_partitioned_directory_blocked :
    (sample_op false true true).overwrite_or_ignore = true ∧
      ((sample_op false true true).Combine (local_ctx [("out/year=2020", "x")] ["out"])
        (CopyToFunctionGlobalState.new none) sample_partitioned_local).result =
        .error (.IOException
          "Failed to create directory \"out/year=2020\": path exists but is not a directory!") ∧
      ((sample_op false true true).Combine (local_ctx [("out/year=2020", "x")] ["out"])
        (CopyToFunctionGlobalState.new none) sample_partitioned_local).ctx.calls =
        [.DirectoryExists "out", .DirectoryExists "out/year=2020",
          .CreateDirectory "out/year=2020"] := by
  decide

/-! ## Finalize -/

/-- C15: in per-thread mode and in hive-partitioned mode `Finalize` is a no-op: it returns
normally, makes no call on the copy function or on the file system (the call log and the file
system are as before, also when `use_tmp_file` is set), and leaves the global state unchanged. -/
theorem Finalize_noop (op : PhysicalCopyToFile) (ctx : ClientContext)
    (gstate : CopyToFunctionGlobalState)
    (hmode : op.per_thread_output = true ∨ op.partition_output = true) :
    (op.Finalize ctx gstate).result = .ok () ∧
      (op.Finalize ctx gstate).ctx = ctx ∧
      (op.Finalize ctx gstate).ctx.calls = ctx.calls ∧
      (op.Finalize ctx gstate).ctx.fs.files = ctx.fs.files ∧
      (op.Finalize ctx gstate).gstate = gstate := by
  have hm : (op.per_thread_output || op.partition_output) = true := by
    rcases hmode with h | h <;> simp [h]
  simp [PhysicalCopyToFile.Finalize, hm]

theorem Finalize_noop_witness :
    ({ sample_op true false false with use_tmp_file := true }.Finalize
        (local_ctx [("out.tmp", "x")] ["out"]) (CopyToFunctionGlobalState.new none)).ctx.calls =
      [] :=
  (Finalize_noop { sample_op true false false with use_tmp_file := true }
    (local_ctx [("out.tmp", "x")] ["out"]) (CopyToFunctionGlobalState.new none)
    (Or.inl rfl)).2.2.1

/-- Single-file mode with a finalize callback and a global writer: `Finalize` calls the callback
on the global writer and then, when `use_tmp_file` is set, goes on as `MoveTmpFile` does. -/
theorem Finalize_single_file (op : PhysicalCopyToFile) (ctx : ClientContext)
    (gstate : CopyToFunctionGlobalState) (gdata : GlobalFunctionData)
    (hp : op.partition_output = false) (ht : op.per_thread_output = false)
    (hf : op.function.copy_to_finalize = true) (hg : gstate.global_state = some gdata) :
    (op.use_tmp_file = true →
        (op.Finalize ctx gstate).result =
          (MoveTmpFile (ctx.log (.copy_to_finalize gdata)) op.file_path).result ∧
        (op.Finalize ctx gstate).ctx =
          (MoveTmpFile (ctx.log (.copy_to_finalize gdata)) op.file_path).ctx) ∧
      (op.use_tmp_file = false →
        (op.Finalize ctx gstate).result = .ok () ∧
        (op.Finalize ctx gstate).ctx = ctx.log (.copy_to_finalize gdata)) := by
  unfold PhysicalCopyToFile.Finalize
  simp only [hp, ht, hf, hg, Bool.or_self, Bool.false_eq_true, if_false, if_true]
  constructor
  · intro hu
    simp only [hu, if_true]
    cases h : MoveTmpFile (ctx.log (.copy_to_finalize gdata)) op.file_path with
    | mk r c => cases r <;> simp
  · intro hu
    simp [hu]

/-- C11 at a failing input: single-file mode, `use_tmp_file` set, temp file `out.csv.tmp`
written, and a copy function without a finalize callback. `Finalize` returns normally without
any call: the temp file is not renamed, so `out.csv` does not exist and `out.csv.tmp` remains.
With a finalize callback, the same call finalizes the writer and then renames the file. -/
theorem Finalize_without_callback_skips_rename :
    (tmp_file_op function_without_finalize).use_tmp_file = true ∧
      ((tmp_file_op function_without_finalize).GetGlobalSinkState (local_ctx [] [])).result =
        .ok (CopyToFunctionGlobalState.new (some ⟨0, "out.csv.tmp"⟩)) ∧
      ((tmp_file_op function_without_finalize).Finalize (local_ctx [("out.csv.tmp", "rows")] [])
        (CopyToFunctionGlobalState.new (some ⟨0, "out.csv.tmp"⟩))).result = .ok () ∧
      ((tmp_file_op function_without_finalize).Finalize (local_ctx [("out.csv.tmp", "rows")] [])
        (CopyToFunctionGlobalState.new (some ⟨0, "out.csv.tmp"⟩))).ctx.calls = [] ∧
      ((tmp_file_op function_without_finalize).Finalize (local_ctx [("out.csv.tmp", "rows")] [])
        (CopyToFunctionGlobalState.new (some ⟨0, "out.csv.tmp"⟩))).ctx.fs.files =
          [("out.csv.tmp", "rows")] ∧
      ((tmp_file_op csv_function).Finalize (local_ctx [("out.csv.tmp", "rows")] [])
        (CopyToFunctionGlobalState.new (some ⟨0, "out.csv.tmp"⟩))).ctx.calls =
          [.copy_to_finalize ⟨0, "out.csv.tmp"⟩, .FileExists "out.csv",
            .MoveFile "out.csv.tmp" "out.csv"] ∧
      ((tmp_file_op csv_function).Finalize (local_ctx [("out.csv.tmp", "rows")] [])
        (CopyToFunctionGlobalState.new (some ⟨0, "out.csv.tmp"⟩))).ctx.fs.files =
          [("out.csv", "rows")] := by
  decide

/-! ## Combine in per-thread mode -/

/-- C13 at a failing input: per-thread mode with a copy function that provides finalize but no
combine callback; one thread creates its local state, sinks a batch and combines, then the
operator finalizes. Neither `Combine` nor `Finalize` makes any call: the thread's writer for
`out/data_0.csv` is never finalized. With a combine callback the same run combines and then
finalizes that writer. -/
theorem Combine_without_callback_skips_finalize :
    ((per_thread_op function_without_combine).sink_phase
        [.GetLocalSinkState 0, .Sink 0 sample_chunk, .Combine 0]
        ((per_thread_op function_without_combine).sink_phase_start (local_ctx [] []))).thrown =
        none ∧
      ((per_thread_op function_without_combine).sink_phase
        [.GetLocalSinkState 0, .Sink 0 sample_chunk, .Combine 0]
        ((per_thread_op function_without_combine).sink_phase_start (local_ctx [] []))).ctx.calls =
        [.FileExists "out", .DirectoryExists "out", .CreateDirectory "out",
          .copy_to_initialize_local, .FileExists "out/data_0.csv",
          .copy_to_initialize_global "out/data_0.csv",
          .copy_to_sink ⟨5, "out/data_0.csv"⟩ ⟨3⟩ sample_chunk] ∧
      ((per_thread_op function_without_combine).Finalize (local_ctx [] ["out"])
        (CopyToFunctionGlobalState.new none)).ctx.calls = [] ∧
      ((per_thread_op csv_function).sink_phase
        [.GetLocalSinkState 0, .Sink 0 sample_chunk, .Combine 0]
        ((per_thread_op csv_function).sink_phase_start (local_ctx [] []))).ctx.calls =
        [.FileExists "out", .DirectoryExists "out", .CreateDirectory "out",
          .copy_to_initialize_local, .FileExists "out/data_0.csv",
          .copy_to_initialize_global "out/data_0.csv",
          .copy_to_sink ⟨5, "out/data_0.csv"⟩ ⟨3⟩ sample_chunk,
          .copy_to_combine ⟨5, "out/data_0.csv"⟩ ⟨3⟩,
          .copy_to_finalize ⟨5, "out/data_0.csv"⟩] := by
  decide

/-! ## Sink -/

/-- C20: in single-file mode and in per-thread mode a `Sink` call with a batch of `n` rows
leaves a global state that differs from the one before only in `rows_copied`, which has grown
by `n` modulo `2^64` (also when the call fails on a missing writer); `last_file_offset` is
unchanged, and a batch of 0 rows leaves `rows_copied` (an `idx_t`) unchanged. -/
theorem Sink_rows_copied (op : PhysicalCopyToFile) (ctx : ClientContext)
    (g : CopyToFunctionGlobalState) (l : CopyToFunctionLocalState) (input : DataChunk)
    (hp : op.partition_output = false) :
    (op.Sink ctx g l input).gstate =
        { g with rows_copied := (g.rows_copied + input.size) % idx_t_size } ∧
      (op.Sink ctx g l input).gstate.rows_copied = (g.rows_copied + input.size) % idx_t_size ∧
      (op.Sink ctx g l input).gstate.last_file_offset = g.last_file_offset ∧
      (op.Sink ctx g l input).gstate.global_state = g.global_state ∧
      (op.Sink ctx g l input).gstate.partition_state = g.partition_state ∧
      (input.size = 0 → g.rows_copied < idx_t_size →
        (op.Sink ctx g l input).gstate.rows_copied = g.rows_copied) := by
  have h : (op.Sink ctx g l input).gstate =
      { g with rows_copied := (g.rows_copied + input.size) % idx_t_size } := by
    unfold PhysicalCopyToFile.Sink
    simp only [hp, Bool.false_eq_true, if_false]
    split <;> rfl
  refine ⟨h, by rw [h], by rw [h], by rw [h], by rw [h], ?_⟩
  intro h0 hlt
  rw [h, h0, Nat.add_zero]
  exact Nat.mod_eq_of_lt hlt

theorem Sink_rows_copied_witness :
    ((sample_op true false false).Sink (local_ctx [] ["out"])
        { CopyToFunctionGlobalState.new none with rows_copied := 5, last_file_offset := 1 }
        { CopyToFunctionLocalState.new (some ⟨0⟩) with global_state := some ⟨2, "out/data_0.csv"⟩ }
        sample_chunk).gstate =
      { CopyToFunctionGlobalState.new none with rows_copied := 8, last_file_offset := 1 } :=
  (Sink_rows_copied (sample_op true false false) (local_ctx [] ["out"])
    { CopyToFunctionGlobalState.new none with rows_copied := 5, last_file_offset := 1 }
    { CopyToFunctionLocalState.new (some ⟨0⟩) with global_state := some ⟨2, "out/data_0.csv"⟩ }
    sample_chunk rfl).1

theorem lookup_set_lstate_other (lstates : List (Nat × CopyToFunctionLocalState))
    (thread other : Nat) (l : CopyToFunctionLocalState) (h : other ≠ thread) :
    (set_lstate thread l lstates).lookup other = lstates.lookup other := by
  have hbeq : (other == thread) = false := by simpa using h
  unfold set_lstate
  rw [List.lookup_cons, hbeq]
  simp only
  induction lstates with
  | nil => rfl
  | cons e rest ih =>
    obtain ⟨a, b⟩ := e
    by_cases hoa : other = a
    · subst hoa
      rw [List.filter_cons_of_pos (by simpa using h)]
      simp only [List.lookup_cons, beq_self_eq_true]
    · have hoa2 : (other == a) = false := by simpa using hoa
      by_cases hat : a = thread
      · rw [List.filter_cons_of_neg (by simp [hat])]
        simp only [List.lookup_cons, hoa2, ih]
      · rw [List.filter_cons_of_pos (by simpa using hat)]
        simp only [List.lookup_cons, hoa2, ih]

/-- C19: in hive-partitioned mode `Sink` (on a local state that has its partition buffer) makes
no call on the file system or on the copy function and leaves the context and the global state
as they were; the local state it leaves differs from the one before only in that the batch has
been appended to the partition buffer. In the sink phase such a call leaves the local state of
every other thread unchanged. -/
theorem Sink_partitioned (op : PhysicalCopyToFile) (ctx : ClientContext)
    (g : CopyToFunctionGlobalState) (l : CopyToFunctionLocalState) (input : DataChunk)
    (pb : HivePartitionedColumnData) (st : PartitionedColumnDataAppendState)
    (hp : op.partition_output = true) (hb : l.part_buffer = some pb)
    (hs : l.part_buffer_append_state = some st) :
    (op.Sink ctx g l input).result = .ok { l with part_buffer := some (pb.Append input) } ∧
      (op.Sink ctx g l input).ctx = ctx ∧
      (op.Sink ctx g l input).ctx.calls = ctx.calls ∧
      (op.Sink ctx g l input).gstate = g ∧
      (∀ (s : SinkPhase) (thread other : Nat), s.lstate thread = some l → s.ctx = ctx →
        s.gstate = g → other ≠ thread →
        (op.sink_step s (.Sink thread input)).lstate other = s.lstate other ∧
        (op.sink_step s (.Sink thread input)).ctx.calls = s.ctx.calls ∧
        (op.sink_step s (.Sink thread input)).gstate = s.gstate) := by
  have hsink : op.Sink ctx g l input =
      ⟨.ok { l with part_buffer := some (pb.Append input) }, ctx, g⟩ := by
    simp [PhysicalCopyToFile.Sink, hp, hb, hs]
  refine ⟨by rw [hsink], by rw [hsink], by rw [hsink], by rw [hsink], ?_⟩
  intro s thread other hl hc hg hne
  unfold PhysicalCopyToFile.sink_step
  cases ht : s.thrown with
  | some e => simp
  | none =>
    simp only [hl, hc, hg, hsink]
    exact ⟨lookup_set_lstate_other _ _ _ _ hne, trivial, trivial⟩

theorem Sink_partitioned_witness :
    ((sample_op false true false).Sink (local_ctx [] ["out"])
        (CopyToFunctionGlobalState.new none) sample_partitioned_local sample_chunk).ctx.calls =
      [] :=
  (Sink_partitioned (sample_op false true false) (local_ctx [] ["out"])
    (CopyToFunctionGlobalState.new none) sample_partitioned_local sample_chunk _ ⟨⟩
    rfl rfl rfl).2.2.1

/-! ## Source -/

theorem GetData_finished (op : PhysicalCopyToFile) (ctx : ClientContext)
    (g : CopyToFunctionGlobalState) (chunk : DataChunk) :
    op.GetData ctx g chunk ⟨true⟩ = ⟨.ok (chunk, ⟨true⟩), ctx, g⟩ := by
  simp [PhysicalCopyToFile.GetData]

theorem set_first_cell (r : List Value) (v : Value) :
    ((List.range (max r.length 1)).map
      (fun j => if j = 0 then v else r.getD j Value.NULL)).get? 0 = some v := by
  obtain ⟨m, hm⟩ : ∃ m, max r.length 1 = m + 1 := ⟨max r.length 1 - 1, by omega⟩
  rw [hm, List.range_succ_eq_map]
  simp

theorem SetValue_first_cell (c : DataChunk) (v : Value) :
    ((c.SetCardinality 1).SetValue 0 0 v).size = 1 ∧
      ((c.SetCardinality 1).SetValue 0 0 v).GetValue 0 0 = some v := by
  have hr : List.range 1 = [0] := rfl
  constructor
  · simp [DataChunk.SetCardinality, DataChunk.SetValue, DataChunk.size, hr]
  · simp only [DataChunk.SetCardinality, DataChunk.SetValue, DataChunk.GetValue, hr,
      List.map_cons, List.map_nil, Nat.zero_add]
    exact set_first_cell (c.rows.getD 0 []) v

theorem GetData_fresh (op : PhysicalCopyToFile) (ctx : ClientContext)
    (g : CopyToFunctionGlobalState) (chunk : DataChunk) :
    op.GetData ctx g chunk ⟨false⟩ =
      ⟨.ok ((chunk.SetCardinality 1).SetValue 0 0 (Value.of_idx_t g.rows_copied), ⟨true⟩),
        ctx, g⟩ := by
  simp [PhysicalCopyToFile.GetData]

theorem GetData_all_finished (op : PhysicalCopyToFile) (ctx : ClientContext)
    (g : CopyToFunctionGlobalState) (k : Nat) :
    op.GetData_all k ctx g ⟨true⟩ = (List.replicate k ⟨[]⟩, ⟨true⟩) := by
  induction k with
  | zero => rfl
  | succ k ih =>
    simp only [PhysicalCopyToFile.GetData_all, GetData_finished, ih, List.replicate_succ]

/-- C16: the first `GetData` call on a fresh source state leaves a chunk of cardinality 1 whose
cell at column 0, row 0 is `BIGINT(rows_copied)` and sets the finished flag; a call on a
finished state changes neither the chunk nor the source state; no call changes the context or
the global state. Over `k >= 1` calls, each on an initially empty chunk, one row is emitted in
total, by the first call, and it carries `rows_copied`. -/
theorem GetData_emits_once (op : PhysicalCopyToFile) (ctx : ClientContext)
    (g : CopyToFunctionGlobalState) (chunk : DataChunk) :
    (∃ out, (op.GetData ctx g chunk op.GetGlobalSourceState).result = .ok (out, ⟨true⟩) ∧
        out.size = 1 ∧ out.GetValue 0 0 = some (Value.of_idx_t g.rows_copied)) ∧
      (op.GetData ctx g chunk op.GetGlobalSourceState).ctx = ctx ∧
      (op.GetData ctx g chunk op.GetGlobalSourceState).gstate = g ∧
      op.GetData ctx g chunk ⟨true⟩ = ⟨.ok (chunk, ⟨true⟩), ctx, g⟩ ∧
      (g.rows_copied < 2 ^ 63 → Value.of_idx_t g.rows_copied = .BIGINT g.rows_copied) ∧
      (∀ k, 1 ≤ k →
        ((op.GetData_all k ctx g op.GetGlobalSourceState).1.map DataChunk.size).sum = 1 ∧
        (∃ out, (op.GetData_all k ctx g op.GetGlobalSourceState).1 =
            out :: List.replicate (k - 1) ⟨[]⟩ ∧ out.size = 1 ∧
            out.GetValue 0 0 = some (Value.of_idx_t g.rows_copied)) ∧
        (op.GetData_all k ctx g op.GetGlobalSourceState).2 = ⟨true⟩) := by
  have hfresh : op.GetGlobalSourceState = ⟨false⟩ := rfl
  rw [hfresh]
  refine ⟨?_, by rw [GetData_fresh], by rw [GetData_fresh], GetData_finished op ctx g chunk,
    ?_, ?_⟩
  · rw [GetData_fresh]
    exact ⟨_, rfl, (SetValue_first_cell chunk _).1, (SetValue_first_cell chunk _).2⟩
  · intro hlt
    have h1 : g.rows_copied < idx_t_size := by
      rw [idx_t_size_eq]
      omega
    simp only [Value.of_idx_t, Nat.mod_eq_of_lt h1, hlt, if_true, Int.ofNat_eq_coe]
  · intro k hk
    obtain ⟨k, rfl⟩ : ∃ j, k = j + 1 := ⟨k - 1, by omega⟩
    simp only [PhysicalCopyToFile.GetData_all, GetData_fresh, GetData_all_finished,
      List.map_cons, List.sum_cons, Nat.add_sub_cancel]
    refine ⟨?_, ⟨_, rfl, (SetValue_first_cell _ _).1, (SetValue_first_cell _ _).2⟩, trivial⟩
    rw [(SetValue_first_cell _ _).1]
    have : (List.map DataChunk.size (List.replicate k (⟨[]⟩ : DataChunk))).sum = 0 := by
      simp [DataChunk.size]
    rw [this]

theorem GetData_emits_once_witness :
    (((sample_op false false false).GetData_all 3 (local_ctx [] [])
        { CopyToFunctionGlobalState.new none with rows_copied := 7 }
        (sample_op false false false).GetGlobalSourceState).1.map DataChunk.size).sum = 1 :=
  ((GetData_emits_once (sample_op false false false) (local_ctx [] [])
    { CopyToFunctionGlobalState.new none with rows_copied := 7 } ⟨[]⟩).2.2.2.2.2 3
      (by decide)).1

/-! ## The `writer_offset` field -/

/-- C17, as the code has it: a `GetLocalSinkState` call in hive-partitioned mode returns a local
state whose `writer_offset` is the sequence number the call claimed (the value of
`last_file_offset` just before it). In per-thread mode the claimed number names the file of the
writer the returned state holds, but it is not stored: `writer_offset` keeps its initial value
0. -/
theorem GetLocalSinkState_writer_offset (op : PhysicalCopyToFile) (ctx : ClientContext)
    (g : CopyToFunctionGlobalState) :
    (op.partition_output = true →
        ∃ l, (op.GetLocalSinkState ctx g).result = .ok l ∧
          l.writer_offset = g.last_file_offset) ∧
      (op.partition_output = false → op.per_thread_output = true →
        ∀ l, (op.GetLocalSinkState ctx g).result = .ok l →
          l.writer_offset = 0 ∧
          ∃ id path, l.global_state = some ⟨id, path⟩ ∧
            op.CreateFilename ctx.fs op.file_path op.function.extension g.last_file_offset
              ctx.next_uuid = .ok path) := by
  constructor
  · intro hp
    simp [PhysicalCopyToFile.GetLocalSinkState, hp, CopyToFunctionLocalState.new]
  · intro hp ht
    unfold PhysicalCopyToFile.GetLocalSinkState
    simp only [hp, ht, if_true, ClientContext.FileExists, ClientContext.log,
      ClientContext.next_uuid, ClientContext.drawn]
    cases hname : op.CreateFilename ctx.fs op.file_path op.function.extension
        g.last_file_offset (ctx.uuids ctx.uuid_count) with
    | error e => cases hu : op.use_uuid_format <;> simp
    | ok path =>
      cases hfe : ctx.fs.FileExists path <;> cases how : op.overwrite_or_ignore <;>
        cases hu : op.use_uuid_format <;>
        simp [hfe, CopyToFunctionLocalState.new]

theorem GetLocalSinkState_writer_offset_witness :
    ∃ l, ((sample_op false true false).GetLocalSinkState (local_ctx [] ["out"])
        { CopyToFunctionGlobalState.new none with last_file_offset := 4 }).result = .ok l ∧
      l.writer_offset = 4 :=
  (GetLocalSinkState_writer_offset (sample_op false true false) (local_ctx [] ["out"])
    { CopyToFunctionGlobalState.new none with last_file_offset := 4 }).1 rfl

/-- C17, as stated, fails in per-thread mode: the second `GetLocalSinkState` call on a fresh
global state claims sequence number 1 and names its file `out/data_1.csv`, but the local state
it returns has `writer_offset` 0. -/
theorem GetLocalSinkState_per_thread_writer_offset_zero :
    ((per_thread_op csv_function).local_states 2 (local_ctx [] ["out"])
        (CopyToFunctionGlobalState.new none)).1 =
      [(0, .ok { CopyToFunctionLocalState.new (some ⟨0⟩) with
                 global_state := some ⟨2, "out/data_0.csv"⟩, writer_offset := 0 }),
       (1, .ok { CopyToFunctionLocalState.new (some ⟨3⟩) with
                 global_state := some ⟨5, "out/data_1.csv"⟩, writer_offset := 0 })] := by
  decide

/-! ## The sink phase in single-file mode -/

theorem GetLocalSinkState_single_file (op : PhysicalCopyToFile) (ctx : ClientContext)
    (g : CopyToFunctionGlobalState)
    (hp : op.partition_output = false) (ht : op.per_thread_output = false) :
    op.GetLocalSinkState ctx g =
      ⟨.ok (CopyToFunctionLocalState.new (some ⟨ctx.calls.length⟩)),
        ctx.log .copy_to_initialize_local, g⟩ := by
  simp [PhysicalCopyToFile.GetLocalSinkState, hp, ht]

theorem Sink_single_file (op : PhysicalCopyToFile) (ctx : ClientContext)
    (g : CopyToFunctionGlobalState) (l : CopyToFunctionLocalState) (input : DataChunk)
    (gdata : GlobalFunctionData) (ldata : LocalFunctionData)
    (hp : op.partition_output = false) (ht : op.per_thread_output = false)
    (hg : g.global_state = some gdata) (hl : l.local_state = some ldata) :
    op.Sink ctx g l input =
      ⟨.ok l, ctx.log (.copy_to_sink gdata ldata input),
        { g with rows_copied := (g.rows_copied + input.size) % idx_t_size }⟩ := by
  simp [PhysicalCopyToFile.Sink, hp, ht, hg, hl]

theorem Combine_single_file (op : PhysicalCopyToFile) (ctx : ClientContext)
    (g : CopyToFunctionGlobalState) (l : CopyToFunctionLocalState)
    (gdata : GlobalFunctionData) (ldata : LocalFunctionData)
    (hp : op.partition_output = false) (ht : op.per_thread_output = false)
    (hg : g.global_state = some gdata) (hl : l.local_state = some ldata) :
    op.Combine ctx g l =
      ⟨.ok l, if op.function.copy_to_combine then ctx.log (.copy_to_combine gdata ldata)
        else ctx, g⟩ := by
  cases hc : op.function.copy_to_combine <;>
    simp [PhysicalCopyToFile.Combine, hp, ht, hg, hl, hc]

theorem mem_set_lstate (thread : Nat) (l : CopyToFunctionLocalState)
    (lstates : List (Nat × CopyToFunctionLocalState)) (e : Nat × CopyToFunctionLocalState)
    (h : e ∈ set_lstate thread l lstates) : e = (thread, l) ∨ e ∈ lstates := by
  unfold set_lstate at h
  rcases List.mem_cons.mp h with h1 | h1
  · exact Or.inl h1
  · exact Or.inr (List.mem_filter.mp h1).1

theorem mem_of_lookup (lstates : List (Nat × CopyToFunctionLocalState)) (thread : Nat)
    (l : CopyToFunctionLocalState) (h : lstates.lookup thread = some l) :
    (thread, l) ∈ lstates := by
  induction lstates with
  | nil => simp at h
  | cons e rest ih =>
    obtain ⟨a, b⟩ := e
    by_cases hta : thread = a
    · subst hta
      simp only [List.lookup_cons, beq_self_eq_true, Option.some.injEq] at h
      subst h
      exact List.mem_cons_self _ _
    · have hta2 : (thread == a) = false := by simpa using hta
      simp only [List.lookup_cons, hta2] at h
      exact List.mem_cons_of_mem _ (ih h)

theorem sink_phase_start_single_file (op : PhysicalCopyToFile) (ctx : ClientContext)
    (hp : op.partition_output = false) (ht : op.per_thread_output = false) :
    op.single_file_invariant ctx.fs ctx.calls (op.sink_phase_start ctx) := by
  unfold PhysicalCopyToFile.sink_phase_start PhysicalCopyToFile.GetGlobalSinkState
  simp only [hp, ht, Bool.or_self, Bool.false_eq_true, if_false]
  refine ⟨rfl, rfl, ⟨_, rfl⟩, by simp, [.copy_to_initialize_global op.file_path], rfl, ?_⟩
  intro c hc
  simp only [List.mem_singleton] at hc
  subst hc
  simp [Call.is_file_system_call, Call.writer_path]

theorem sink_step_single_file (op : PhysicalCopyToFile) (fs : FileSystem) (base : List Call)
    (hp : op.partition_output = false) (ht : op.per_thread_output = false)
    (s : SinkPhase) (c : SinkCall) (h : op.single_file_invariant fs base s) :
    op.single_file_invariant fs base (op.sink_step s c) := by
  obtain ⟨hfs, hthrown, ⟨id, hg⟩, hls, new, hcalls, hnew⟩ := h
  have extend : ∀ (added : Call), added.is_file_system_call = false →
      (∀ p, added.writer_path = some p → p = op.file_path) →
      ∃ new1, (s.ctx.log added).calls = base ++ new1 ∧
        ∀ c ∈ new1, c.is_file_system_call = false ∧
          ∀ p, c.writer_path = some p → p = op.file_path := by
    intro added h1 h2
    refine ⟨new ++ [added], by simp [ClientContext.log, hcalls], ?_⟩
    intro c hc
    rcases List.mem_append.mp hc with h | h
    · exact hnew c h
    · simp only [List.mem_singleton] at h
      subst h
      exact ⟨h1, h2⟩
  unfold PhysicalCopyToFile.sink_step
  simp only [hthrown]
  cases c with
  | GetLocalSinkState thread =>
    simp only [GetLocalSinkState_single_file op s.ctx s.gstate hp ht]
    refine ⟨hfs, rfl, ⟨id, hg⟩, ?_, extend _ rfl (by simp [Call.writer_path])⟩
    intro e he
    rcases mem_set_lstate _ _ _ _ he with h | h
    · subst h
      simp [CopyToFunctionLocalState.new]
    · exact hls e h
  | Sink thread input =>
    cases hl : s.lstate thread with
    | none =>
      simp only [hl]
      exact ⟨hfs, hthrown, ⟨id, hg⟩, hls, new, hcalls, hnew⟩
    | some l =>
      have hmem : (thread, l) ∈ s.lstates := mem_of_lookup _ _ _ hl
      obtain ⟨ldata, hld⟩ := Option.ne_none_iff_exists'.mp (hls _ hmem)
      simp only [hl, Sink_single_file op s.ctx s.gstate l input _ ldata hp ht hg hld]
      refine ⟨hfs, rfl, ⟨id, hg⟩, ?_,
        extend _ rfl (by simp [Call.writer_path])⟩
      intro e he
      rcases mem_set_lstate _ _ _ _ he with h | h
      · subst h
        exact hls _ hmem
      · exact hls e h
  | Combine thread =>
    cases hl : s.lstate thread with
    | none =>
      simp only [hl]
      exact ⟨hfs, hthrown, ⟨id, hg⟩, hls, new, hcalls, hnew⟩
    | some l =>
      have hmem : (thread, l) ∈ s.lstates := mem_of_lookup _ _ _ hl
      obtain ⟨ldata, hld⟩ := Option.ne_none_iff_exists'.mp (hls _ hmem)
      simp only [hl, Combine_single_file op s.ctx s.gstate l _ ldata hp ht hg hld]
      have hls1 : ∀ e ∈ set_lstate thread l s.lstates, e.2.local_state ≠ none := by
        intro e he
        rcases mem_set_lstate _ _ _ _ he with h | h
        · subst h
          exact hls _ hmem
        · exact hls e h
      cases hc : op.function.copy_to_combine with
      | true =>
        exact ⟨hfs, rfl, ⟨id, hg⟩, hls1, extend _ rfl (by simp [Call.writer_path])⟩
      | false =>
        exact ⟨hfs, rfl, ⟨id, hg⟩, hls1, new, hcalls, hnew⟩

theorem sink_phase_single_file_invariant (op : PhysicalCopyToFile) (fs : FileSystem)
    (base : List Call) (hp : op.partition_output = false) (ht : op.per_thread_output = false)
    (calls : List SinkCall) :
    ∀ s : SinkPhase, op.single_file_invariant fs base s →
      op.single_file_invariant fs base (op.sink_phase calls s) := by
  induction calls with
  | nil => intro s h; exact h
  | cons c rest ih =>
    intro s h
    exact ih _ (sink_step_single_file op fs base hp ht s c h)

theorem MoveTmpFile_calls (ctx : ClientContext) (t : String) :
    ∃ mid, (MoveTmpFile ctx t).ctx.calls =
        ctx.calls ++ [.FileExists (substr0 t ((t.length + idx_t_size - 4) % idx_t_size))] ++
          mid ++ [.MoveFile t (substr0 t ((t.length + idx_t_size - 4) % idx_t_size))] ∧
      (mid = [] ∨ mid = [.RemoveFile (substr0 t ((t.length + idx_t_size - 4) % idx_t_size))]) := by
  unfold MoveTmpFile
  simp only [ClientContext.FileExists]
  by_cases hex : ctx.fs.FileExists (substr0 t ((t.length + idx_t_size - 4) % idx_t_size)) = true
  · refine ⟨[.RemoveFile (substr0 t ((t.length + idx_t_size - 4) % idx_t_size))], ?_, Or.inr rfl⟩
    simp only [hex, if_true, ClientContext.RemoveFile, ClientContext.log]
    split <;> simp
  · refine ⟨[], ?_, Or.inl rfl⟩
    simp only [hex, ClientContext.log]
    split <;> simp

/-- C12: in single-file mode, whatever calls the scheduler makes after `GetGlobalSinkState`
(`GetLocalSinkState`, `Sink`, `Combine`, for any threads, in any order), the pipeline is not
aborted, the file system stays as it was, and every call logged is a callback of the copy
function that concerns no writer other than one made for `file_path`. So when `file_path` has
its 4-character temp suffix, no step before `Finalize` creates a writer for, or makes a
file-system call on, the final path; with `use_tmp_file` set, `Finalize` then finalizes the
writer and makes the file-system calls of `MoveTmpFile`, whose target is the final path. -/
theorem sink_phase_single_file (op : PhysicalCopyToFile) (ctx : ClientContext)
    (calls : List SinkCall)
    (hp : op.partition_output = false) (ht : op.per_thread_output = false) :
    op.single_file_invariant ctx.fs ctx.calls (op.sink_phase calls (op.sink_phase_start ctx)) ∧
      (4 ≤ op.file_path.length → op.file_path.length < idx_t_size →
        ∃ new, (op.sink_phase calls (op.sink_phase_start ctx)).ctx.calls = ctx.calls ++ new ∧
          ∀ c ∈ new, c.is_file_system_call = false ∧
            c.writer_path ≠ some (substr0 op.file_path (op.file_path.length - 4))) ∧
      (op.use_tmp_file = true → op.function.copy_to_finalize = true →
        4 ≤ op.file_path.length → op.file_path.length < idx_t_size →
        ∃ id mid,
          (op.Finalize (op.sink_phase calls (op.sink_phase_start ctx)).ctx
              (op.sink_phase calls (op.sink_phase_start ctx)).gstate).ctx.calls =
            (op.sink_phase calls (op.sink_phase_start ctx)).ctx.calls ++
              [.copy_to_finalize ⟨id, op.file_path⟩,
                .FileExists (substr0 op.file_path (op.file_path.length - 4))] ++ mid ++
              [.MoveFile op.file_path (substr0 op.file_path (op.file_path.length - 4))] ∧
          (mid = [] ∨ mid = [.RemoveFile (substr0 op.file_path (op.file_path.length - 4))])) := by
  have hinv := sink_phase_single_file_invariant op ctx.fs ctx.calls hp ht calls _
    (sink_phase_start_single_file op ctx hp ht)
  refine ⟨hinv, ?_, ?_⟩
  · intro hlen hsize
    obtain ⟨_, _, _, _, new, hcalls, hnew⟩ := hinv
    refine ⟨new, hcalls, ?_⟩
    intro c hc
    refine ⟨(hnew c hc).1, ?_⟩
    intro hw
    have h1 := congrArg String.length ((hnew c hc).2 _ hw)
    rw [substr0_length] at h1
    omega
  · intro hu hf hlen hsize
    obtain ⟨_, _, ⟨id, hg⟩, _, _⟩ := hinv
    obtain ⟨mid, hmid, hcases⟩ := MoveTmpFile_calls
      ((op.sink_phase calls (op.sink_phase_start ctx)).ctx.log
        (.copy_to_finalize ⟨id, op.file_path⟩)) op.file_path
    rw [idx_sub_four _ hlen hsize] at hmid hcases
    refine ⟨id, mid, ?_, hcases⟩
    rw [((Finalize_single_file op _ _ _ hp ht hf hg).1 hu).2, hmid]
    simp [ClientContext.log]

theorem sink_phase_single_file_witness :
    ∃ new, ((tmp_file_op csv_function).sink_phase
        [.GetLocalSinkState 0, .GetLocalSinkState 1, .Sink 1 sample_chunk, .Sink 0 sample_chunk,
          .Combine 0, .Combine 1]
        ((tmp_file_op csv_function).sink_phase_start
          (local_ctx [("out.csv", "old")] []))).ctx.calls = [] ++ new ∧
      ∀ c ∈ new, c.is_file_system_call = false ∧
        c.writer_path ≠ some (substr0 "out.csv.tmp" ("out.csv.tmp".length - 4)) :=
  (sink_phase_single_file (tmp_file_op csv_function) (local_ctx [("out.csv", "old")] [])
    [.GetLocalSinkState 0, .GetLocalSinkState 1, .Sink 1 sample_chunk, .Sink 0 sample_chunk,
      .Combine 0, .Combine 1] rfl rfl).2.1 (by decide) (by decide)

/-! ## Combine in hive-partitioned mode: the calls of a run without conflict -/

theorem hive_file_congr (op : PhysicalCopyToFile) (fs1 fs2 : FileSystem)
    (trimmed_path : String) (values : List Value) (writer_offset : Nat) (uuid : String)
    (h : fs1.JoinPath = fs2.JoinPath) :
    op.hive_file fs1 trimmed_path values writer_offset uuid =
      op.hive_file fs2 trimmed_path values writer_offset uuid := by
  unfold PhysicalCopyToFile.hive_file PhysicalCopyToFile.CreateFilename
  rw [h]

/-- With a well-formed configuration and no regular file on the root or a directory level of
the bucket, the bucket has a target: the file the specification names, in a context that
differs from the one before by directory calls only. -/
theorem bucket_target_ok (op : PhysicalCopyToFile) (writer_offset : Nat)
    (trimmed_path : String) (p : Partition) (ctx : ClientContext)
    (hpos : op.format_position ≤ op.fileformat.length)
    (hcols : ∀ c ∈ op.partition_columns, c < op.names.length)
    (hvals : op.partition_columns.length ≤ p.values.length)
    (hfree : ∀ k, k ≤ op.partition_columns.length →
      ctx.fs.FileExists (hive_level ctx.fs op.partition_columns op.names p.values
        trimmed_path k) = false) :
    ∃ path ctx_t, op.bucket_target writer_offset trimmed_path p ctx = some (path, ctx_t) ∧
      (∃ uuid, op.hive_file ctx.fs trimmed_path p.values writer_offset uuid = .ok path) ∧
      ctx_t.fs.files = ctx.fs.files ∧ ctx_t.fs.JoinPath = ctx.fs.JoinPath ∧
      ∃ dir_calls, ctx_t.calls = ctx.calls ++ dir_calls ∧
        ∀ c ∈ dir_calls, c.is_file_system_call = true := by
  have hres := CreateDirRecursive_ok op.partition_columns op.names p.values trimmed_path ctx
    hcols hvals hfree
  obtain ⟨hfiles, hjoin⟩ := CreateDirRecursive_frame op.partition_columns op.names p.values
    trimmed_path ctx
  have hname : ∀ (fs : FileSystem) (path uuid : String),
      op.CreateFilename fs path op.function.extension writer_offset uuid =
        .ok (fs.JoinPath path (string_insert op.fileformat op.format_position
          (if op.use_uuid_format then uuid else to_string writer_offset) ++ "." ++
            op.function.extension)) := by
    intro fs path uuid
    simp [PhysicalCopyToFile.CreateFilename, hpos]
  cases hd : CreateDirRecursive op.partition_columns op.names p.values trimmed_path ctx with
  | mk r ctx1 =>
    rw [hd] at hres hfiles hjoin
    simp only at hres hfiles hjoin
    subst hres
    have htarget : op.bucket_target writer_offset trimmed_path p ctx =
        some (ctx1.fs.JoinPath ((List.range op.partition_columns.length).foldl
          (fun path i => ctx.fs.JoinPath path
            (hive_segment op.partition_columns op.names p.values i)) trimmed_path)
          (string_insert op.fileformat op.format_position
            (if op.use_uuid_format then ctx1.next_uuid else to_string writer_offset) ++ "." ++
              op.function.extension), ctx1.drawn op.use_uuid_format) := by
      unfold PhysicalCopyToFile.bucket_target
      rw [hd]
      simp only [hname]
    obtain ⟨new, hn, an⟩ := bucket_target_calls op writer_offset trimmed_path p ctx _ _ htarget
    refine ⟨_, _, htarget, ⟨ctx1.next_uuid, ?_⟩, ?_, ?_, new, hn, ?_⟩
    · unfold PhysicalCopyToFile.hive_file
      rw [hname, hjoin]
    · rw [(drawn_frame ctx1 _).1]
      exact hfiles
    · rw [(drawn_frame ctx1 _).1]
      exact hjoin
    · intro c hc
      obtain ⟨d, hd1 | hd1⟩ := an c hc <;> subst hd1 <;> rfl

/-- One bucket without conflict, both callbacks set: the iteration returns normally, and after
the existence check its calls are exactly the bucket's callbacks, through the two writers it
creates. -/
theorem Combine_bucket_ok (op : PhysicalCopyToFile) (writer_offset : Nat)
    (trimmed_path : String) (p : Partition) (ctx : ClientContext) (path : String)
    (ctx_t : ClientContext)
    (hc : op.function.copy_to_combine = true) (hf : op.function.copy_to_finalize = true)
    (htarget : op.bucket_target writer_offset trimmed_path p ctx = some (path, ctx_t))
    (hno : ctx_t.fs.FileExists path = false ∨ op.overwrite_or_ignore = true) :
    (op.Combine_bucket writer_offset trimmed_path p ctx).result = .ok () ∧
      (op.Combine_bucket writer_offset trimmed_path p ctx).ctx.calls =
        ctx_t.calls ++ [.FileExists path] ++
          bucket_copy_calls ⟨ctx_t.calls.length + 1, path⟩ ⟨ctx_t.calls.length + 2⟩ p ∧
      (op.Combine_bucket writer_offset trimmed_path p ctx).ctx.fs = ctx_t.fs := by
  have hcheck : (ctx_t.fs.FileExists path && !op.overwrite_or_ignore) = false := by
    rcases hno with h | h <;> simp [h]
  unfold PhysicalCopyToFile.bucket_target at htarget
  unfold PhysicalCopyToFile.Combine_bucket
  cases hd : CreateDirRecursive op.partition_columns op.names p.values trimmed_path ctx with
  | mk r ctx1 =>
    rw [hd] at htarget
    cases r with
    | error e => simp at htarget
    | ok hive_path =>
      simp only at htarget ⊢
      cases hn : op.CreateFilename ctx1.fs hive_path op.function.extension writer_offset
          ctx1.next_uuid with
      | error e => rw [hn] at htarget; simp at htarget
      | ok full_path =>
        rw [hn] at htarget
        simp only [Option.some.injEq, Prod.mk.injEq] at htarget
        obtain ⟨h1, h2⟩ := htarget
        subst h1 h2
        simp only [ClientContext.FileExists, hcheck, Bool.false_eq_true, if_false, hc, hf,
          Bool.not_true, foldl_log]
        simp [ClientContext.log, bucket_copy_calls]

theorem bucket_copy_calls_filter (gdata : GlobalFunctionData) (ldata : LocalFunctionData)
    (p : Partition) :
    (bucket_copy_calls gdata ldata p).filter (fun c => !c.is_file_system_call) =
      bucket_copy_calls gdata ldata p := by
  apply List.filter_eq_self.mpr
  intro c hc
  simp only [bucket_copy_calls, List.mem_append, List.mem_cons, List.mem_singleton,
    List.mem_map, List.not_mem_nil, or_false] at hc
  rcases hc with ((h | h) | ⟨chunk, _, h⟩) | (h | h) <;> subst h <;> rfl

theorem dir_calls_filter (dir_calls : List Call)
    (h : ∀ c ∈ dir_calls, c.is_file_system_call = true) :
    dir_calls.filter (fun c => !c.is_file_system_call) = [] := by
  apply List.filter_eq_nil_iff.mpr
  intro c hc
  simp [h c hc]

/-- The loop over the buckets when no conflict occurs (no regular file on a directory level, and
overwrite enabled or no target file), with a well-formed configuration and both callbacks set:
it gets through every bucket, and the callbacks it makes are, bucket after
bucket, those of `bucket_copy_calls` through a pair of writers created for the bucket's own
file. -/
theorem Combine_loop_ok (op : PhysicalCopyToFile) (writer_offset : Nat)
    (trimmed_path : String) (fs0 : FileSystem)
    (hc : op.function.copy_to_combine = true) (hf : op.function.copy_to_finalize = true)
    (hpos : op.format_position ≤ op.fileformat.length)
    (hcols : ∀ c ∈ op.partition_columns, c < op.names.length)
    (ps : List Partition) :
    (∀ p ∈ ps, op.partition_columns.length ≤ p.values.length) →
    (∀ p ∈ ps, ∀ k, k ≤ op.partition_columns.length →
      fs0.FileExists (hive_level fs0 op.partition_columns op.names p.values trimmed_path k) =
        false) →
    (op.overwrite_or_ignore = true ∨ ∀ p ∈ ps, ∀ uuid path,
      op.hive_file fs0 trimmed_path p.values writer_offset uuid = .ok path →
        fs0.FileExists path = false) →
    ∀ ctx : ClientContext, ctx.fs.files = fs0.files → ctx.fs.JoinPath = fs0.JoinPath →
      (op.Combine_loop writer_offset trimmed_path ps ctx).result = .ok () ∧
      ∃ new ws, (op.Combine_loop writer_offset trimmed_path ps ctx).ctx.calls =
          ctx.calls ++ new ∧
        List.Forall₂ (fun (p : Partition) (w : GlobalFunctionData × LocalFunctionData) =>
          ∃ uuid, op.hive_file fs0 trimmed_path p.values writer_offset uuid =
            .ok w.1.file_path) ps ws ∧
        new.filter (fun c => !c.is_file_system_call) =
          (List.zip ps ws).flatMap (fun x => bucket_copy_calls x.2.1 x.2.2 x.1) ∧
        (∀ w ∈ ws, ctx.calls.length ≤ w.1.id) ∧
        List.Pairwise (fun a b => a.1.id < b.1.id) ws ∧
        (∀ w ∈ ws,
          (op.Combine_loop writer_offset trimmed_path ps ctx).ctx.calls.get? w.1.id =
            some (.copy_to_initialize_global w.1.file_path) ∧
          (op.Combine_loop writer_offset trimmed_path ps ctx).ctx.calls.get? w.2.id =
            some .copy_to_initialize_local) := by
  induction ps with
  | nil =>
    intro _ _ _ ctx _ _
    exact ⟨rfl, [], [], by simp [PhysicalCopyToFile.Combine_loop], List.Forall₂.nil, rfl,
      by simp, List.Pairwise.nil, by simp⟩
  | cons p rest ih =>
    intro hvals hfree hno ctx hfiles hjoin
    have hfree1 : ∀ k, k ≤ op.partition_columns.length →
        ctx.fs.FileExists (hive_level ctx.fs op.partition_columns op.names p.values
          trimmed_path k) = false := by
      intro k hk
      have h0 := hfree p (List.mem_cons_self _ _) k hk
      unfold FileSystem.FileExists at h0 ⊢
      rw [hfiles, hive_level_congr _ fs0 _ _ _ _ _ hjoin]
      exact h0
    obtain ⟨path, ctx_t, htarget, ⟨uuid, hpath⟩, htf, htj, dir_calls, hdc, hdir⟩ :=
      bucket_target_ok op writer_offset trimmed_path p ctx hpos hcols
        (hvals p (List.mem_cons_self _ _)) hfree1
    have hpath0 : op.hive_file fs0 trimmed_path p.values writer_offset uuid = .ok path := by
      rw [← hive_file_congr op ctx.fs fs0 _ _ _ _ hjoin]
      exact hpath
    have hno1 : ctx_t.fs.FileExists path = false ∨ op.overwrite_or_ignore = true := by
      rcases hno with h | h
      · exact Or.inr h
      · left
        have := h p (List.mem_cons_self _ _) uuid path hpath0
        unfold FileSystem.FileExists at this ⊢
        rw [htf, hfiles]
        exact this
    obtain ⟨hbr, hbc, hbf⟩ := Combine_bucket_ok op writer_offset trimmed_path p ctx path ctx_t
      hc hf htarget hno1
    cases hb : op.Combine_bucket writer_offset trimmed_path p ctx with
    | mk r ctx1 =>
      rw [hb] at hbr hbc hbf
      simp only at hbr hbc hbf
      subst hbr
      have hno2 : op.overwrite_or_ignore = true ∨ ∀ q ∈ rest, ∀ uuid path,
          op.hive_file fs0 trimmed_path q.values writer_offset uuid = .ok path →
            fs0.FileExists path = false := by
        rcases hno with h | h
        · exact Or.inl h
        · exact Or.inr (fun q hq => h q (List.mem_cons_of_mem _ hq))
      obtain ⟨hres, new, ws, hcalls, hfor, hfilter, hlow, hpair, hget⟩ :=
        ih (fun q hq => hvals q (List.mem_cons_of_mem _ hq))
          (fun q hq => hfree q (List.mem_cons_of_mem _ hq)) hno2 ctx1
          (by rw [hbf, htf, hfiles]) (by rw [hbf, htj, hjoin])
      simp only [PhysicalCopyToFile.Combine_loop, hb]
      refine ⟨hres, dir_calls ++ [.FileExists path] ++
          bucket_copy_calls ⟨ctx_t.calls.length + 1, path⟩ ⟨ctx_t.calls.length + 2⟩ p ++ new,
        (⟨ctx_t.calls.length + 1, path⟩, ⟨ctx_t.calls.length + 2⟩) :: ws, ?_, ?_, ?_, ?_, ?_, ?_⟩
      · rw [hcalls, hbc, hdc]
        simp only [List.append_assoc]
      · exact List.Forall₂.cons ⟨uuid, hpath0⟩ hfor
      · simp only [List.filter_append, dir_calls_filter dir_calls hdir,
          bucket_copy_calls_filter, hfilter, List.zip_cons_cons, List.flatMap_cons,
          List.nil_append]
        rfl
      · intro w hw
        rcases List.mem_cons.mp hw with h | h
        · subst h
          simp only [hdc, List.length_append]
          omega
        · have := hlow w h
          rw [hbc, hdc] at this
          simp only [List.length_append] at this
          omega
      · refine List.Pairwise.cons ?_ hpair
        intro w hw
        have := hlow w hw
        rw [hbc] at this
        simp only [List.length_append, List.length_cons, List.length_nil] at this
        have hlen : 4 ≤ (bucket_copy_calls ⟨ctx_t.calls.length + 1, path⟩
            ⟨ctx_t.calls.length + 2⟩ p).length := by
          simp only [bucket_copy_calls, List.length_append, List.length_cons, List.length_nil,
            List.length_map]
          omega
        show ctx_t.calls.length + 1 < w.1.id
        omega
      · intro w hw
        rcases List.mem_cons.mp hw with h | h
        · subst h
          rw [hcalls, hbc]
          simp only [bucket_copy_calls, List.append_assoc, List.cons_append, List.nil_append,
            List.get?_eq_getElem?]
          constructor
          · rw [List.getElem?_append_right (by omega)]
            simp
          · rw [List.getElem?_append_right (by omega)]
            simp
        · exact hget w h

/-- C14: in hive-partitioned mode, for a local state whose flushed buffer has the buckets
`pb.partitions`, when no conflict occurs (no regular file holds the root or a directory level of
a bucket, and overwrite is enabled or no bucket's file exists), with a copy function that
provides combine and finalize and a well-formed configuration, `Combine` returns normally, and the callbacks it makes are, for the buckets in index order, exactly:
create a global writer for the bucket's file, create a local writer, write every buffered
batch of the bucket in buffer order through these two writers, combine, finalize. There is one
pair of writers per bucket, the global writers are pairwise distinct, and a batch is written
only through the writers of its own bucket. -/
theorem Combine_partitioned_calls (op : PhysicalCopyToFile) (ctx : ClientContext)
    (g : CopyToFunctionGlobalState) (l : CopyToFunctionLocalState)
    (pb : HivePartitionedColumnData) (st : PartitionedColumnDataAppendState)
    (hp : op.partition_output = true) (hb : l.part_buffer = some pb)
    (hs : l.part_buffer_append_state = some st)
    (hc : op.function.copy_to_combine = true) (hf : op.function.copy_to_finalize = true)
    (hpos : op.format_position ≤ op.fileformat.length)
    (hcols : ∀ c ∈ op.partition_columns, c < op.names.length)
    (hvals : ∀ p ∈ pb.partitions, op.partition_columns.length ≤ p.values.length)
    (hfree : ∀ p ∈ pb.partitions, ∀ k, k ≤ op.partition_columns.length →
      ctx.fs.FileExists (hive_level ctx.fs op.partition_columns op.names p.values
        (RTrim op.file_path ctx.fs.PathSeparator) k) = false)
    (hno : op.overwrite_or_ignore = true ∨ ∀ p ∈ pb.partitions, ∀ uuid path,
      op.hive_file ctx.fs (RTrim op.file_path ctx.fs.PathSeparator) p.values l.writer_offset
        uuid = .ok path → ctx.fs.FileExists path = false) :
    (op.Combine ctx g l).result = .ok { l with part_buffer := some pb } ∧
      (op.Combine ctx g l).gstate = g ∧
      ∃ new ws, (op.Combine ctx g l).ctx.calls = ctx.calls ++ new ∧
        ws.length = pb.partitions.length ∧
        List.Forall₂ (fun (p : Partition) (w : GlobalFunctionData × LocalFunctionData) =>
          ∃ uuid, op.hive_file ctx.fs (RTrim op.file_path ctx.fs.PathSeparator) p.values
            l.writer_offset uuid = .ok w.1.file_path) pb.partitions ws ∧
        new.filter (fun c => !c.is_file_system_call) =
          (List.zip pb.partitions ws).flatMap (fun x => bucket_copy_calls x.2.1 x.2.2 x.1) ∧
        List.Pairwise (fun a b => a.1.id < b.1.id) ws ∧
        (∀ w ∈ ws,
          (op.Combine ctx g l).ctx.calls.get? w.1.id =
            some (.copy_to_initialize_global w.1.file_path) ∧
          (op.Combine ctx g l).ctx.calls.get? w.2.id = some .copy_to_initialize_local) := by
  obtain ⟨hres, new, ws, hcalls, hfor, hfilter, _, hpair, hget⟩ :=
    Combine_loop_ok op l.writer_offset (RTrim op.file_path ctx.fs.PathSeparator) ctx.fs
      hc hf hpos hcols pb.partitions hvals hfree hno ctx rfl rfl
  have hcomb : op.Combine ctx g l =
      ⟨.ok { l with part_buffer := some pb },
        (op.Combine_loop l.writer_offset (RTrim op.file_path ctx.fs.PathSeparator)
          pb.partitions ctx).ctx, g⟩ := by
    unfold PhysicalCopyToFile.Combine
    simp only [hp, if_true, hb, hs, HivePartitionedColumnData.FlushAppendState]
    cases hl : op.Combine_loop l.writer_offset (RTrim op.file_path ctx.fs.PathSeparator)
        pb.partitions ctx with
    | mk r ctx1 =>
      rw [hl] at hres
      simp only at hres
      subst hres
      rfl
  rw [hcomb]
  exact ⟨rfl, rfl, new, ws, hcalls, (List.Forall₂.length_eq hfor).symm, hfor, hfilter, hpair,
    hget⟩

theorem Combine_partitioned_calls_witness :
    ((sample_op false true false).Combine (local_ctx [] ["out"])
        (CopyToFunctionGlobalState.new none) sample_partitioned_local).result =
      .ok { sample_partitioned_local with
            part_buffer := some ((⟨[0], []⟩ : HivePartitionedColumnData).Append sample_chunk) } :=
  (Combine_partitioned_calls (sample_op false true false) (local_ctx [] ["out"])
    (CopyToFunctionGlobalState.new none) sample_partitioned_local _ ⟨⟩ rfl rfl rfl rfl rfl
    (by decide) (by decide) (by decide) (fun _ _ _ _ => rfl)
    (Or.inr (fun _ _ _ _ _ => rfl))).1

/-! ## Sink outside hive-partitioned mode -/

/-- C21: outside hive-partitioned mode a `Sink` call, on states that hold the writers of their
mode, makes exactly one call: the write callback, with the input batch as it came, the calling
thread's local writer, and the global writer selected by mode, the one of the global state in
single-file mode and the one of the calling thread's local state in per-thread mode. It makes
no call on the file system. -/
theorem Sink_writes_once (op : PhysicalCopyToFile) (ctx : ClientContext)
    (g : CopyToFunctionGlobalState) (l : CopyToFunctionLocalState) (input : DataChunk)
    (gdata : GlobalFunctionData) (ldata : LocalFunctionData)
    (hp : op.partition_output = false)
    (hg : (if op.per_thread_output then l.global_state else g.global_state) = some gdata)
    (hl : l.local_state = some ldata) :
    (op.Sink ctx g l input).result = .ok l ∧
      (op.Sink ctx g l input).ctx.calls = ctx.calls ++ [.copy_to_sink gdata ldata input] ∧
      (op.Sink ctx g l input).ctx.fs = ctx.fs ∧
      (op.per_thread_output = false → g.global_state = some gdata) ∧
      (op.per_thread_output = true → l.global_state = some gdata) := by
  have hsink : op.Sink ctx g l input =
      ⟨.ok l, ctx.log (.copy_to_sink gdata ldata input),
        { g with rows_copied := (g.rows_copied + input.size) % idx_t_size }⟩ := by
    unfold PhysicalCopyToFile.Sink
    simp only [hp, Bool.false_eq_true, if_false, hg, hl]
  rw [hsink]
  refine ⟨rfl, rfl, rfl, ?_, ?_⟩
  · intro ht
    simpa [ht] using hg
  · intro ht
    simpa [ht] using hg

theorem Sink_writes_once_witness :
    ((sample_op true false false).Sink (local_ctx [] ["out"])
        (CopyToFunctionGlobalState.new none)
        { CopyToFunctionLocalState.new (some ⟨0⟩) with global_state := some ⟨2, "out/data_0.csv"⟩ }
        sample_chunk).ctx.calls =
      [] ++ [.copy_to_sink ⟨2, "out/data_0.csv"⟩ ⟨0⟩ sample_chunk] :=
  (Sink_writes_once (sample_op true false false) (local_ctx [] ["out"])
    (CopyToFunctionGlobalState.new none)
    { CopyToFunctionLocalState.new (some ⟨0⟩) with global_state := some ⟨2, "out/data_0.csv"⟩ }
    sample_chunk ⟨2, "out/data_0.csv"⟩ ⟨0⟩ rfl rfl rfl).2.1

/-! ## Absent callbacks -/

/-- C25 at failing inputs. Hive-partitioned mode, a copy function without a combine callback,
a local state with two buckets: `Combine` creates the writers of the first bucket, writes its
batch and then calls the combine function pointer that is not set. Per-thread mode, a copy
function with combine but without finalize: `Combine` calls combine and then the finalize
function pointer that is not set. The single-file path of the same function tests the pointer
first and returns normally without a call. -/
theorem Combine_calls_absent_callback :
    ({ sample_op false true false with function := function_without_combine }.Combine
        (local_ctx [] ["out"]) (CopyToFunctionGlobalState.new none)
        sample_partitioned_local).result = .error .null_pointer ∧
      ({ sample_op false true false with function := function_without_combine }.Combine
        (local_ctx [] ["out"]) (CopyToFunctionGlobalState.new none)
        sample_partitioned_local).ctx.calls =
        [.DirectoryExists "out", .DirectoryExists "out/year=2020",
          .CreateDirectory "out/year=2020", .FileExists "out/year=2020/data_3.csv",
          .copy_to_initialize_global "out/year=2020/data_3.csv", .copy_to_initialize_local,
          .copy_to_sink ⟨4, "out/year=2020/data_3.csv"⟩ ⟨5⟩
            ⟨[[.BIGINT 2020, .VARCHAR "a"], [.BIGINT 2020, .VARCHAR "c"]]⟩] ∧
      ((per_thread_op function_without_finalize).Combine (local_ctx [] ["out"])
        (CopyToFunctionGlobalState.new none)
        { CopyToFunctionLocalState.new (some ⟨0⟩) with
          global_state := some ⟨2, "out/data_0.csv"⟩ }).result = .error .null_pointer ∧
      ((per_thread_op function_without_finalize).Combine (local_ctx [] ["out"])
        (CopyToFunctionGlobalState.new none)
        { CopyToFunctionLocalState.new (some ⟨0⟩) with
          global_state := some ⟨2, "out/data_0.csv"⟩ }).ctx.calls =
        [.copy_to_combine ⟨2, "out/data_0.csv"⟩ ⟨0⟩] ∧
      ({ single_file_op "out.csv" with function := function_without_combine }.Combine
        (local_ctx [] []) (CopyToFunctionGlobalState.new (some ⟨0, "out.csv"⟩))
        (CopyToFunctionLocalState.new (some ⟨1⟩))).result =
        .ok (CopyToFunctionLocalState.new (some ⟨1⟩)) ∧
      ({ single_file_op "out.csv" with function := function_without_combine }.Combine
        (local_ctx [] []) (CopyToFunctionGlobalState.new (some ⟨0, "out.csv"⟩))
        (CopyToFunctionLocalState.new (some ⟨1⟩))).ctx.calls = [] := by
  decide

/-! ## Both mode flags set -/

theorem Combine_loop_per_thread_flag (op : PhysicalCopyToFile) (b : Bool) (writer_offset : Nat)
    (trimmed_path : String) (ps : List Partition) :
    ∀ ctx : ClientContext,
      { op with per_thread_output := b }.Combine_loop writer_offset trimmed_path ps ctx =
        op.Combine_loop writer_offset trimmed_path ps ctx := by
  induction ps with
  | nil => intro ctx; rfl
  | cons p rest ih =>
    intro ctx
    have hb : { op with per_thread_output := b }.Combine_bucket writer_offset trimmed_path p ctx =
        op.Combine_bucket writer_offset trimmed_path p ctx := rfl
    simp only [PhysicalCopyToFile.Combine_loop, hb]
    cases op.Combine_bucket writer_offset trimmed_path p ctx with
    | mk r ctx1 =>
      cases r with
      | error e => rfl
      | ok u => exact ih ctx1

/-- C24: when `partition_output` is set, every method gives the same result (value returned or
exception thrown, context with its call log and file system, states) whether `per_thread_output`
is set or cleared, and so does every sink phase. -/
theorem partition_output_ignores_per_thread (op : PhysicalCopyToFile)
    (hp : op.partition_output = true) (ht : op.per_thread_output = true) :
    (∀ ctx, op.GetGlobalSinkState ctx =
        { op with per_thread_output := false }.GetGlobalSinkState ctx) ∧
      (∀ ctx g, op.GetLocalSinkState ctx g =
        { op with per_thread_output := false }.GetLocalSinkState ctx g) ∧
      (∀ ctx g l input, op.Sink ctx g l input =
        { op with per_thread_output := false }.Sink ctx g l input) ∧
      (∀ ctx g l, op.Combine ctx g l =
        { op with per_thread_output := false }.Combine ctx g l) ∧
      (∀ ctx g, op.Finalize ctx g = { op with per_thread_output := false }.Finalize ctx g) ∧
      (∀ calls ctx, op.sink_phase calls (op.sink_phase_start ctx) =
        { op with per_thread_output := false }.sink_phase calls
          ({ op with per_thread_output := false }.sink_phase_start ctx)) := by
  have h1 : ∀ ctx, op.GetGlobalSinkState ctx =
      { op with per_thread_output := false }.GetGlobalSinkState ctx := by
    intro ctx
    simp [PhysicalCopyToFile.GetGlobalSinkState, hp, ht]
  have h2 : ∀ ctx g, op.GetLocalSinkState ctx g =
      { op with per_thread_output := false }.GetLocalSinkState ctx g := by
    intro ctx g
    simp [PhysicalCopyToFile.GetLocalSinkState, hp]
  have h3 : ∀ ctx g l input, op.Sink ctx g l input =
      { op with per_thread_output := false }.Sink ctx g l input := by
    intro ctx g l input
    simp [PhysicalCopyToFile.Sink, hp]
  have h4 : ∀ ctx g l, op.Combine ctx g l =
      { op with per_thread_output := false }.Combine ctx g l := by
    intro ctx g l
    unfold PhysicalCopyToFile.Combine
    simp only [Combine_loop_per_thread_flag]
    simp only [hp, if_true]
  have h5 : ∀ ctx g, op.Finalize ctx g =
      { op with per_thread_output := false }.Finalize ctx g := by
    intro ctx g
    simp [PhysicalCopyToFile.Finalize, hp, ht]
  refine ⟨h1, h2, h3, h4, h5, ?_⟩
  have hstep : ∀ s c, op.sink_step s c = { op with per_thread_output := false }.sink_step s c := by
    intro s c
    unfold PhysicalCopyToFile.sink_step
    simp only [← h2, ← h3, ← h4]
  have hstart : ∀ ctx, op.sink_phase_start ctx =
      { op with per_thread_output := false }.sink_phase_start ctx := by
    intro ctx
    unfold PhysicalCopyToFile.sink_phase_start
    rw [← h1]
  intro calls ctx
  rw [← hstart]
  unfold PhysicalCopyToFile.sink_phase
  generalize op.sink_phase_start ctx = s
  induction calls generalizing s with
  | nil => rfl
  | cons c rest ih =>
    simp only [List.foldl_cons, ← hstep]
    exact ih _

theorem partition_output_ignores_per_thread_witness :
    (sample_op true true false).Combine (local_ctx [] ["out"])
        (CopyToFunctionGlobalState.new none) sample_partitioned_local =
      { sample_op true true false with per_thread_output := false }.Combine
        (local_ctx [] ["out"]) (CopyToFunctionGlobalState.new none) sample_partitioned_local :=
  (partition_output_ignores_per_thread (sample_op true true false) rfl rfl).2.2.2.1 _ _ _

/-! ## A failed creation of a per-thread local state -/

theorem GetLocalSinkState_per_thread_ok (op : PhysicalCopyToFile) (ctx : ClientContext)
    (g : CopyToFunctionGlobalState) (l : CopyToFunctionLocalState)
    (ht : op.per_thread_output = true) (hp : op.partition_output = false)
    (hl : (op.GetLocalSinkState ctx g).result = .ok l) :
    ∃ id path, l.global_state = some ⟨id, path⟩ ∧
      op.CreateFilename ctx.fs op.file_path op.function.extension g.last_file_offset
        ctx.next_uuid = .ok path := by
  revert hl
  unfold PhysicalCopyToFile.GetLocalSinkState
  simp only [hp, ht, if_true, ClientContext.FileExists, ClientContext.log,
    ClientContext.next_uuid, ClientContext.drawn]
  cases hname : op.CreateFilename ctx.fs op.file_path op.function.extension
      g.last_file_offset (ctx.uuids ctx.uuid_count) with
  | error e => cases hu : op.use_uuid_format <;> simp
  | ok path =>
    cases hfe : ctx.fs.FileExists path <;> cases how : op.overwrite_or_ignore <;>
      cases hu : op.use_uuid_format <;>
      simp [hfe, CopyToFunctionLocalState.new] <;>
      intro h <;> subst h <;> simp

/-- C26: a per-thread `GetLocalSinkState` call, whether it returns or throws and so in
particular when it throws the file-exists `IOException`, leaves a global state that differs
from the one before only in `last_file_offset`, which is one larger (in `idx_t` arithmetic, so
modulo `2^64`): the sequence number stays consumed, `rows_copied` is unchanged, and the file of
the next creation that succeeds is named from the following number. -/
theorem GetLocalSinkState_conflict_consumes (op : PhysicalCopyToFile) (ctx : ClientContext)
    (g : CopyToFunctionGlobalState)
    (ht : op.per_thread_output = true) (hp : op.partition_output = false) :
    (op.GetLocalSinkState ctx g).gstate =
        { g with last_file_offset := (g.last_file_offset + 1) % idx_t_size } ∧
      (op.GetLocalSinkState ctx g).gstate.rows_copied = g.rows_copied ∧
      (g.last_file_offset + 1 < idx_t_size →
        (op.GetLocalSinkState ctx g).gstate.last_file_offset = g.last_file_offset + 1) ∧
      (∀ ctx2 l2,
        (op.GetLocalSinkState ctx2 (op.GetLocalSinkState ctx g).gstate).result = .ok l2 →
        ∃ id path, l2.global_state = some ⟨id, path⟩ ∧
          op.CreateFilename ctx2.fs op.file_path op.function.extension
            ((g.last_file_offset + 1) % idx_t_size) ctx2.next_uuid = .ok path) := by
  have hg : (op.GetLocalSinkState ctx g).gstate =
      { g with last_file_offset := (g.last_file_offset + 1) % idx_t_size } := by
    unfold PhysicalCopyToFile.GetLocalSinkState
    simp only [hp, ht, if_true, Bool.false_eq_true, if_false, ClientContext.FileExists]
    split
    · rfl
    · split <;> rfl
  refine ⟨hg, by rw [hg], ?_, ?_⟩
  · intro hlt
    rw [hg]
    exact Nat.mod_eq_of_lt hlt
  · intro ctx2 l2 hl2
    have := GetLocalSinkState_per_thread_ok op ctx2 _ l2 ht hp hl2
    rw [hg] at this
    exact this

theorem GetLocalSinkState_conflict_consumes_witness :
    ((sample_op true false false).GetLocalSinkState
        (local_ctx [("out/data_0.csv", "old")] ["out"])
        (CopyToFunctionGlobalState.new none)).result =
        .error (.IOException
          "out/data_0.csv exists! Enable OVERWRITE_OR_IGNORE option to force writing") ∧
      ((sample_op true false false).GetLocalSinkState
        (local_ctx [("out/data_0.csv", "old")] ["out"])
        (CopyToFunctionGlobalState.new none)).gstate =
      { CopyToFunctionGlobalState.new none with last_file_offset := (0 + 1) % idx_t_size } :=
  ⟨by decide, (GetLocalSinkState_conflict_consumes (sample_op true false false)
    (local_ctx [("out/data_0.csv", "old")] ["out"]) (CopyToFunctionGlobalState.new none)
    rfl rfl).1⟩

/-! ## The target of `MoveTmpFile` -/

theorem idx_sub_four_wrap (n : Nat) (h : n < 4) :
    n ≤ (n + idx_t_size - 4) % idx_t_size := by
  rw [idx_t_size_eq]
  omega

theorem substr0_whole (t : String) (n : Nat) (h : t.length ≤ n) : substr0 t n = t := by
  apply String.ext
  show t.data.take n = t.data
  exact List.take_of_length_le h

theorem MoveFile_missing (fs : FileSystem) (s t : String) (h : fs.files.lookup s = none) :
    fs.MoveFile s t = none := by
  simp only [FileSystem.MoveFile, h]

theorem FileExists_of_lookup_none (fs : FileSystem) (t : String)
    (h : fs.files.lookup t = none) : fs.FileExists t = false := by
  simp only [FileSystem.FileExists, h, Option.isSome_none]

theorem MoveTmpFile_eq (ctx : ClientContext) (t : String) :
    MoveTmpFile ctx t =
      match (if ctx.fs.FileExists (substr0 t ((t.length + idx_t_size - 4) % idx_t_size)) = true
          then (ctx.log (.FileExists (substr0 t ((t.length + idx_t_size - 4) % idx_t_size)))).RemoveFile
            (substr0 t ((t.length + idx_t_size - 4) % idx_t_size))
          else ctx.log (.FileExists (substr0 t ((t.length + idx_t_size - 4) % idx_t_size)))).fs.MoveFile
          t (substr0 t ((t.length + idx_t_size - 4) % idx_t_size)) with
      | none => ⟨.error (.IOException "Could not rename file!"),
          (if ctx.fs.FileExists (substr0 t ((t.length + idx_t_size - 4) % idx_t_size)) = true
            then (ctx.log (.FileExists (substr0 t ((t.length + idx_t_size - 4) % idx_t_size)))).RemoveFile
              (substr0 t ((t.length + idx_t_size - 4) % idx_t_size))
            else ctx.log (.FileExists (substr0 t ((t.length + idx_t_size - 4) % idx_t_size)))).log
            (.MoveFile t (substr0 t ((t.length + idx_t_size - 4) % idx_t_size)))⟩
      | some fs => ⟨.ok (),
          { (if ctx.fs.FileExists (substr0 t ((t.length + idx_t_size - 4) % idx_t_size)) = true
            then (ctx.log (.FileExists (substr0 t ((t.length + idx_t_size - 4) % idx_t_size)))).RemoveFile
              (substr0 t ((t.length + idx_t_size - 4) % idx_t_size))
            else ctx.log (.FileExists (substr0 t ((t.length + idx_t_size - 4) % idx_t_size)))).log
            (.MoveFile t (substr0 t ((t.length + idx_t_size - 4) % idx_t_size))) with fs := fs }⟩ :=
  rfl

/-- C27: `MoveTmpFile` takes as target the first `length - 4` characters of the temp path,
computed in unsigned 64-bit arithmetic, without looking at the characters it drops. For a temp
path of at least 4 characters the target is the path without its last 4 characters. For a
shorter one the subtraction wraps, the target is the whole temp path, the temp file is removed
when it exists, and the move of the path onto itself is then attempted on a path that has no
file, so it throws. -/
theorem MoveTmpFile_target (ctx : ClientContext) (t : String) :
    (4 ≤ t.length → t.length < idx_t_size →
        (substr0 t (t.length - 4)).data = t.data.take (t.data.length - 4) ∧
        ∃ mid, (MoveTmpFile ctx t).ctx.calls =
            ctx.calls ++ [.FileExists (substr0 t (t.length - 4))] ++ mid ++
              [.MoveFile t (substr0 t (t.length - 4))] ∧
          (mid = [] ∨ mid = [.RemoveFile (substr0 t (t.length - 4))])) ∧
      (t.length < 4 →
        substr0 t ((t.length + idx_t_size - 4) % idx_t_size) = t ∧
        (MoveTmpFile ctx t).ctx.calls =
          ctx.calls ++ [.FileExists t] ++
            (if ctx.fs.FileExists t then [.RemoveFile t] else []) ++ [.MoveFile t t] ∧
        (MoveTmpFile ctx t).ctx.fs.FileExists t = false ∧
        (MoveTmpFile ctx t).result = .error (.IOException "Could not rename file!")) := by
  constructor
  · intro hlen hsize
    refine ⟨rfl, ?_⟩
    obtain ⟨mid, hmid, hcases⟩ := MoveTmpFile_calls ctx t
    rw [idx_sub_four _ hlen hsize] at hmid hcases
    exact ⟨mid, hmid, hcases⟩
  · intro hlen
    have htarget : substr0 t ((t.length + idx_t_size - 4) % idx_t_size) = t :=
      substr0_whole t _ (idx_sub_four_wrap _ hlen)
    refine ⟨htarget, ?_⟩
    rw [MoveTmpFile_eq, htarget]
    by_cases hex : ctx.fs.FileExists t = true
    · have hgone : ((ctx.log (.FileExists t)).RemoveFile t).fs.files.lookup t = none :=
        lookup_filter_drop _ t (fun _ => by simp) ctx.fs.files
      rw [if_pos hex, MoveFile_missing _ _ _ hgone]
      exact ⟨by simp [ClientContext.log, ClientContext.RemoveFile, hex],
        FileExists_of_lookup_none _ _ hgone, rfl⟩
    · have hnone : (ctx.log (.FileExists t)).fs.files.lookup t = none := by
        unfold FileSystem.FileExists at hex
        cases h : ctx.fs.files.lookup t with
        | none => exact h
        | some c => rw [h] at hex; simp at hex
      rw [if_neg hex, MoveFile_missing _ _ _ hnone]
      exact ⟨by simp [ClientContext.log, hex], FileExists_of_lookup_none _ _ hnone, rfl⟩

theorem MoveTmpFile_target_witness :
    (MoveTmpFile (local_ctx [("tmp", "rows")] []) "tmp").ctx.calls =
      [] ++ [.FileExists "tmp"] ++
        (if (local_ctx [("tmp", "rows")] []).fs.FileExists "tmp" then [.RemoveFile "tmp"]
          else []) ++ [.MoveFile "tmp" "tmp"] :=
  ((MoveTmpFile_target (local_ctx [("tmp", "rows")] []) "tmp").2 (by decide)).2.1

/-! ## The sequence number in hive-partitioned `Combine` -/

theorem CreateFilename_congr (op : PhysicalCopyToFile) (fs1 fs2 : FileSystem)
    (path extension : String) (n : Nat) (uuid : String) (h : fs1.JoinPath = fs2.JoinPath) :
    op.CreateFilename fs1 path extension n uuid = op.CreateFilename fs2 path extension n uuid := by
  unfold PhysicalCopyToFile.CreateFilename
  rw [h]

/-- One bucket, whatever the outcome: the file system keeps its `JoinPath`, and every global
writer the iteration creates is created for a file name built by `CreateFilename` from the
sequence number handed in. -/
theorem Combine_bucket_writers (op : PhysicalCopyToFile) (writer_offset : Nat)
    (trimmed_path : String) (p : Partition) (ctx : ClientContext) :
    (op.Combine_bucket writer_offset trimmed_path p ctx).ctx.fs.JoinPath = ctx.fs.JoinPath ∧
      ∃ new, (op.Combine_bucket writer_offset trimmed_path p ctx).ctx.calls = ctx.calls ++ new ∧
        ∀ path, Call.copy_to_initialize_global path ∈ new →
          ∃ dir uuid, op.CreateFilename ctx.fs dir op.function.extension writer_offset uuid =
            .ok path := by
  obtain ⟨n1, h1, a1⟩ := CreateDirRecursive_calls op.partition_columns op.names p.values
    trimmed_path ctx
  obtain ⟨_, hjoin⟩ := CreateDirRecursive_frame op.partition_columns op.names p.values
    trimmed_path ctx
  have hdir : ∀ path, Call.copy_to_initialize_global path ∉ n1 := by
    intro path hmem
    obtain ⟨d, hd | hd⟩ := a1 _ hmem <;> cases hd
  unfold PhysicalCopyToFile.Combine_bucket
  cases hd : CreateDirRecursive op.partition_columns op.names p.values trimmed_path ctx with
  | mk r ctx1 =>
    rw [hd] at h1 hjoin
    simp only at h1 hjoin
    cases r with
    | error e => exact ⟨hjoin, n1, h1, fun path hmem => absurd hmem (hdir path)⟩
    | ok hive_path =>
      simp only
      have hdc := (drawn_frame ctx1 op.use_uuid_format).2
      have hdf := (drawn_frame ctx1 op.use_uuid_format).1
      cases hn : op.CreateFilename ctx1.fs hive_path op.function.extension writer_offset
          ctx1.next_uuid with
      | error e =>
        refine ⟨by simp only [hdf]; exact hjoin, n1, by simp only [hdc]; exact h1,
          fun path hmem => absurd hmem (hdir path)⟩
      | ok full_path =>
        have hname : op.CreateFilename ctx.fs hive_path op.function.extension writer_offset
            ctx1.next_uuid = .ok full_path := by
          rw [← CreateFilename_congr op ctx1.fs ctx.fs _ _ _ _ hjoin]
          exact hn
        simp only [ClientContext.FileExists, foldl_log]
        cases hfe : (ctx1.drawn op.use_uuid_format).fs.FileExists full_path <;>
          cases how : op.overwrite_or_ignore <;>
          cases hc : op.function.copy_to_combine <;>
          cases hf : op.function.copy_to_finalize <;>
          simp only [ClientContext.log, hdf, hdc, h1, Bool.false_and, Bool.true_and,
            Bool.not_false, Bool.not_true, Bool.false_eq_true, if_false, if_true] <;>
          refine ⟨hjoin, _, by simp only [List.append_assoc]; rfl, ?_⟩ <;>
          intro path hmem <;>
          simp [hdir] at hmem <;>
          try (subst hmem; exact ⟨_, _, hname⟩)

/-- The loop, whatever the outcome: every global writer it creates is created for a file name
built from the sequence number handed in. -/
theorem Combine_loop_writers (op : PhysicalCopyToFile) (writer_offset : Nat)
    (trimmed_path : String) (ps : List Partition) :
    ∀ ctx : ClientContext,
      (op.Combine_loop writer_offset trimmed_path ps ctx).ctx.fs.JoinPath = ctx.fs.JoinPath ∧
      ∃ new, (op.Combine_loop writer_offset trimmed_path ps ctx).ctx.calls = ctx.calls ++ new ∧
        ∀ path, Call.copy_to_initialize_global path ∈ new →
          ∃ dir uuid, op.CreateFilename ctx.fs dir op.function.extension writer_offset uuid =
            .ok path := by
  induction ps with
  | nil => intro ctx; exact ⟨rfl, [], by simp [PhysicalCopyToFile.Combine_loop], by simp⟩
  | cons p rest ih =>
    intro ctx
    obtain ⟨hj, n1, h1, a1⟩ := Combine_bucket_writers op writer_offset trimmed_path p ctx
    simp only [PhysicalCopyToFile.Combine_loop]
    cases hb : op.Combine_bucket writer_offset trimmed_path p ctx with
    | mk r ctx1 =>
      rw [hb] at hj h1
      simp only at hj h1
      cases r with
      | error e => exact ⟨hj, n1, h1, a1⟩
      | ok u =>
        obtain ⟨hj2, n2, h2, a2⟩ := ih ctx1
        refine ⟨hj2.trans hj, n1 ++ n2, by rw [h2, h1, List.append_assoc], ?_⟩
        intro path hmem
        rcases List.mem_append.mp hmem with h | h
        · exact a1 path h
        · obtain ⟨dir, uuid, hname⟩ := a2 path h
          exact ⟨dir, uuid, by rw [← CreateFilename_congr op ctx1.fs ctx.fs _ _ _ _ hj]; exact hname⟩

/-- C23: in hive-partitioned mode `Combine` leaves the global state as it was, whatever its
outcome: it claims no sequence number, and `last_file_offset` and `rows_copied` are unchanged.
Every global writer it creates is created for a file name that `CreateFilename` builds from
the local state's `writer_offset`, the same value for every bucket, and the local state it
returns still has that `writer_offset`; that value is the one `GetLocalSinkState` claimed when
it created the local state. -/
theorem Combine_partitioned_sequence_number (op : PhysicalCopyToFile) (ctx : ClientContext)
    (g : CopyToFunctionGlobalState) (l : CopyToFunctionLocalState)
    (hp : op.partition_output = true) :
    (op.Combine ctx g l).gstate = g ∧
      (op.Combine ctx g l).gstate.last_file_offset = g.last_file_offset ∧
      (op.Combine ctx g l).gstate.rows_copied = g.rows_copied ∧
      (∃ new, (op.Combine ctx g l).ctx.calls = ctx.calls ++ new ∧
        ∀ path, Call.copy_to_initialize_global path ∈ new →
          ∃ dir uuid, op.CreateFilename ctx.fs dir op.function.extension l.writer_offset uuid =
            .ok path) ∧
      (∀ l1, (op.Combine ctx g l).result = .ok l1 → l1.writer_offset = l.writer_offset) ∧
      (∀ ctx0 g0, returned_writer_offset (op.GetLocalSinkState ctx0 g0).result =
          some g0.last_file_offset ∧
        (op.GetLocalSinkState ctx0 g0).gstate.last_file_offset =
          (g0.last_file_offset + 1) % idx_t_size) := by
  have hall : (op.Combine ctx g l).gstate = g ∧
      (∃ new, (op.Combine ctx g l).ctx.calls = ctx.calls ++ new ∧
        ∀ path, Call.copy_to_initialize_global path ∈ new →
          ∃ dir uuid, op.CreateFilename ctx.fs dir op.function.extension l.writer_offset uuid =
            .ok path) ∧
      (∀ l1, (op.Combine ctx g l).result = .ok l1 → l1.writer_offset = l.writer_offset) := by
    unfold PhysicalCopyToFile.Combine
    simp only [hp, if_true]
    split
    · rename_i part_buffer st hb hs
      obtain ⟨_, new, hnew, anew⟩ := Combine_loop_writers op l.writer_offset
        (RTrim op.file_path ctx.fs.PathSeparator) part_buffer.FlushAppendState.partitions ctx
      cases hl : op.Combine_loop l.writer_offset (RTrim op.file_path ctx.fs.PathSeparator)
          part_buffer.FlushAppendState.partitions ctx with
      | mk r ctx1 =>
        rw [hl] at hnew
        cases r with
        | error e => exact ⟨rfl, ⟨new, hnew, anew⟩, by simp⟩
        | ok u =>
          refine ⟨rfl, ⟨new, hnew, anew⟩, ?_⟩
          intro l1 h1
          simp only [Except.ok.injEq] at h1
          rw [← h1]
    · exact ⟨rfl, ⟨[], by simp, by simp⟩, by simp⟩
  obtain ⟨h1, h2, h3⟩ := hall
  refine ⟨h1, by rw [h1], by rw [h1], h2, h3, ?_⟩
  intro ctx0 g0
  exact ⟨GetLocalSinkState_partition_offset op ctx0 g0 hp,
    GetLocalSinkState_counter op ctx0 g0 (Or.inr hp)⟩

theorem Combine_partitioned_sequence_number_witness :
    ((sample_op false true false).Combine (local_ctx [] ["out"])
        { CopyToFunctionGlobalState.new none with last_file_offset := 4, rows_copied := 0 }
        sample_partitioned_local).gstate =
      { CopyToFunctionGlobalState.new none with last_file_offset := 4, rows_copied := 0 } :=
  (Combine_partitioned_sequence_number (sample_op false true false) (local_ctx [] ["out"])
    { CopyToFunctionGlobalState.new none with last_file_offset := 4, rows_copied := 0 }
    sample_partitioned_local rfl).1

/-! ## Idempotence of `CreateDirRecursive` -/

theorem DirectoryExists_iff (fs : FileSystem) (d : String) :
    fs.DirectoryExists d = true ↔ d ∈ fs.dirs := by
  simp [FileSystem.DirectoryExists]

theorem CreateDir_present (d : String) (ctx : ClientContext) (h : d ∈ ctx.fs.dirs) :
    CreateDir d ctx = ⟨.ok (), ctx.log (.DirectoryExists d)⟩ := by
  have hex : ctx.fs.DirectoryExists d = true := (DirectoryExists_iff _ _).mpr h
  rcases CreateDir_cases d ctx with ⟨_, h1⟩ | ⟨hd, _, _⟩ | ⟨hd, _, _⟩
  · exact h1
  · rw [hex] at hd
    exact absurd hd (by simp)
  · rw [hex] at hd
    exact absurd hd (by simp)

theorem CreateDir_blocked (d : String) (ctx : ClientContext)
    (hd : ctx.fs.DirectoryExists d = false) (hf : ctx.fs.FileExists d = true) :
    CreateDir d ctx = ⟨.error (CreateDirectory_exception d), { ctx with
      calls := ctx.calls ++ [.DirectoryExists d, .CreateDirectory d] }⟩ := by
  rcases CreateDir_cases d ctx with ⟨hd1, _⟩ | ⟨_, hf1, _⟩ | ⟨_, _, h1⟩
  · rw [hd] at hd1
    exact absurd hd1 (by simp)
  · rw [hf] at hf1
    exact absurd hf1 (by simp)
  · exact h1

/-- What `CreateDir` does: it asks whether the directory exists and asks for its creation only
when it does not; no directory is lost, and when it returns the directory exists. -/
theorem CreateDir_effect (d : String) (ctx : ClientContext) :
    ∃ new, (CreateDir d ctx).ctx.calls = ctx.calls ++ new ∧
      (∀ x ∈ created_directories new, x ∉ ctx.fs.dirs) ∧
      (created_directories new).Nodup ∧
      ((CreateDir d ctx).result = .ok () →
        (CreateDir d ctx).ctx.fs.dirs = ctx.fs.dirs ++ created_directories new ∧
        d ∈ (CreateDir d ctx).ctx.fs.dirs) := by
  rcases CreateDir_cases d ctx with ⟨hd, h⟩ | ⟨hd, _, h⟩ | ⟨hd, _, h⟩
  · rw [h]
    exact ⟨[.DirectoryExists d], rfl, by simp [created_directories, Call.created_directory],
      by simp [created_directories, Call.created_directory],
      fun _ => ⟨by simp [created_directories, Call.created_directory, ClientContext.log],
        (DirectoryExists_iff _ _).mp hd⟩⟩
  · have hnot : d ∉ ctx.fs.dirs := by
      intro hmem
      rw [(DirectoryExists_iff _ _).mpr hmem] at hd
      exact absurd hd (by simp)
    rw [h]
    exact ⟨[.DirectoryExists d, .CreateDirectory d], rfl,
      by simp [created_directories, Call.created_directory, hnot],
      by simp [created_directories, Call.created_directory],
      fun _ => ⟨by simp [created_directories, Call.created_directory], by simp⟩⟩
  · have hnot : d ∉ ctx.fs.dirs := by
      intro hmem
      rw [(DirectoryExists_iff _ _).mpr hmem] at hd
      exact absurd hd (by simp)
    rw [h]
    exact ⟨[.DirectoryExists d, .CreateDirectory d], rfl,
      by simp [created_directories, Call.created_directory, hnot],
      by simp [created_directories, Call.created_directory],
      fun h0 => absurd h0 (by simp)⟩

theorem CreateDir_mono (d : String) (ctx : ClientContext) :
    ∀ x ∈ ctx.fs.dirs, x ∈ (CreateDir d ctx).ctx.fs.dirs := by
  intro x hx
  rcases CreateDir_cases d ctx with ⟨_, h⟩ | ⟨_, _, h⟩ | ⟨_, _, h⟩
  · rw [h]
    exact hx
  · rw [h]
    exact List.mem_append_left _ hx
  · rw [h]
    exact hx

theorem created_directories_append (a b : List Call) :
    created_directories (a ++ b) = created_directories a ++ created_directories b := by
  simp [created_directories, List.filterMap_append]

/-- Two effects in a row combine into one. -/
theorem effect_compose (dirs0 : List String) (calls0 n1 n2 calls1 calls2 : List Call)
    (dirs1 : List String)
    (h1 : calls1 = calls0 ++ n1) (d1 : dirs1 = dirs0 ++ created_directories n1)
    (f1 : ∀ x ∈ created_directories n1, x ∉ dirs0) (u1 : (created_directories n1).Nodup)
    (h2 : calls2 = calls1 ++ n2)
    (f2 : ∀ x ∈ created_directories n2, x ∉ dirs1) (u2 : (created_directories n2).Nodup) :
    calls2 = calls0 ++ (n1 ++ n2) ∧
      (∀ x ∈ created_directories (n1 ++ n2), x ∉ dirs0) ∧
      (created_directories (n1 ++ n2)).Nodup ∧
      dirs1 ++ created_directories n2 = dirs0 ++ created_directories (n1 ++ n2) := by
  subst h1 d1 h2
  rw [created_directories_append]
  refine ⟨by simp, ?_, ?_, by simp⟩
  · intro x hx
    rcases List.mem_append.mp hx with h | h
    · exact f1 x h
    · exact fun hm => f2 x h (List.mem_append_left _ hm)
  · rw [List.nodup_append]
    refine ⟨u1, u2, ?_⟩
    intro x hx1 hx2
    exact f2 x hx2 (List.mem_append_right _ hx1)

theorem CreateDirRecursive_loop_effect (cols : List Nat) (names : List String)
    (values : List Value) (fuel : Nat) :
    ∀ (i : Nat) (path : String) (ctx : ClientContext),
      ∃ new, (CreateDirRecursive_loop cols names values fuel i path ctx).ctx.calls =
          ctx.calls ++ new ∧
        (∀ x ∈ created_directories new, x ∉ ctx.fs.dirs) ∧
        (created_directories new).Nodup ∧
        (∀ p, (CreateDirRecursive_loop cols names values fuel i path ctx).result = .ok p →
          (CreateDirRecursive_loop cols names values fuel i path ctx).ctx.fs.dirs =
            ctx.fs.dirs ++ created_directories new) := by
  induction fuel with
  | zero =>
    intro i path ctx
    exact ⟨[], by simp [CreateDirRecursive_loop], by simp [created_directories],
      by simp [created_directories], fun _ _ => by simp [CreateDirRecursive_loop,
        created_directories]⟩
  | succ fuel ih =>
    intro i path ctx
    have hnil : ∀ e : Exc, ∃ new, ctx.calls = ctx.calls ++ new ∧
        (∀ x ∈ created_directories new, x ∉ ctx.fs.dirs) ∧ (created_directories new).Nodup ∧
        (∀ p : String, (Except.error e : Except Exc String) = .ok p →
          ctx.fs.dirs = ctx.fs.dirs ++ created_directories new) :=
      fun e => ⟨[], by simp, by simp [created_directories], by simp [created_directories],
        fun _ h => absurd h (by simp)⟩
    rw [CreateDirRecursive_loop]
    split
    · exact hnil _
    · split
      · rename_i name value _ _
        dsimp only
        obtain ⟨n1, h1, f1, u1, hok1⟩ := CreateDir_effect
          (ctx.fs.JoinPath path (name ++ "=" ++ value.ToString)) ctx
        split
        · exact ⟨n1, h1, f1, u1, fun _ h => absurd h (by simp)⟩
        · rename_i u hr
          have hru : (CreateDir (ctx.fs.JoinPath path (name ++ "=" ++ value.ToString))
              ctx).result = .ok () := hr
          obtain ⟨d1, _⟩ := hok1 hru
          obtain ⟨n2, h2, f2, u2, hok2⟩ := ih (i + 1)
            (ctx.fs.JoinPath path (name ++ "=" ++ value.ToString))
            (CreateDir (ctx.fs.JoinPath path (name ++ "=" ++ value.ToString)) ctx).ctx
          obtain ⟨a, b, c, d⟩ := effect_compose _ _ _ _ _ _ _ h1 d1 f1 u1 h2 f2 u2
          exact ⟨n1 ++ n2, a, b, c, fun p hp => (hok2 p hp).trans d⟩
      · exact hnil _

theorem CreateDirRecursive_effect (cols : List Nat) (names : List String) (values : List Value)
    (root : String) (ctx : ClientContext) :
    ∃ new, (CreateDirRecursive cols names values root ctx).ctx.calls = ctx.calls ++ new ∧
      (∀ x ∈ created_directories new, x ∉ ctx.fs.dirs) ∧
      (created_directories new).Nodup ∧
      (∀ p, (CreateDirRecursive cols names values root ctx).result = .ok p →
        (CreateDirRecursive cols names values root ctx).ctx.fs.dirs =
          ctx.fs.dirs ++ created_directories new ∧
        root ∈ (CreateDirRecursive cols names values root ctx).ctx.fs.dirs) := by
  unfold CreateDirRecursive
  obtain ⟨n1, h1, f1, u1, hok1⟩ := CreateDir_effect root ctx
  split
  · exact ⟨n1, h1, f1, u1, fun _ h => absurd h (by simp)⟩
  · rename_i u hr
    have hru : (CreateDir root ctx).result = .ok () := hr
    obtain ⟨d1, hroot⟩ := hok1 hru
    obtain ⟨n2, h2, f2, u2, hok2⟩ := CreateDirRecursive_loop_effect cols names values
      cols.length 0 root (CreateDir root ctx).ctx
    obtain ⟨a, b, c, d⟩ := effect_compose _ _ _ _ _ _ _ h1 d1 f1 u1 h2 f2 u2
    refine ⟨n1 ++ n2, a, b, c, fun p hp => ⟨(hok2 p hp).trans d, ?_⟩⟩
    rw [hok2 p hp]
    exact List.mem_append_left _ hroot

theorem hive_segment_of_get (cols : List Nat) (names : List String) (values : List Value)
    (i col : Nat) (name : String) (value : Value) (e1 : cols.get? i = some col)
    (e2 : names.get? col = some name) (e3 : values.get? i = some value) :
    hive_segment cols names values i = name ++ "=" ++ value.ToString := by
  simp only [List.get?_eq_getElem?] at e1 e2 e3
  simp [hive_segment, List.getD_eq_getElem?_getD, e1, e2, e3]

theorem CreateDirRecursive_loop_levels (cols : List Nat) (names : List String)
    (values : List Value) (fuel : Nat) :
    ∀ (i : Nat) (path : String) (ctx : ClientContext) (p : String),
      (CreateDirRecursive_loop cols names values fuel i path ctx).result = .ok p →
      path ∈ ctx.fs.dirs →
        ∀ k, k ≤ fuel → (List.range' i k).foldl
          (fun q j => ctx.fs.JoinPath q (hive_segment cols names values j)) path ∈
            (CreateDirRecursive_loop cols names values fuel i path ctx).ctx.fs.dirs := by
  induction fuel with
  | zero =>
    intro i path ctx p h hin k hk
    have : k = 0 := by omega
    subst this
    simpa [CreateDirRecursive_loop] using hin
  | succ fuel ih =>
    intro i path ctx p h hin
    have hmono : ∀ x ∈ ctx.fs.dirs,
        x ∈ (CreateDirRecursive_loop cols names values (fuel + 1) i path ctx).ctx.fs.dirs := by
      intro x hx
      obtain ⟨new, _, _, _, d⟩ := CreateDirRecursive_loop_effect cols names values (fuel + 1) i
        path ctx
      rw [d p h]
      exact List.mem_append_left _ hx
    rw [CreateDirRecursive_loop] at h hmono ⊢
    cases e1 : cols.get? i with
    | none =>
      simp only [e1] at h
      exact absurd h (by simp)
    | some col =>
      cases e2 : names.get? col with
      | none =>
        simp only [e1, e2] at h
        exact absurd h (by simp)
      | some name =>
        cases e3 : values.get? i with
        | none =>
          simp only [e1, e2, e3] at h
          exact absurd h (by simp)
        | some value =>
          have hseg := hive_segment_of_get cols names values i col name value e1 e2 e3
          simp only [e1, e2, e3] at h hmono ⊢
          cases hr : (CreateDir (ctx.fs.JoinPath path (name ++ "=" ++ value.ToString))
              ctx).result with
          | error e =>
            simp only [hr] at h
            exact absurd h (by simp)
          | ok u =>
            simp only [hr] at h hmono ⊢
            obtain ⟨_, _, _, _, hok⟩ := CreateDir_effect
              (ctx.fs.JoinPath path (name ++ "=" ++ value.ToString)) ctx
            have hl := ih (i + 1) _ _ p h (hok hr).2
            rw [CreateDir_JoinPath] at hl
            intro k hk
            cases k with
            | zero => exact hmono path hin
            | succ k =>
              rw [List.range'_succ, List.foldl_cons, hseg]
              exact hl k (by omega)

theorem CreateDirRecursive_loop_mono (cols : List Nat) (names : List String)
    (values : List Value) (fuel : Nat) :
    ∀ (i : Nat) (path : String) (ctx : ClientContext),
      ∀ x ∈ ctx.fs.dirs,
        x ∈ (CreateDirRecursive_loop cols names values fuel i path ctx).ctx.fs.dirs := by
  induction fuel with
  | zero => intro i path ctx x hx; exact hx
  | succ fuel ih =>
    intro i path ctx x hx
    rw [CreateDirRecursive_loop]
    split
    · exact hx
    · split
      · rename_i name value _ _
        dsimp only
        split
        · exact CreateDir_mono _ _ x hx
        · exact ih _ _ _ x (CreateDir_mono _ _ x hx)
      · exact hx

/-- Running the loop again on a file system that has the same regular files and exactly the
directories the first run left: the same result comes back and nothing changes; when the first
run returned a path, only existence questions are asked. -/
theorem CreateDirRecursive_loop_again (cols : List Nat) (names : List String)
    (values : List Value) (fuel : Nat) :
    ∀ (i : Nat) (path : String) (ctx ctx2 : ClientContext),
      ctx2.fs.JoinPath = ctx.fs.JoinPath → ctx2.fs.files = ctx.fs.files →
      ctx2.fs.dirs = (CreateDirRecursive_loop cols names values fuel i path ctx).ctx.fs.dirs →
      (CreateDirRecursive_loop cols names values fuel i path ctx2).result =
          (CreateDirRecursive_loop cols names values fuel i path ctx).result ∧
        (CreateDirRecursive_loop cols names values fuel i path ctx2).ctx.fs = ctx2.fs ∧
        (∀ p, (CreateDirRecursive_loop cols names values fuel i path ctx).result = .ok p →
          ∃ new, (CreateDirRecursive_loop cols names values fuel i path ctx2).ctx.calls =
            ctx2.calls ++ new ∧ ∀ c ∈ new, ∃ d, c = Call.DirectoryExists d) := by
  induction fuel with
  | zero =>
    intro i path ctx ctx2 _ _ _
    exact ⟨rfl, rfl, fun _ _ => ⟨[], by simp [CreateDirRecursive_loop], by simp⟩⟩
  | succ fuel ih =>
    intro i path ctx ctx2 hj hfiles hdirs
    revert hdirs
    rw [CreateDirRecursive_loop, CreateDirRecursive_loop]
    cases e1 : cols.get? i with
    | none => intro _; exact ⟨rfl, rfl, fun _ h => absurd h (by simp)⟩
    | some col =>
      simp only []
      cases e2 : names.get? col with
      | none => intro _; exact ⟨rfl, rfl, fun _ h => absurd h (by simp)⟩
      | some name =>
        cases e3 : values.get? i with
        | none => intro _; exact ⟨rfl, rfl, fun _ h => absurd h (by simp)⟩
        | some value =>
          simp only []
          rw [hj]
          cases hr : (CreateDir (ctx.fs.JoinPath path (name ++ "=" ++ value.ToString))
              ctx).result with
          | error e =>
            simp only []
            intro hdirs
            obtain ⟨he, hf, hd, hctx⟩ := CreateDir_error _ _ _ hr
            rw [hctx] at hdirs
            have hd2 : ctx2.fs.DirectoryExists
                (ctx.fs.JoinPath path (name ++ "=" ++ value.ToString)) = false := by
              unfold FileSystem.DirectoryExists at hd ⊢
              rw [hdirs]
              exact hd
            have hf2 : ctx2.fs.FileExists
                (ctx.fs.JoinPath path (name ++ "=" ++ value.ToString)) = true := by
              unfold FileSystem.FileExists at hf ⊢
              rw [hfiles]
              exact hf
            rw [CreateDir_blocked _ ctx2 hd2 hf2]
            simp only [he]
            exact ⟨trivial, trivial, fun _ h => absurd h (by simp)⟩
          | ok u =>
            simp only []
            intro hdirs
            obtain ⟨_, _, _, _, hok⟩ := CreateDir_effect
              (ctx.fs.JoinPath path (name ++ "=" ++ value.ToString)) ctx
            have hin : ctx.fs.JoinPath path (name ++ "=" ++ value.ToString) ∈ ctx2.fs.dirs := by
              rw [hdirs]
              exact CreateDirRecursive_loop_mono _ _ _ _ _ _ _ _ (hok hr).2
            rw [CreateDir_present _ ctx2 hin]
            simp only []
            obtain ⟨r, f, hcalls⟩ := ih (i + 1)
              (ctx.fs.JoinPath path (name ++ "=" ++ value.ToString))
              (CreateDir (ctx.fs.JoinPath path (name ++ "=" ++ value.ToString)) ctx).ctx
              (ctx2.log (.DirectoryExists (ctx.fs.JoinPath path (name ++ "=" ++ value.ToString))))
              (by rw [CreateDir_JoinPath]; exact hj) (by rw [CreateDir_files]; exact hfiles)
              hdirs
            refine ⟨r, f, ?_⟩
            intro p hp
            obtain ⟨new, hc, hall⟩ := hcalls p hp
            refine ⟨Call.DirectoryExists
              (ctx.fs.JoinPath path (name ++ "=" ++ value.ToString)) :: new, ?_, ?_⟩
            · rw [hc]
              simp [ClientContext.log]
            · intro c hc
              rcases List.mem_cons.mp hc with h | h
              · exact ⟨_, h⟩
              · exact hall c h

theorem CreateDirRecursive_again (cols : List Nat) (names : List String) (values : List Value)
    (root : String) (ctx : ClientContext) :
    (CreateDirRecursive cols names values root
        (CreateDirRecursive cols names values root ctx).ctx).result =
        (CreateDirRecursive cols names values root ctx).result ∧
      (CreateDirRecursive cols names values root
        (CreateDirRecursive cols names values root ctx).ctx).ctx.fs =
        (CreateDirRecursive cols names values root ctx).ctx.fs ∧
      (∀ p, (CreateDirRecursive cols names values root ctx).result = .ok p →
        ∃ new, (CreateDirRecursive cols names values root
            (CreateDirRecursive cols names values root ctx).ctx).ctx.calls =
            (CreateDirRecursive cols names values root ctx).ctx.calls ++ new ∧
          ∀ c ∈ new, ∃ d, c = Call.DirectoryExists d) := by
  cases hr : (CreateDir root ctx).result with
  | error e =>
    obtain ⟨he, hf, hd, hctx⟩ := CreateDir_error _ _ _ hr
    have hfirst : CreateDirRecursive cols names values root ctx =
        ⟨.error e, (CreateDir root ctx).ctx⟩ := by
      unfold CreateDirRecursive
      simp only [hr]
    rw [hfirst, hctx]
    have hb := CreateDir_blocked root
      { ctx with calls := ctx.calls ++ [.DirectoryExists root, .CreateDirectory root] } hd hf
    unfold CreateDirRecursive
    simp only [hb, he]
    exact ⟨trivial, trivial, fun _ h => absurd h (by simp)⟩
  | ok u =>
    obtain ⟨_, _, _, _, hok⟩ := CreateDir_effect root ctx
    have hfirst : CreateDirRecursive cols names values root ctx =
        CreateDirRecursive_loop cols names values cols.length 0 root (CreateDir root ctx).ctx := by
      unfold CreateDirRecursive
      simp only [hr]
    obtain ⟨hfiles, hjoin⟩ := CreateDirRecursive_loop_frame cols names values cols.length 0 root
      (CreateDir root ctx).ctx
    have hroot : root ∈ (CreateDirRecursive_loop cols names values cols.length 0 root
        (CreateDir root ctx).ctx).ctx.fs.dirs :=
      CreateDirRecursive_loop_mono _ _ _ _ _ _ _ _ (hok hr).2
    rw [hfirst]
    generalize hfst : CreateDirRecursive_loop cols names values cols.length 0 root
      (CreateDir root ctx).ctx = first at hfiles hjoin hroot
    have hsecond : CreateDirRecursive cols names values root first.ctx =
        CreateDirRecursive_loop cols names values cols.length 0 root
          (first.ctx.log (.DirectoryExists root)) := by
      unfold CreateDirRecursive
      rw [CreateDir_present root first.ctx hroot]
    rw [hsecond]
    obtain ⟨r, f, hcalls⟩ := CreateDirRecursive_loop_again cols names values cols.length 0
      root (CreateDir root ctx).ctx (first.ctx.log (.DirectoryExists root)) hjoin hfiles
      (by rw [hfst]; rfl)
    rw [hfst] at r hcalls
    refine ⟨r, f, ?_⟩
    intro p hp
    obtain ⟨new, hc, hall⟩ := hcalls p hp
    refine ⟨Call.DirectoryExists root :: new, ?_, ?_⟩
    · rw [hc]
      simp [ClientContext.log]
    · intro c hc
      rcases List.mem_cons.mp hc with h | h
      · exact ⟨_, h⟩
      · exact hall c h

theorem created_directories_of_questions (new : List Call)
    (h : ∀ c ∈ new, ∃ d, c = Call.DirectoryExists d) : created_directories new = [] := by
  induction new with
  | nil => rfl
  | cons c rest ih =>
    obtain ⟨d, hd⟩ := h c (List.mem_cons_self _ _)
    subst hd
    have := ih (fun c hc => h c (List.mem_cons_of_mem _ hc))
    simpa [created_directories, Call.created_directory] using this

theorem CreateDirRecursive_levels (cols : List Nat) (names : List String) (values : List Value)
    (root : String) (ctx : ClientContext) (p : String)
    (h : (CreateDirRecursive cols names values root ctx).result = .ok p) :
    p = hive_level ctx.fs cols names values root cols.length ∧
      ∀ k, k ≤ cols.length → hive_level ctx.fs cols names values root k ∈
        (CreateDirRecursive cols names values root ctx).ctx.fs.dirs := by
  unfold CreateDirRecursive at h ⊢
  cases hr : (CreateDir root ctx).result with
  | error e =>
    simp only [hr] at h
    exact absurd h (by simp)
  | ok u =>
    simp only [hr] at h ⊢
    obtain ⟨_, _, _, _, hok⟩ := CreateDir_effect root ctx
    have hp := CreateDirRecursive_loop_returns cols names values cols.length 0 root _ p h
    have hl := CreateDirRecursive_loop_levels cols names values cols.length 0 root _ p h
      (hok hr).2
    rw [CreateDir_JoinPath] at hp hl
    refine ⟨by rw [hp, hive_level, List.range_eq_range'], ?_⟩
    intro k hk
    rw [hive_level, List.range_eq_range']
    exact hl k hk

/-- C22: `CreateDirRecursive` is idempotent on the file system and never asks it to create a
directory that already exists. The first call appends calls `new` to the log; none of the
directories `new` asks to create existed before and none is asked for twice. When the call
returns a path, the directories afterwards are the ones before followed by the ones `new`
creates, the root exists, the path is level `|cols|` and every level `0 .. |cols|` exists. A
second call with the same arguments on the resulting context gives the same result and leaves
the file system unchanged; when the first call returned a path the second logs only
`DirectoryExists` questions, so no `CreateDirectory`, and returns the same path. -/
theorem CreateDirRecursive_idempotent (cols : List Nat) (names : List String)
    (values : List Value) (root : String) (ctx : ClientContext) :
    (∃ new, (CreateDirRecursive cols names values root ctx).ctx.calls = ctx.calls ++ new ∧
        (∀ d ∈ created_directories new, d ∉ ctx.fs.dirs) ∧
        (created_directories new).Nodup ∧
        (∀ p, (CreateDirRecursive cols names values root ctx).result = .ok p →
          (CreateDirRecursive cols names values root ctx).ctx.fs.dirs =
            ctx.fs.dirs ++ created_directories new)) ∧
      (∀ p, (CreateDirRecursive cols names values root ctx).result = .ok p →
        root ∈ (CreateDirRecursive cols names values root ctx).ctx.fs.dirs ∧
        p = hive_level ctx.fs cols names values root cols.length ∧
        ∀ k, k ≤ cols.length → hive_level ctx.fs cols names values root k ∈
          (CreateDirRecursive cols names values root ctx).ctx.fs.dirs) ∧
      (CreateDirRecursive cols names values root
        (CreateDirRecursive cols names values root ctx).ctx).result =
        (CreateDirRecursive cols names values root ctx).result ∧
      (CreateDirRecursive cols names values root
        (CreateDirRecursive cols names values root ctx).ctx).ctx.fs =
        (CreateDirRecursive cols names values root ctx).ctx.fs ∧
      (∀ p, (CreateDirRecursive cols names values root ctx).result = .ok p →
        ∃ again, (CreateDirRecursive cols names values root
            (CreateDirRecursive cols names values root ctx).ctx).ctx.calls =
            (CreateDirRecursive cols names values root ctx).ctx.calls ++ again ∧
          created_directories again = [] ∧
          ∀ c ∈ again, ∃ d, c = Call.DirectoryExists d) := by
  obtain ⟨new, h1, f1, u1, hok⟩ := CreateDirRecursive_effect cols names values root ctx
  obtain ⟨r, f, hagain⟩ := CreateDirRecursive_again cols names values root ctx
  refine ⟨⟨new, h1, f1, u1, fun p hp => (hok p hp).1⟩, ?_, r, f, ?_⟩
  · intro p hp
    exact ⟨(hok p hp).2, CreateDirRecursive_levels cols names values root ctx p hp⟩
  · intro p hp
    obtain ⟨again, hc, hall⟩ := hagain p hp
    exact ⟨again, hc, created_directories_of_questions again hall, hall⟩

theorem CreateDirRecursive_idempotent_witness :
    (CreateDirRecursive [0, 1] ["a", "b"] [.BIGINT 1, .VARCHAR "x"] "root"
        (local_ctx [] ["root", "root/a=1"])).result = .ok "root/a=1/b=x" ∧
      (CreateDirRecursive [0, 1] ["a", "b"] [.BIGINT 1, .VARCHAR "x"] "root"
        (local_ctx [] ["root", "root/a=1"])).ctx.fs.dirs = ["root", "root/a=1", "root/a=1/b=x"] ∧
      (CreateDirRecursive [0, 1] ["a", "b"] [.BIGINT 1, .VARCHAR "x"] "root"
        (CreateDirRecursive [0, 1] ["a", "b"] [.BIGINT 1, .VARCHAR "x"] "root"
          (local_ctx [] ["root", "root/a=1"])).ctx).ctx.fs =
        (CreateDirRecursive [0, 1] ["a", "b"] [.BIGINT 1, .VARCHAR "x"] "root"
          (local_ctx [] ["root", "root/a=1"])).ctx.fs :=
  ⟨by decide, by decide,
    (CreateDirRecursive_idempotent [0, 1] ["a", "b"] [.BIGINT 1, .VARCHAR "x"] "root"
      (local_ctx [] ["root", "root/a=1"])).2.2.2.1⟩

/-! ## `ReadJSONBind`: the `sample_size` parameter -/

theorem idx_t_of_int64_pos (a : Int) (h : is_int64 a) (hpos : 0 < a) :
    idx_t_of_int64 a = a.toNat := by
  unfold idx_t_of_int64
  unfold is_int64 at h
  rw [idx_t_size_eq]
  have h2 : a < 18446744073709551616 := by
    have : (2 : Int) ^ 63 = 9223372036854775808 := by norm_num
    omega
  rw [Int.emod_eq_of_lt (le_of_lt hpos) (by exact_mod_cast h2)]

/-- C29: `ReadJSONBind` validates `sample_size` as follows, for every 64-bit signed argument
`a` and every bind data: `a = -1` sets `sample_size` to the maximum `idx_t` value `2^64 - 1`;
`a > 0` sets it to `a`; every other value (0 and every `a < -1`) raises the `BinderException`;
nothing else in the bind data changes, and after a successful bind `sample_size` is not 0. -/
theorem ReadJSONBind_sample_size_spec (a : Int) (bind_data : JSONScanData) (h : is_int64 a) :
    (a = -1 → ReadJSONBind_sample_size a bind_data =
        .ok { bind_data with sample_size := 2 ^ 64 - 1 }) ∧
      (0 < a → ReadJSONBind_sample_size a bind_data =
        .ok { bind_data with sample_size := a.toNat }) ∧
      (a = 0 ∨ a < -1 → ReadJSONBind_sample_size a bind_data = .error (.mk
        "read_json \"sample_size\" parameter must be positive, or -1 to sample the entire file")) ∧
      (∀ result, ReadJSONBind_sample_size a bind_data = .ok result →
        result.sample_size ≠ 0 ∧ result.max_depth = bind_data.max_depth ∧
          (a = -1 ∨ 0 < a)) := by
  refine ⟨?_, ?_, ?_, ?_⟩
  · intro ha
    subst ha
    simp [ReadJSONBind_sample_size, idx_t_maximum, idx_t_size]
  · intro ha
    have hne : a ≠ -1 := by omega
    simp [ReadJSONBind_sample_size, hne, ha, idx_t_of_int64_pos a h ha]
  · intro ha
    have hne : a ≠ -1 := by omega
    have hnp : ¬ a > 0 := by omega
    simp [ReadJSONBind_sample_size, hne, hnp]
  · intro result hr
    unfold ReadJSONBind_sample_size at hr
    split at hr
    · rename_i ha
      simp only [Except.ok.injEq] at hr
      subst hr
      refine ⟨?_, rfl, Or.inl ha⟩
      simp [idx_t_maximum, idx_t_size_eq]
    · split at hr
      · rename_i ha
        simp only [Except.ok.injEq] at hr
        subst hr
        refine ⟨?_, rfl, Or.inr ha⟩
        simp only [idx_t_of_int64_pos a h ha]
        omega
      · simp at hr

theorem ReadJSONBind_sample_size_spec_witness :
    ReadJSONBind_sample_size 500 ⟨20480, 7⟩ = .ok ⟨500, 7⟩ ∧
      ReadJSONBind_sample_size (-1) ⟨20480, 7⟩ = .ok ⟨18446744073709551615, 7⟩ ∧
      ReadJSONBind_sample_size 0 ⟨20480, 7⟩ = .error (.mk
        "read_json \"sample_size\" parameter must be positive, or -1 to sample the entire file") :=
  ⟨(ReadJSONBind_sample_size_spec 500 ⟨20480, 7⟩ (by decide)).2.1 (by decide),
    (ReadJSONBind_sample_size_spec (-1) ⟨20480, 7⟩ (by decide)).1 rfl,
    (ReadJSONBind_sample_size_spec 0 ⟨20480, 7⟩ (by decide)).2.2.1 (Or.inl rfl)⟩

/-! ## `LogicalCTERef` serialization -/

/-- C30: `LogicalCTERef::Deserialize` undoes `LogicalCTERef::Serialize`. For every
`LogicalCTERef` `op`, `Serialize` appends to the writer exactly the four fields table_index,
cte_index, chunk_types, bound_columns in that order, and `Deserialize` on a reader that holds
those fields (followed by any further fields `rest`) returns an operator with the same
table_index, cte_index, chunk_types and bound_columns, leaving `rest` unread. -/
theorem LogicalCTERef_roundtrip (op : LogicalCTERef) (written rest : List Field) :
    (op.Serialize ⟨written⟩).fields = written ++ [Field.idx op.table_index,
        Field.idx op.cte_index, Field.types op.chunk_types, Field.strings op.bound_columns] ∧
      LogicalCTERef.Deserialize ⟨(op.Serialize ⟨[]⟩).fields ++ rest⟩ = .ok (op, ⟨rest⟩) ∧
      ∀ result reader,
        LogicalCTERef.Deserialize ⟨(op.Serialize ⟨[]⟩).fields ++ rest⟩ = .ok (result, reader) →
          result.table_index = op.table_index ∧ result.cte_index = op.cte_index ∧
            result.chunk_types = op.chunk_types ∧ result.bound_columns = op.bound_columns := by
  have h2 : LogicalCTERef.Deserialize ⟨(op.Serialize ⟨[]⟩).fields ++ rest⟩ = .ok (op, ⟨rest⟩) := by
    rfl
  refine ⟨?_, h2, ?_⟩
  · simp [LogicalCTERef.Serialize, FieldWriter.WriteField,
      FieldWriter.WriteRegularSerializableList, FieldWriter.WriteList]
  · intro result reader h
    rw [h2] at h
    simp only [Except.ok.injEq, Prod.mk.injEq] at h
    rw [← h.1]
    exact ⟨rfl, rfl, rfl, rfl⟩

theorem LogicalCTERef_roundtrip_witness :
    LogicalCTERef.Deserialize ⟨(sample_cteref.Serialize ⟨[]⟩).fields ++ [Field.idx 9]⟩ =
      .ok (sample_cteref, ⟨[Field.idx 9]⟩) :=
  (LogicalCTERef_roundtrip sample_cteref [] [Field.idx 9]).2.1

namespace sqlite

/-! ## Pagination of `pragma_functions` -/

theorem AddFunction_count (f : BaseScalarFunction) (count : Nat) (output : DataChunk)
    (is_aggregate : Bool) : (AddFunction f count output is_aggregate).1 = count + 1 := rfl

theorem AddFunction_row (f : BaseScalarFunction) (count : Nat) (output : DataChunk)
    (is_aggregate : Bool) :
    (AddFunction f count output is_aggregate).2.row count = function_row f is_aggregate := by
  have h6 : List.range 6 = [0, 1, 2, 3, 4, 5] := by decide
  simp [AddFunction, DataChunk.row, DataChunk.SetValue, function_row, h6]

theorem AddFunction_frame (f : BaseScalarFunction) (count : Nat) (output : DataChunk)
    (is_aggregate : Bool) (i j : Nat) (h : j ≠ count) :
    (AddFunction f count output is_aggregate).2.data i j = output.data i j := by
  simp [AddFunction, DataChunk.SetValue, h]

theorem entry_rows_function (entry : CatalogEntry) (h : entry.type ≠ .TABLE_ENTRY) :
    entry_rows entry = entry.functions.map
      (fun f => function_row f (decide (entry.type = .AGGREGATE_FUNCTION_ENTRY))) := by
  unfold entry_rows
  cases ht : entry.type with
  | SCALAR_FUNCTION_ENTRY => simp
  | AGGREGATE_FUNCTION_ENTRY => simp
  | TABLE_ENTRY => exact absurd ht h

theorem entry_rows_other (entry : CatalogEntry) (h : entry.type = .TABLE_ENTRY) :
    entry_rows entry = [] := by
  simp [entry_rows, h]

theorem flatMap_drop (entries : List CatalogEntry) (o : Nat) :
    (entries.drop o).flatMap entry_rows =
      ((entries.get? o).map entry_rows).getD [] ++ (entries.drop (o + 1)).flatMap entry_rows := by
  by_cases h : o < entries.length
  · rw [List.drop_eq_getElem_cons h, List.flatMap_cons]
    simp [List.get?_eq_getElem?, List.getElem?_eq_getElem h]
  · have h1 : entries.length ≤ o := by omega
    simp [List.get?_eq_getElem?, List.getElem?_eq_none h1, List.drop_of_length_le h1,
      List.drop_of_length_le (Nat.le_succ_of_le h1)]

theorem remaining_rows_next (data : PragmaFunctionsData)
    (h : (((data.entries.get? data.offset).map entry_rows).getD []).drop data.offset_in_entry =
      []) :
    remaining_rows data =
      remaining_rows { data with offset := data.offset + 1, offset_in_entry := 0 } := by
  unfold remaining_rows
  rw [h]
  simp only [List.nil_append, List.drop_zero]
  exact flatMap_drop data.entries (data.offset + 1)

theorem remaining_rows_done (data : PragmaFunctionsData)
    (h : data.entries.length ≤ data.offset) : remaining_rows data = [] := by
  unfold remaining_rows
  simp [List.get?_eq_getElem?, List.getElem?_eq_none h,
    List.drop_of_length_le (Nat.le_succ_of_le h)]

theorem remaining_rows_new (entries : List CatalogEntry) :
    remaining_rows (PragmaFunctionsData.new entries) = entries.flatMap entry_rows := by
  unfold remaining_rows PragmaFunctionsData.new
  simp only [List.drop_zero]
  have := flatMap_drop entries 0
  simpa using this.symm

theorem remaining_rows_emit (data : PragmaFunctionsData) (entry : CatalogEntry)
    (f : BaseScalarFunction) (he : data.entries.get? data.offset = some entry)
    (ht : entry.type ≠ .TABLE_ENTRY)
    (hf : entry.functions.get? data.offset_in_entry = some f) :
    remaining_rows data =
      function_row f (decide (entry.type = .AGGREGATE_FUNCTION_ENTRY)) ::
        remaining_rows { data with offset_in_entry := data.offset_in_entry + 1 } := by
  unfold remaining_rows
  simp only [he, Option.map_some', Option.getD_some, entry_rows_function entry ht]
  rw [List.get?_eq_getElem?] at hf
  obtain ⟨hlt, hget⟩ := List.getElem?_eq_some_iff.mp hf
  have hlt2 : data.offset_in_entry < (entry.functions.map
      (fun f => function_row f (decide (entry.type = .AGGREGATE_FUNCTION_ENTRY)))).length := by
    simpa using hlt
  rw [List.drop_eq_getElem_cons hlt2]
  simp [hget]

end sqlite

namespace sqlite

theorem pragma_functions_loop_exit (svs fuel : Nat) (data : PragmaFunctionsData) (count : Nat)
    (output : DataChunk) (h : ¬ (count < svs ∧ data.offset < data.entries.length)) :
    pragma_functions_loop svs fuel data count output = some (data, count, output) := by
  cases fuel with
  | zero => simp [pragma_functions_loop, h]
  | succ fuel => simp only [pragma_functions_loop, h, if_false]

theorem pragma_functions_loop_other (svs fuel : Nat) (data : PragmaFunctionsData) (count : Nat)
    (output : DataChunk) (entry : CatalogEntry)
    (h : count < svs ∧ data.offset < data.entries.length)
    (he : data.entries.get? data.offset = some entry) (ht : entry.type = .TABLE_ENTRY) :
    pragma_functions_loop svs (fuel + 1) data count output =
      pragma_functions_loop svs fuel { data with offset := data.offset + 1 } count output := by
  simp only [pragma_functions_loop, h, and_self, if_true, he, ht]

theorem pragma_functions_loop_next (svs fuel : Nat) (data : PragmaFunctionsData) (count : Nat)
    (output : DataChunk) (entry : CatalogEntry)
    (h : count < svs ∧ data.offset < data.entries.length)
    (he : data.entries.get? data.offset = some entry) (ht : entry.type ≠ .TABLE_ENTRY)
    (hf : data.offset_in_entry ≥ entry.functions.length) :
    pragma_functions_loop svs (fuel + 1) data count output =
      pragma_functions_loop svs fuel
        { data with offset := data.offset + 1, offset_in_entry := 0 } count output := by
  cases hty : entry.type with
  | SCALAR_FUNCTION_ENTRY => simp only [pragma_functions_loop, h, and_self, if_true, he, hty, hf]
  | AGGREGATE_FUNCTION_ENTRY =>
    simp only [pragma_functions_loop, h, and_self, if_true, he, hty, hf]
  | TABLE_ENTRY => exact absurd hty ht

theorem pragma_functions_loop_emit (svs fuel : Nat) (data : PragmaFunctionsData) (count : Nat)
    (output : DataChunk) (entry : CatalogEntry) (f : BaseScalarFunction)
    (h : count < svs ∧ data.offset < data.entries.length)
    (he : data.entries.get? data.offset = some entry) (ht : entry.type ≠ .TABLE_ENTRY)
    (hf : entry.functions.get? data.offset_in_entry = some f) :
    pragma_functions_loop svs (fuel + 1) data count output =
      pragma_functions_loop svs fuel
        { data with offset_in_entry := data.offset_in_entry + 1 } (count + 1)
        (AddFunction f count output (decide (entry.type = .AGGREGATE_FUNCTION_ENTRY))).2 := by
  have hlt : ¬ data.offset_in_entry ≥ entry.functions.length := by
    rw [List.get?_eq_getElem?] at hf
    have := (List.getElem?_eq_some_iff.mp hf).1
    omega
  cases hty : entry.type with
  | SCALAR_FUNCTION_ENTRY =>
    simp only [pragma_functions_loop, h, and_self, if_true, he, hty, hlt, if_false, hf]
    rfl
  | AGGREGATE_FUNCTION_ENTRY =>
    simp only [pragma_functions_loop, h, and_self, if_true, he, hty, hlt, if_false, hf]
    rfl
  | TABLE_ENTRY => exact absurd hty ht

end sqlite

namespace sqlite

theorem row_congr (a b : DataChunk) (j : Nat) (h : ∀ i, a.data i j = b.data i j) :
    a.row j = b.row j := by
  simp [DataChunk.row, h]

/-- The loop of one call: with enough fuel it returns; it leaves the entries alone, never lowers
`count`, keeps `count` within the vector size, stops only when its condition fails, keeps the
rows stored before, and on a well-formed state the rows it stores are the next rows of the
scan. -/
theorem pragma_functions_loop_spec (svs : Nat) :
    ∀ (fuel : Nat) (data : PragmaFunctionsData) (count : Nat) (output : DataChunk),
      (svs - count) + (data.entries.length - data.offset) ≤ fuel →
      ∃ data1 count1 output1,
        pragma_functions_loop svs fuel data count output = some (data1, count1, output1) ∧
        data1.entries = data.entries ∧ count ≤ count1 ∧ (count ≤ svs → count1 ≤ svs) ∧
        ¬ (count1 < svs ∧ data1.offset < data1.entries.length) ∧
        (∀ j, j < count → ∀ i, output1.data i j = output.data i j) ∧
        (data.well_formed → data1.well_formed ∧
          (List.range' count (count1 - count)).map output1.row ++ remaining_rows data1 =
            remaining_rows data) := by
  intro fuel
  induction fuel with
  | zero =>
    intro data count output hm
    have hc : ¬ (count < svs ∧ data.offset < data.entries.length) := by omega
    exact ⟨data, count, output, pragma_functions_loop_exit _ _ _ _ _ hc, rfl, le_refl _, id, hc,
      fun _ _ _ => rfl, fun hw => ⟨hw, by simp⟩⟩
  | succ fuel ih =>
    intro data count output hm
    by_cases hc : count < svs ∧ data.offset < data.entries.length
    · have he : data.entries.get? data.offset = some data.entries[data.offset] := by
        rw [List.get?_eq_getElem?, List.getElem?_eq_getElem hc.2]
      generalize data.entries[data.offset] = entry at he
      by_cases ht : entry.type = .TABLE_ENTRY
      · rw [pragma_functions_loop_other svs fuel data count output entry hc he ht]
        obtain ⟨data1, count1, output1, hr, hen, hle, hsv, hex, hfr, hrows⟩ :=
          ih { data with offset := data.offset + 1 } count output (by simp only; omega)
        refine ⟨data1, count1, output1, hr, hen, hle, hsv, hex, hfr, ?_⟩
        intro hw
        have h0 : data.offset_in_entry = 0 := hw entry he ht
        have hsame : ({ data with offset := data.offset + 1 } : PragmaFunctionsData) =
            { data with offset := data.offset + 1, offset_in_entry := 0 } := by
          rw [← h0]
        obtain ⟨hw1, hrw⟩ := hrows (fun _ _ _ => h0)
        refine ⟨hw1, ?_⟩
        rw [hrw, hsame]
        symm
        apply remaining_rows_next
        simp only [he, Option.map_some', Option.getD_some, entry_rows_other entry ht,
          List.drop_nil]
      · by_cases hf : data.offset_in_entry ≥ entry.functions.length
        · rw [pragma_functions_loop_next svs fuel data count output entry hc he ht hf]
          obtain ⟨data1, count1, output1, hr, hen, hle, hsv, hex, hfr, hrows⟩ :=
            ih { data with offset := data.offset + 1, offset_in_entry := 0 } count output
              (by simp only; omega)
          refine ⟨data1, count1, output1, hr, hen, hle, hsv, hex, hfr, ?_⟩
          intro _
          obtain ⟨hw1, hrw⟩ := hrows (fun _ _ _ => rfl)
          refine ⟨hw1, ?_⟩
          rw [hrw]
          symm
          apply remaining_rows_next
          simp only [he, Option.map_some', Option.getD_some, entry_rows_function entry ht]
          apply List.drop_of_length_le
          simpa using hf
        · have hlt : data.offset_in_entry < entry.functions.length := by omega
          have hget : entry.functions.get? data.offset_in_entry =
              some entry.functions[data.offset_in_entry] := by
            rw [List.get?_eq_getElem?, List.getElem?_eq_getElem hlt]
          generalize entry.functions[data.offset_in_entry] = f at hget
          rw [pragma_functions_loop_emit svs fuel data count output entry f hc he ht hget]
          obtain ⟨data1, count1, output1, hr, hen, hle, hsv, hex, hfr, hrows⟩ :=
            ih { data with offset_in_entry := data.offset_in_entry + 1 } (count + 1)
              (AddFunction f count output (decide (entry.type = .AGGREGATE_FUNCTION_ENTRY))).2
              (by simp only; omega)
          refine ⟨data1, count1, output1, hr, hen, by omega, fun _ => hsv (by omega), hex, ?_, ?_⟩
          · intro j hj i
            rw [hfr j (by omega) i, AddFunction_frame _ _ _ _ _ _ (by omega)]
          · intro _
            obtain ⟨hw1, hrw⟩ := hrows (fun e he1 ht1 => by
              simp only at he1
              rw [he] at he1
              simp only [Option.some.injEq] at he1
              rw [← he1] at ht1
              exact absurd ht1 ht)
            refine ⟨hw1, ?_⟩
            have hsplit : count1 - count = (count1 - (count + 1)) + 1 := by omega
            rw [hsplit, List.range'_succ, List.map_cons, List.cons_append, hrw,
              remaining_rows_emit data entry f he ht hget,
              row_congr output1 _ count (fun i => hfr count (by omega) i), AddFunction_row]
    · exact ⟨data, count, output, pragma_functions_loop_exit _ _ _ _ _ hc, rfl, le_refl _, id, hc,
        fun _ _ _ => rfl, fun hw => ⟨hw, by simp⟩⟩

end sqlite

namespace sqlite

theorem pragma_functions_call (svs : Nat) (data : PragmaFunctionsData) (output : DataChunk)
    (h : data.offset < data.entries.length) :
    ∃ data1 output1, pragma_functions svs data output = some (data1, output1) ∧
      data1.entries = data.entries ∧ output1.size ≤ svs ∧
      (output1.size < svs → data1.entries.length ≤ data1.offset) ∧
      (data.well_formed → data1.well_formed ∧
        output1.rows ++ remaining_rows data1 = remaining_rows data) := by
  obtain ⟨data1, count1, output1, hr, hen, _, hsv, hex, _, hrows⟩ :=
    pragma_functions_loop_spec svs (svs + data.entries.length) data 0 output (by omega)
  have hn : ¬ data.offset ≥ data.entries.length := by omega
  refine ⟨data1, output1.SetCardinality count1, ?_, hen, hsv (Nat.zero_le _), ?_, ?_⟩
  · simp only [pragma_functions, hn, if_false, hr]
  · intro hlt
    have hlt1 : count1 < svs := hlt
    by_contra hcon
    exact hex ⟨hlt1, by omega⟩
  · intro hw
    obtain ⟨hw1, hrw⟩ := hrows hw
    refine ⟨hw1, ?_⟩
    rw [← hrw, Nat.sub_zero, ← List.range_eq_range']
    rfl

theorem pragma_functions_scan_done (svs calls : Nat) (data : PragmaFunctionsData)
    (output : DataChunk) (h : data.entries.length ≤ data.offset) :
    pragma_functions_scan svs (calls + 1) data output = some [] := by
  have h1 : data.offset ≥ data.entries.length := h
  simp only [pragma_functions_scan, h1, if_true]

theorem rows_length (output : DataChunk) : output.rows.length = output.size := by
  simp [DataChunk.rows, DataChunk.size]

theorem pragma_functions_scan_spec (svs : Nat) (hsvs : 0 < svs) :
    ∀ (calls : Nat) (data : PragmaFunctionsData) (output : DataChunk), data.well_formed →
      (remaining_rows data).length + 2 ≤ calls →
      pragma_functions_scan svs calls data output = some (remaining_rows data) := by
  intro calls
  induction calls with
  | zero => intro data output _ h; omega
  | succ calls ih =>
    intro data output hw hcalls
    by_cases hd : data.entries.length ≤ data.offset
    · rw [pragma_functions_scan_done svs calls data output hd, remaining_rows_done data hd]
    · have hn : ¬ data.offset ≥ data.entries.length := hd
      obtain ⟨data1, output1, hr, _, _, hstop, hrows⟩ :=
        pragma_functions_call svs data (output.SetCardinality 0) (by omega)
      obtain ⟨hw1, hrw⟩ := hrows hw
      have hlen : output1.size + (remaining_rows data1).length = (remaining_rows data).length := by
        rw [← hrw, List.length_append, rows_length]
      have hnext : pragma_functions_scan svs calls data1 output1 =
          some (remaining_rows data1) := by
        by_cases hfull : output1.size < svs
        · have hd1 := hstop hfull
          obtain ⟨c, hc⟩ : ∃ c, calls = c + 1 := ⟨calls - 1, by omega⟩
          rw [hc, pragma_functions_scan_done svs c data1 output1 hd1,
            remaining_rows_done data1 hd1]
        · exact ih data1 output1 hw1 (by omega)
      simp only [pragma_functions_scan, hn, if_false, hr, hnext, hrw]

theorem entry_rows_count (entries : List CatalogEntry)
    (h : ∀ entry ∈ entries, entry.type ≠ .TABLE_ENTRY) :
    (entries.flatMap entry_rows).length =
      (entries.map (fun entry => entry.functions.length)).sum := by
  induction entries with
  | nil => rfl
  | cons entry rest ih =>
    rw [List.flatMap_cons, List.length_append, ih (fun e he => h e (List.mem_cons_of_mem _ he)),
      entry_rows_function entry (h entry (List.mem_cons_self _ _))]
    simp

/-- C28: `pragma_functions` paginates without loss or duplication, for every vector size
`svs > 0` and every list of catalog entries. A call on a finished scan returns at once and
changes nothing; every other call returns (its loop ends within `svs + |entries|` iterations),
keeps the entries and emits at most `svs` rows. The rows of successive calls from the initial
state, up to the first call that finds `offset >= |entries|`, are `entry_rows` of every entry
in entry order, each being one row per overload in overload order; when every entry is a scalar
or aggregate function entry that is as many rows as there are overloads. -/
theorem pragma_functions_paginates (svs : Nat) (hsvs : 0 < svs) (entries : List CatalogEntry) :
    (∀ data output, data.entries.length ≤ data.offset →
        pragma_functions svs data output = some (data, output)) ∧
      (∀ data output, data.offset < data.entries.length →
        ∃ data1 output1, pragma_functions svs data output = some (data1, output1) ∧
          data1.entries = data.entries ∧ output1.size ≤ svs ∧
          output1.rows.length = output1.size) ∧
      (∀ calls output, (entries.flatMap entry_rows).length + 2 ≤ calls →
        pragma_functions_scan svs calls (PragmaFunctionsData.new entries) output =
          some (entries.flatMap entry_rows)) ∧
      ((∀ entry ∈ entries, entry.type ≠ .TABLE_ENTRY) →
        (entries.flatMap entry_rows).length =
          (entries.map (fun entry => entry.functions.length)).sum) := by
  refine ⟨?_, ?_, ?_, entry_rows_count entries⟩
  · intro data output h
    have h1 : data.offset ≥ data.entries.length := h
    simp only [pragma_functions, h1, if_true]
  · intro data output h
    obtain ⟨data1, output1, hr, hen, hsz, _, _⟩ := pragma_functions_call svs data output h
    exact ⟨data1, output1, hr, hen, hsz, rows_length output1⟩
  · intro calls output hcalls
    have hw : (PragmaFunctionsData.new entries).well_formed := fun _ _ _ => rfl
    rw [← remaining_rows_new entries] at hcalls ⊢
    exact pragma_functions_scan_spec svs hsvs calls _ output hw hcalls

theorem pragma_functions_paginates_witness :
    0 < 2 ∧
      pragma_functions_scan 2 5 (PragmaFunctionsData.new [abs_entry, sum_entry]) blank_chunk =
        some ([abs_entry, sum_entry].flatMap entry_rows) ∧
      (pragma_functions 2 (PragmaFunctionsData.new [abs_entry, sum_entry]) blank_chunk).map
        (fun r => (r.1, r.2.rows)) =
        some (⟨[abs_entry, sum_entry], 0, 2⟩, abs_entry.functions.map (function_row · false)) :=
  ⟨by decide,
    (pragma_functions_paginates 2 (by decide) [abs_entry, sum_entry]).2.2.1 5 blank_chunk
      (by decide),
    by decide⟩

end sqlite

end duckdb
